import Mathlib

/-!
# System monitoring tool: rate aggregation and history rendering

A shallow embedding of `stats_functions.c` (`memoryGraphicsOutput`, `systemOutput`,
`CPUGraphics`, `CPUOutput`) and of the sampling loop `display` of `mySystemStats.c`,
together with the properties of the specification that concern them.

Conventions of the embedding.

* `long int` is a 64-bit two's-complement integer: values are `Int`, and every addition
  is followed by `wrapLong`.
* `double` is IEEE-754 binary64 with round-to-nearest, ties-to-even. A finite double is
  kept as a pair `m * 2 ^ e`; every arithmetic operation computes the exact result and
  rounds it to 53 significant bits with `rndQ`. The exponent is unbounded (no overflow to
  infinity, no gradual underflow) and there is no negative zero, infinity or NaN: the
  quantities of this program are tick counts and gigabytes, far inside the binary64 range.
* A C string is a `List Char`; a write outside the array it targets makes the result
  `none`.
* A child process of `display` is the list of its steps that the parent can observe: the
  writes to its pipe and the two `kill` calls of its error branches; `runChild` executes
  the list.
-/

namespace SysMon

/-! ## binary64 -/

/-- Number of halvings until `n` drops below 2, with `fuel` steps available. -/
def log2Fuel : Nat → Nat → Nat
  | 0, _ => 0
  | fuel + 1, n => if n < 2 then 0 else log2Fuel fuel (n / 2) + 1

/-- Floor of the binary logarithm of `n` (0 for `n = 0`). -/
def flog2 (n : Nat) : Nat := log2Fuel n n

/-- Floor of the binary logarithm of the positive rational `n / d`. -/
def ilog2 (n d : Nat) : Int :=
  let k : Int := (flog2 n : Int) - (flog2 d : Int)
  if 0 ≤ k then (if d * 2 ^ k.toNat ≤ n then k else k - 1)
  else (if d ≤ n * 2 ^ (-k).toNat then k else k - 1)

/-- Nearest natural number to `N / D`, ties going to the even neighbour. -/
def roundEven (N D : Nat) : Nat :=
  let f := N / D
  let r := N % D
  if 2 * r < D then f else if D < 2 * r then f + 1 else if f % 2 = 0 then f else f + 1

/-- A finite double `m * 2 ^ e`. The results of `rndQ` are normalised: `m = 0 ∧ e = 0`,
or `2 ^ 52 ≤ |m| < 2 ^ 53`. -/
structure F64 where
  m : Int
  e : Int
deriving DecidableEq

/-- The power `2 ^ k` as an integer. -/
def pow2 (k : Nat) : Int := ((2 ^ k : Nat) : Int)

/-- The significand of `a / d` before renormalisation: `a / d` scaled into
`[2 ^ 52, 2 ^ 53)` and rounded to the nearest integer, ties to even. -/
def sig (a d : Nat) : Nat :=
  let s := ilog2 a d - 52
  if 0 ≤ s then roundEven a (d * 2 ^ s.toNat) else roundEven (a * 2 ^ (-s).toNat) d

/-- The sign of a non-zero integer. -/
def sgn (n : Int) : Int := if n < 0 then -1 else 1

/-- Round the exact value `n / d * 2 ^ E` to binary64 (nearest, ties to even). -/
def rndQ (n : Int) (d : Nat) (E : Int) : F64 :=
  if n = 0 then ⟨0, 0⟩
  else if sig n.natAbs d = 2 ^ 53 then ⟨sgn n * pow2 52, ilog2 n.natAbs d - 52 + 1 + E⟩
  else ⟨sgn n * (sig n.natAbs d : Int), ilog2 n.natAbs d - 52 + E⟩

namespace F64

/-- The rational number a double stands for. -/
def toRat (x : F64) : ℚ := (x.m : ℚ) * (2 : ℚ) ^ x.e

/-- Conversion of an integer to double, as in the C cast `(double) n`. -/
def ofInt (n : Int) : F64 := rndQ n 1 0

/-- The double written as the decimal literal `n / d` in the source. -/
def lit (n : Int) (d : Nat) : F64 := rndQ n d 0

/-- Numerators of `a` and `b` over the common exponent `min a.e b.e`. -/
def num (a b : F64) : Int := a.m * pow2 (a.e - min a.e b.e).toNat

def add (a b : F64) : F64 := rndQ (num a b + num b a) 1 (min a.e b.e)

def sub (a b : F64) : F64 := rndQ (num a b - num b a) 1 (min a.e b.e)

def mul (a b : F64) : F64 := rndQ (a.m * b.m) 1 (a.e + b.e)

/-- Division. A zero divisor (infinity or NaN in C) is outside the model and yields 0;
`CPUOutput_divisor_ne_zero` shows that `CPUOutput` never divides by zero, and
`memoryGraphicsOutput` divides by the constant 0.01. -/
def div (a b : F64) : F64 :=
  if b.m = 0 then ⟨0, 0⟩
  else rndQ ((if b.m < 0 then -1 else 1) * a.m) b.m.natAbs (a.e - b.e)

/-- The C library function `fabs`. -/
def fabs (x : F64) : F64 := ⟨x.m.natAbs, x.e⟩

/-- The comparison `a < b` of C. -/
def lt (a b : F64) : Prop := num a b < num b a

/-- The comparison `a <= b` of C. -/
def le (a b : F64) : Prop := num a b ≤ num b a

instance (a b : F64) : Decidable (lt a b) := by unfold lt; infer_instance

instance (a b : F64) : Decidable (le a b) := by unfold le; infer_instance

/-- Truncation toward zero to a mathematical integer. -/
def trunc (x : F64) : Int :=
  if 0 ≤ x.e then x.m * pow2 x.e.toNat else x.m.tdiv (pow2 (-x.e).toNat)

/-- The C cast `(int) x`; `none` when the truncated value does not fit a 32-bit `int`
(undefined behaviour in C). -/
def toInt (x : F64) : Option Int :=
  let t := trunc x
  if -pow2 31 ≤ t ∧ t < pow2 31 then some t else none

/-- Whether the pair is a binary64 value in normal form: zero, or a 53-bit significand
with an exponent in the double range. -/
def isDouble (x : F64) : Bool :=
  (x.m = 0 ∧ x.e = 0) ∨ (2 ^ 52 ≤ x.m.natAbs ∧ x.m.natAbs < 2 ^ 53 ∧ -1074 ≤ x.e ∧ x.e ≤ 971)

/-- The double is an integer whose exponent is at least -53. -/
def IsIntegral (x : F64) : Prop := -53 ≤ x.e ∧ pow2 (-x.e).toNat ∣ x.m

/-- The text `printf` produces for the conversion `%.2f`: the exact value rounded to two
decimals (ties to even), with at least one digit before the point. -/
def fmt2 (x : F64) : List Char :=
  let a := x.m.natAbs
  let r := if 0 ≤ x.e then a * 100 * 2 ^ x.e.toNat else roundEven (a * 100) (2 ^ (-x.e).toNat)
  let body := Nat.toDigits 10 (r / 100) ++ ['.', Nat.digitChar (r % 100 / 10), Nat.digitChar (r % 10)]
  if x.m < 0 then '-' :: body else body

end F64

/-! ## `long int` -/

/-- Reduction of an integer to the range of a 64-bit two's-complement `long int`. -/
def wrapLong (x : Int) : Int := (x + pow2 63) % pow2 64 - pow2 63

/-- Addition of two `long int` values. -/
def addLong (a b : Int) : Int := wrapLong (a + b)

/-- The text `printf` produces for `%ld` and `%d`. -/
def fmtInt (n : Int) : List Char :=
  if n < 0 then '-' :: Nat.toDigits 10 n.natAbs else Nat.toDigits 10 n.natAbs

/-! ## Data model (`stats_functions.h`) -/

/-- The struct `memory`: sizes in gigabytes. -/
structure memory where
  total_memory : F64
  used_memory : F64
  total_virtual : F64
  used_virtual : F64
deriving DecidableEq

/-- The struct `cpu_stats`: cumulative tick counters of the first line of `/proc/stat`. -/
structure cpu_stats where
  user : Int
  nice : Int
  system : Int
  idle : Int
  iowait : Int
  irq : Int
  softirq : Int
deriving DecidableEq

/-- A history array `char terminal[1024][1024]`: row index to the C string in that row. -/
abbrev Terminal := Nat → List Char

/-- The rows `terminal[0] .. terminal[i]`, as printed by the replay loops. -/
def replay (terminal : Terminal) (i : Nat) : List (List Char) :=
  (List.range (i + 1)).map terminal

/-! ## CPU panel (`CPUGraphics`, `CPUOutput`) -/

/-- The function `CPUGraphics`: the new history and the lines printed. `none` when a write
falls outside `terminal[i]` or the cast `(int) usage` is undefined. -/
def CPUGraphics (terminal : Terminal) (usage : F64) (i : Int) : Option (Terminal × List (List Char)) :=
  match F64.toInt usage with
  | none => none
  | some u =>
    let visual_len : Int := u + 12
    if i < 0 ∨ 1024 ≤ i ∨ visual_len < 0 then none
    else
      -- strcpy of nine spaces, bars at indices 9 .. visual_len - 1, terminator at visual_len
      let bar := ("         ".toList ++ List.replicate (visual_len.toNat - 9) '|').take visual_len.toNat
      -- sprintf at offset visual_len
      let line := bar ++ ' ' :: F64.fmt2 usage
      if 1024 < line.length + 1 then none
      else
        let terminal1 := Function.update terminal i.toNat line
        some (terminal1, replay terminal1 i.toNat)

/-- The sum `cpu_total` of the non-idle counters, in `long int` arithmetic. -/
def cpu_total (info : cpu_stats) : Int :=
  addLong (addLong (addLong (addLong (addLong info.user info.nice) info.system) info.iowait) info.irq)
    info.softirq

/-- The local `total_prev` of `CPUOutput`. -/
def total_prev (cpu_previous idle_previous : Int) : Int := addLong cpu_previous idle_previous

/-- The local `total_cur` of `CPUOutput`. -/
def total_cur (info : cpu_stats) : Int := addLong info.idle (cpu_total info)

/-- The local `totald` of `CPUOutput`. -/
def totald (cpu_previous idle_previous : Int) (info : cpu_stats) : F64 :=
  F64.sub (F64.ofInt (total_cur info)) (F64.ofInt (total_prev cpu_previous idle_previous))

/-- The local `idled` of `CPUOutput`. -/
def idled (idle_previous : Int) (info : cpu_stats) : F64 :=
  F64.sub (F64.ofInt info.idle) (F64.ofInt idle_previous)

/-- The value of `cpu_use` before the test `cpu_use > 100`. -/
def cpu_use_raw (cpu_previous idle_previous : Int) (info : cpu_stats) : F64 :=
  let td := totald cpu_previous idle_previous info
  let id := idled idle_previous info
  F64.fabs (F64.div
    (F64.add (F64.div (F64.mul (F64.ofInt 1000) (F64.sub td id)) (F64.add td (F64.lit 1 1000000)))
      (F64.ofInt 1))
    (F64.ofInt 10))

/-- The value of `cpu_use` that `CPUOutput` prints and passes to `CPUGraphics`. -/
def cpu_use (cpu_previous idle_previous : Int) (info : cpu_stats) : F64 :=
  let c := cpu_use_raw cpu_previous idle_previous info
  if F64.lt (F64.ofInt 100) c then F64.ofInt 100 else c

/-- What a call of `CPUOutput` leaves behind. -/
structure CPUResult where
  /-- the value of `*cpu_previous` after the call -/
  cpu_previous : Int
  /-- the value of `*idle_previous` after the call -/
  idle_previous : Int
  /-- the percentage computed -/
  cpu_use : F64
  /-- whether the process sent itself SIGTERM (`sysconf` failed) -/
  killed : Bool
  /-- the lines written to standard output -/
  out : List (List Char)
  /-- the history array after the call; `none` when `CPUGraphics` wrote out of bounds -/
  terminal : Option Terminal

/-- The function `CPUOutput`. `num_cores` is the value `sysconf` returns. -/
def CPUOutput (terminal : Terminal) (graphics : Bool) (i : Int) (cpu_previous idle_previous : Int)
    (info : cpu_stats) (num_cores : Int) : CPUResult :=
  let use := cpu_use cpu_previous idle_previous info
  let head : List (List Char) :=
    ["--------------------------------------------".toList,
     "Number of Cores: ".toList ++ fmtInt num_cores,
     " total cpu use: ".toList ++ F64.fmt2 use ++ ['%']]
  if num_cores < 0 then
    ⟨cpu_total info, info.idle, use, true, [], some terminal⟩
  else if graphics then
    match CPUGraphics terminal use i with
    | none => ⟨cpu_total info, info.idle, use, false, head, none⟩
    | some (terminal1, lines) => ⟨cpu_total info, info.idle, use, false, head ++ lines, some terminal1⟩
  else
    ⟨cpu_total info, info.idle, use, false, head, some terminal⟩

/-- The value lies in the range of a `long int`. -/
def inLong (x : Int) : Prop := -pow2 63 ≤ x ∧ x < pow2 63

instance (x : Int) : Decidable (inLong x) := by unfold inLong; infer_instance

/-- No `long int` addition of `CPUOutput` overflows on these arguments (signed overflow is
undefined behaviour in C). -/
def NoOverflow (cpu_previous idle_previous : Int) (info : cpu_stats) : Prop :=
  inLong (info.user + info.nice) ∧
  inLong (info.user + info.nice + info.system) ∧
  inLong (info.user + info.nice + info.system + info.iowait) ∧
  inLong (info.user + info.nice + info.system + info.iowait + info.irq) ∧
  inLong (info.user + info.nice + info.system + info.iowait + info.irq + info.softirq) ∧
  inLong (info.idle + (info.user + info.nice + info.system + info.iowait + info.irq + info.softirq)) ∧
  inLong (cpu_previous + idle_previous)

instance (cp ip : Int) (info : cpu_stats) : Decidable (NoOverflow cp ip info) := by
  unfold NoOverflow; infer_instance

/-- The unclamped percentage in the words of the specification (section 4.3, `updateCpu`):
`totalCur` and `totalPrev` are exact integer sums, the deltas and the formula are taken in
double arithmetic. -/
def percentUsedSpec (previousTotalTicks previousIdleTicks : Int) (snapshot : cpu_stats) : F64 :=
  let totalCur : Int := snapshot.idle +
    (snapshot.user + snapshot.nice + snapshot.system + snapshot.iowait + snapshot.irq + snapshot.softirq)
  let totalPrev : Int := previousTotalTicks + previousIdleTicks
  let totalDelta := F64.sub (F64.ofInt totalCur) (F64.ofInt totalPrev)
  let idleDelta := F64.sub (F64.ofInt snapshot.idle) (F64.ofInt previousIdleTicks)
  F64.fabs (F64.div
    (F64.add
      (F64.div (F64.mul (F64.ofInt 1000) (F64.sub totalDelta idleDelta))
        (F64.add totalDelta (F64.lit 1 1000000)))
      (F64.ofInt 1))
    (F64.ofInt 10))

/-! ## Memory panel (`memoryGraphicsOutput`, `systemOutput`) -/

/-- The double zero. -/
def F64.zero : F64 := ⟨0, 0⟩

/-- The local `diff` of `memoryGraphicsOutput`: at round 0 the stored previous value is
first overwritten with the current one. -/
def memoryGraphicsOutput.diff (memory_current memory_previous : F64) (i : Int) : F64 :=
  F64.sub memory_current (if i = 0 then memory_current else memory_previous)

/-- The local `abs_diff` of `memoryGraphicsOutput`. -/
def memoryGraphicsOutput.abs_diff (memory_current memory_previous : F64) (i : Int) : F64 :=
  F64.fabs (memoryGraphicsOutput.diff memory_current memory_previous i)

/-- The local `visual_len` of `memoryGraphicsOutput`, the cast `(int)(abs_diff / 0.01)`. -/
def memoryGraphicsOutput.visual_len (memory_current memory_previous : F64) (i : Int) : Option Int :=
  F64.toInt (F64.div (memoryGraphicsOutput.abs_diff memory_current memory_previous i) (F64.lit 1 100))

/-- The local `sign` of `memoryGraphicsOutput`, the fill character of the bar. -/
def memoryGraphicsOutput.sign (diff : F64) : Char :=
  if F64.le F64.zero diff then '#' else ':'

/-- The local `last_char` of `memoryGraphicsOutput`. -/
def memoryGraphicsOutput.last_char (diff : F64) (visual_len : Int) : Char :=
  if F64.le F64.zero diff then (if visual_len = 0 then 'o' else '*') else '@'

/-- The local buffer `visual[1024]` of `memoryGraphicsOutput` after `strncat`: the
initialiser, the fill loop over indices `4 .. visual_len + 3`, the terminator at
`visual_len + 4`, then `last_char` appended. `none` when an index is outside the buffer. -/
def memoryGraphicsOutput.visual (diff : F64) (visual_len : Int) : Option (List Char) :=
  if visual_len + 4 < 0 ∨ 1023 < visual_len + 5 then none
  else some
    (("   |".toList ++ List.replicate visual_len.toNat (memoryGraphicsOutput.sign diff)).take
        (visual_len + 4).toNat ++ [memoryGraphicsOutput.last_char diff visual_len])

/-- What a call of `memoryGraphicsOutput` leaves behind. -/
structure MemoryGraphicsResult where
  /-- the string written to `memoryGraphics`; `none` when a write was out of bounds or
  the cast to `int` undefined -/
  memoryGraphics : Option (List Char)
  /-- the value of `*memory_previous` after the call -/
  memory_previous : F64

/-- The function `memoryGraphicsOutput`. -/
def memoryGraphicsOutput (memory_current memory_previous : F64) (i : Int) : MemoryGraphicsResult :=
  let diff := memoryGraphicsOutput.diff memory_current memory_previous i
  let abs_diff := memoryGraphicsOutput.abs_diff memory_current memory_previous i
  match memoryGraphicsOutput.visual_len memory_current memory_previous i with
  | none => ⟨none, memory_current⟩
  | some visual_len =>
    match memoryGraphicsOutput.visual diff visual_len with
    | none => ⟨none, memory_current⟩
    | some visual =>
      -- sprintf with the format "%s %.2f (%.2f)"
      let line := visual ++ ' ' :: F64.fmt2 abs_diff ++ " (".toList ++ F64.fmt2 memory_current ++ [')']
      if 1024 < line.length + 1 then ⟨none, memory_current⟩ else ⟨some line, memory_current⟩

/-- What a call of `systemOutput` leaves behind. -/
structure SystemResult where
  /-- the value of `*memory_previous` after the call -/
  memory_previous : F64
  /-- whether the process sent itself SIGTERM (`sysinfo` failed) -/
  killed : Bool
  /-- the lines written to standard output -/
  out : List (List Char)
  /-- the history array after the call; `none` when a write was out of bounds -/
  terminal : Option Terminal

/-- The numeric panel `"%.2f GB / %.2f GB -- %.2f GB / %.2f GB"` of `systemOutput`. -/
def systemOutput.panel (info : memory) : List Char :=
  F64.fmt2 info.used_memory ++ " GB / ".toList ++ F64.fmt2 info.total_memory ++
    " GB -- ".toList ++ F64.fmt2 info.used_virtual ++ " GB / ".toList ++
    F64.fmt2 info.total_virtual ++ " GB".toList

/-- The function `systemOutput`. `sysinfo_ok` tells whether the call of `sysinfo`
succeeded. -/
def systemOutput (terminal : Terminal) (graphics : Bool) (i : Int) (memory_previous : F64)
    (info : memory) (sysinfo_ok : Bool) : SystemResult :=
  let head : List (List Char) :=
    ["--------------------------------------------".toList,
     "### Memory ### (Phys.Used/Tot -- Virtual Used/Tot)".toList]
  if !sysinfo_ok then ⟨memory_previous, true, head, some terminal⟩
  else if i < 0 ∨ 1024 ≤ i ∨ 1024 < (systemOutput.panel info).length + 1 then
    ⟨memory_previous, false, head, none⟩
  else if graphics then
    let g := memoryGraphicsOutput info.used_memory memory_previous i
    match g.memoryGraphics with
    | none => ⟨g.memory_previous, false, head, none⟩
    | some graphics_output =>
      -- strcat
      let line := systemOutput.panel info ++ graphics_output
      if 1024 < line.length + 1 then ⟨g.memory_previous, false, head, none⟩
      else
        let terminal1 := Function.update terminal i.toNat line
        ⟨g.memory_previous, false, head ++ replay terminal1 i.toNat, some terminal1⟩
  else
    let terminal1 := Function.update terminal i.toNat (systemOutput.panel info)
    ⟨memory_previous, false, head ++ replay terminal1 i.toNat, some terminal1⟩

/-! ## The sampling loop (`display` of `mySystemStats.c`) -/

/-- The text written by printing each line followed by a newline. -/
def unlines (lines : List (List Char)) : List Char :=
  lines.flatMap (fun l => l ++ ['\n'])

/-- The strings `uname` fills in. -/
structure utsname where
  sysname : List Char
  nodename : List Char
  version : List Char
  release : List Char
  machine : List Char

/-- What the operating system and the three child processes answer in one round. -/
structure Sample where
  /-- whether the three pipes and the three child processes could be created -/
  spawn_ok : Bool
  /-- `ru_maxrss` of `getrusage`, `none` when the call fails -/
  getrusage : Option Int
  /-- the struct read from the memory pipe -/
  mem : memory
  /-- whether `sysinfo` succeeds in `systemOutput` -/
  sysinfo_ok : Bool
  /-- the text read from the user pipe -/
  users : List Char
  /-- the struct read from the cpu pipe -/
  cpu : cpu_stats
  /-- the value `sysconf` returns in `CPUOutput` -/
  num_cores : Int
  /-- the answer of `uname`, `none` when the call fails -/
  uname : Option utsname

/-- How the process stands. -/
inductive Status where
  /-- still inside `display` -/
  | running
  /-- left through `exit` with this code -/
  | exited (code : Int)
  /-- terminated by the SIGTERM it sent itself -/
  | killed
  /-- a write went outside a history array -/
  | undefined
deriving DecidableEq

/-- The locals of `display` that live across rounds, and the output so far. -/
structure DisplayState where
  terminal_memory_output : Terminal
  CPU_output : Terminal
  memory_previous : F64
  cpu_previous : Int
  idle_previous : Int
  /-- everything written to standard output -/
  stdout : List Char
  status : Status

/-- The function `headerUsage`: the lines printed, `none` when `getrusage` fails. -/
def headerUsage (samples tdelay : Int) (getrusage : Option Int) : Option (List (List Char)) :=
  match getrusage with
  | none => none
  | some used_memory =>
    some ["Nbr of samples: ".toList ++ fmtInt samples ++ " -- every ".toList ++ fmtInt tdelay ++
            " secs".toList,
          "Memory usage: ".toList ++ fmtInt used_memory ++ " kilobytes".toList]

/-- The function `footerUsage`: the lines printed, `none` when `uname` fails. -/
def footerUsage (uname : Option utsname) : Option (List (List Char)) :=
  match uname with
  | none => none
  | some sysinfo =>
    some ["--------------------------------------------".toList,
          "### System Information ###".toList,
          " System Name = ".toList ++ sysinfo.sysname,
          " Machine Name = ".toList ++ sysinfo.nodename,
          " Version = ".toList ++ sysinfo.version,
          " Release = ".toList ++ sysinfo.release,
          " Architecture = ".toList ++ sysinfo.machine,
          "--------------------------------------------".toList]

/-- The state of `display` on entry to the loop: the history arrays and `memory_previous`
are uninitialised (any content), `cpu_previous` and `idle_previous` are 0. The call
`CPUOutput(CPU_output, graphics, -1, ...)` that would seed the CPU state is commented out
in the source, so nothing else happens before round 0. -/
def display.init (terminal_memory_output CPU_output : Terminal) (memory_previous : F64) :
    DisplayState :=
  ⟨terminal_memory_output, CPU_output, memory_previous, 0, 0, [], Status.running⟩

/-- The call of `CPUOutput` that round `i` of `display` makes. -/
def display.cpuCall (graphics : Bool) (st : DisplayState) (i : Int) (s : Sample) : CPUResult :=
  CPUOutput st.CPU_output graphics i st.cpu_previous st.idle_previous s.cpu s.num_cores

/-- The call of `systemOutput` that round `i` of `display` makes. -/
def display.systemCall (graphics : Bool) (st : DisplayState) (i : Int) (s : Sample) : SystemResult :=
  systemOutput st.terminal_memory_output graphics i st.memory_previous s.mem s.sysinfo_ok

/-- The memory part of a round: `systemOutput`, then `samples - i - 1` empty lines. -/
def display.memoryPart (samples : Int) (system graphics : Bool) (st : DisplayState) (i : Int)
    (s : Sample) : DisplayState :=
  if !system then st
  else
    let r := display.systemCall graphics st i s
    let st1 : DisplayState := ⟨st.terminal_memory_output, st.CPU_output, r.memory_previous,
      st.cpu_previous, st.idle_previous, st.stdout ++ unlines r.out, st.status⟩
    if r.killed then ⟨st1.terminal_memory_output, st1.CPU_output, st1.memory_previous,
      st1.cpu_previous, st1.idle_previous, st1.stdout, Status.killed⟩
    else
      match r.terminal with
      | none => ⟨st1.terminal_memory_output, st1.CPU_output, st1.memory_previous,
          st1.cpu_previous, st1.idle_previous, st1.stdout, Status.undefined⟩
      | some t => ⟨t, st1.CPU_output, st1.memory_previous, st1.cpu_previous, st1.idle_previous,
          st1.stdout ++ unlines (List.replicate (samples - i - 1).toNat []), st1.status⟩

/-- The sessions part of a round: the divider, the title and the text of the user pipe. -/
def display.userPart (user : Bool) (st : DisplayState) (s : Sample) : DisplayState :=
  if !user then st
  else ⟨st.terminal_memory_output, st.CPU_output, st.memory_previous, st.cpu_previous,
    st.idle_previous,
    st.stdout ++ unlines ["--------------------------------------------".toList,
      "### Sessions/users ###".toList] ++ s.users, st.status⟩

/-- The CPU part of a round: `CPUOutput` on the struct read from the cpu pipe. -/
def display.cpuPart (system graphics : Bool) (st : DisplayState) (i : Int) (s : Sample) :
    DisplayState :=
  if !system then st
  else
    let r := display.cpuCall graphics st i s
    match r.terminal with
    | none => ⟨st.terminal_memory_output, st.CPU_output, st.memory_previous, r.cpu_previous,
        r.idle_previous, st.stdout ++ unlines r.out, Status.undefined⟩
    | some t => ⟨st.terminal_memory_output, t, st.memory_previous, r.cpu_previous,
        r.idle_previous, st.stdout ++ unlines r.out,
        if r.killed then Status.killed else st.status⟩

/-- One iteration of the loop of `display`, in the parent process. -/
def display.round (samples tdelay : Int) (system user graphics sequential : Bool)
    (st : DisplayState) (i : Int) (s : Sample) : DisplayState :=
  if st.status ≠ Status.running then st
  else if !s.spawn_ok then
    ⟨st.terminal_memory_output, st.CPU_output, st.memory_previous, st.cpu_previous,
      st.idle_previous, st.stdout, Status.exited 1⟩
  else
    let mark : List Char :=
      if !sequential then "\x1b[2J \x1b[1;1H\n".toList
      else ">>> iteration ".toList ++ fmtInt i ++ ['\n']
    let st0 : DisplayState := ⟨st.terminal_memory_output, st.CPU_output, st.memory_previous,
      st.cpu_previous, st.idle_previous, st.stdout ++ mark, st.status⟩
    match headerUsage samples tdelay s.getrusage with
    | none => ⟨st0.terminal_memory_output, st0.CPU_output, st0.memory_previous, st0.cpu_previous,
        st0.idle_previous, st0.stdout, Status.killed⟩
    | some h =>
      let st1 : DisplayState := ⟨st0.terminal_memory_output, st0.CPU_output, st0.memory_previous,
        st0.cpu_previous, st0.idle_previous, st0.stdout ++ unlines h, st0.status⟩
      let st2 := display.memoryPart samples system graphics st1 i s
      if st2.status ≠ Status.running then st2
      else
        let st3 := display.userPart user st2 s
        let st4 := display.cpuPart system graphics st3 i s
        if st4.status ≠ Status.running then st4
        else
          match footerUsage s.uname with
          | none => ⟨st4.terminal_memory_output, st4.CPU_output, st4.memory_previous,
              st4.cpu_previous, st4.idle_previous, st4.stdout, Status.killed⟩
          | some f => ⟨st4.terminal_memory_output, st4.CPU_output, st4.memory_previous,
              st4.cpu_previous, st4.idle_previous, st4.stdout ++ unlines f, st4.status⟩

/-- The loop of `display` over rounds `0 .. samples - 1`; `env i` is what round `i` reads. -/
def display.loop (samples tdelay : Int) (system user graphics sequential : Bool)
    (env : Nat → Sample) : Nat → DisplayState → DisplayState
  | 0, st => st
  | n + 1, st =>
    let st1 := display.loop samples tdelay system user graphics sequential env n st
    display.round samples tdelay system user graphics sequential st1 (n : Int) (env n)

/-- The function `display` once the two signal handlers are installed. The first three
arguments are the uninitialised contents of the locals. -/
def display (terminal_memory_output CPU_output : Terminal) (memory_previous : F64)
    (samples tdelay : Int) (system user graphics sequential : Bool) (env : Nat → Sample) :
    DisplayState :=
  display.loop samples tdelay system user graphics sequential env samples.toNat
    (display.init terminal_memory_output CPU_output memory_previous)

/-! ## The interrupt handler (`signal_handler` of `mySystemStats.c`) -/

/-- The signal number of SIGINT. -/
def SIGINT : Int := 2

/-- The signal number of SIGTSTP. -/
def SIGTSTP : Int := 20

/-- What the call `scanf(" %c", &ans)` of the handler yields: end of input (with `errno`
equal to `EINTR` or not), or one character stored in `ans`. -/
inductive ScanResult where
  /-- the call returned `EOF`; the flag tells whether `errno == EINTR` -/
  | eof (eintr : Bool)
  /-- the call stored this character -/
  | char (ans : Char)

/-- What a call of `signal_handler` leaves behind. -/
structure HandlerResult where
  /-- the text written to standard output -/
  out : List Char
  /-- how many times `scanf` was called -/
  reads : Nat
  /-- `running` when the handler returns, `exited code` when it calls `exit` -/
  status : Status
deriving DecidableEq

/-- The two `printf` calls that open the confirmation dialogue. -/
def signal_handler.question : List Char :=
  "\nCtrl-C detected: ".toList ++ "Do you want to quit? (press 'y' if yes) ".toList

/-- The function `signal_handler`; `scan` is what `scanf` yields if it is called. -/
def signal_handler (sig : Int) (scan : ScanResult) : HandlerResult :=
  if sig = SIGTSTP then ⟨[], 0, Status.running⟩
  else if sig = SIGINT then
    match scan with
    | ScanResult.eof true =>
      ⟨signal_handler.question ++ "\nSignal detected during scanf, resuming...\n".toList, 1,
        Status.running⟩
    | ScanResult.eof false => ⟨signal_handler.question, 1, Status.exited 1⟩
    | ScanResult.char ans =>
      if ans = 'y' ∨ ans = 'Y' then ⟨signal_handler.question, 1, Status.exited 0⟩
      else ⟨signal_handler.question ++ "Resuming...\n".toList, 1, Status.running⟩
  else ⟨[], 0, Status.running⟩

/-- The state with `o` put in front of everything written so far. -/
def DisplayState.prepend (o : List Char) (st : DisplayState) : DisplayState :=
  ⟨st.terminal_memory_output, st.CPU_output, st.memory_previous, st.cpu_previous,
    st.idle_previous, o ++ st.stdout, st.status⟩

/-- The text contains neither the escape character, with which the clear-screen sequence
starts, nor the character '>', with which the iteration marker starts. -/
def Plain (l : List Char) : Prop := ∀ c ∈ l, c ≠ '\x1b' ∧ c ≠ '>'

instance (l : List Char) : Decidable (Plain l) := by unfold Plain; infer_instance

/-- Everything written so far and every row of the two histories is plain. -/
def DisplayState.AllPlain (st : DisplayState) : Prop :=
  Plain st.stdout ∧ (∀ k, Plain (st.terminal_memory_output k)) ∧ (∀ k, Plain (st.CPU_output k))

/-- The five strings of `uname` are plain. -/
def utsname.AllPlain (u : utsname) : Prop :=
  Plain u.sysname ∧ Plain u.nodename ∧ Plain u.version ∧ Plain u.release ∧ Plain u.machine

/-- The counters of the specification scenario at round 0. -/
def scenario0 : cpu_stats := ⟨100, 0, 50, 9000, 10, 0, 0⟩

/-- The counters of the specification scenario at round 1. -/
def scenario1 : cpu_stats := ⟨120, 0, 60, 9100, 15, 0, 0⟩

/-- A round-0 sample whose CPU counters are those of the scenario. -/
def sample0 : Sample :=
  ⟨true, some 2048, ⟨F64.ofInt 8, F64.ofInt 2, F64.ofInt 16, F64.ofInt 3⟩, true, [], scenario0, 4,
    some ⟨"Linux".toList, "host".toList, "v1".toList, "6.1".toList, "x86_64".toList⟩⟩

/-! ## The child processes of a round (`userOutput`, `cpuStats`) -/

/-- The natural number `r` is a nearest integer of `M`, the even one at a tie. -/
def NearestEven (M : ℚ) (r : Nat) : Prop :=
  (r : ℚ) ≤ M + 1 / 2 ∧ M ≤ (r : ℚ) + 1 / 2 ∧
  (M = (r : ℚ) + 1 / 2 → r % 2 = 0) ∧ (M + 1 / 2 = (r : ℚ) → r % 2 = 0)

/-- The tick counters are not negative and both totals are below `2 ^ 53`, so that every
counter, sum and difference of `CPUOutput` is a double. -/
def ExactTicks (cpu_previous idle_previous : Int) (info : cpu_stats) : Prop :=
  0 ≤ info.user ∧ 0 ≤ info.nice ∧ 0 ≤ info.system ∧ 0 ≤ info.idle ∧ 0 ≤ info.iowait ∧
  0 ≤ info.irq ∧ 0 ≤ info.softirq ∧ 0 ≤ cpu_previous ∧ 0 ≤ idle_previous ∧
  info.idle + (info.user + info.nice + info.system + info.iowait + info.irq + info.softirq) <
    2 ^ 53 ∧
  cpu_previous + idle_previous < 2 ^ 53

instance (cpu_previous idle_previous : Int) (info : cpu_stats) :
    Decidable (ExactTicks cpu_previous idle_previous info) := by
  unfold ExactTicks
  infer_instance

/-! ## Auxiliary facts about the arithmetic -/

/-- The model reproduces the binary64 values of the constants of the source:
0.1 is `0x3FB999999999999A`, 0.01 is `0x3F847AE147AE147B`, 1e-6 is `0x3EB0C6F7A0B5ED8D`. -/
theorem rndQ_known_values :
    F64.lit 1 10 = ⟨0x1999999999999A, -56⟩ ∧ F64.lit 1 100 = ⟨0x147AE147AE147B, -59⟩ ∧
    F64.lit 1 1000000 = ⟨0x10C6F7A0B5ED8D, -72⟩ ∧ F64.ofInt 1 = ⟨0x10000000000000, -52⟩ ∧
    F64.ofInt 9007199254740993 = ⟨0x10000000000000, 1⟩ ∧
    F64.fmt2 (F64.lit 1 8) = "0.12".toList ∧ F64.fmt2 (F64.lit 2675 1000) = "2.67".toList := by
  decide

theorem pow2_pos (k : Nat) : 0 < pow2 k := by
  unfold pow2; exact_mod_cast Nat.pos_pow_of_pos k (by norm_num)

theorem log2Fuel_le (fuel : Nat) : ∀ n, 1 ≤ n → 2 ^ log2Fuel fuel n ≤ n := by
  induction fuel with
  | zero => intro n hn; simpa [log2Fuel] using hn
  | succ f ih =>
    intro n hn
    unfold log2Fuel
    split_ifs with h
    · simpa using hn
    · have h2 : 1 ≤ n / 2 := by omega
      have := ih (n / 2) h2
      rw [pow_succ]
      omega

theorem le_log2Fuel (fuel : Nat) : ∀ n k, n ≤ fuel → 2 ^ k ≤ n → k ≤ log2Fuel fuel n := by
  induction fuel with
  | zero =>
    intro n k hn hk
    have : 0 < 2 ^ k := Nat.pos_pow_of_pos k (by norm_num)
    omega
  | succ f ih =>
    intro n k hn hk
    unfold log2Fuel
    split_ifs with h
    · rcases k with _ | k
      · omega
      · have : 2 ^ (k + 1) = 2 ^ k * 2 := pow_succ 2 k
        have : 0 < 2 ^ k := Nat.pos_pow_of_pos k (by norm_num)
        omega
    · rcases k with _ | k
      · omega
      · have e1 : 2 ^ (k + 1) = 2 ^ k * 2 := pow_succ 2 k
        have := ih (n / 2) k (by omega) (by omega)
        omega

theorem flog2_le (n : Nat) (hn : 1 ≤ n) : 2 ^ flog2 n ≤ n := log2Fuel_le n n hn

theorem le_flog2 (n k : Nat) (h : 2 ^ k ≤ n) : k ≤ flog2 n := le_log2Fuel n n k le_rfl h

theorem rndQ_zero (d : Nat) (E : Int) : rndQ 0 d E = ⟨0, 0⟩ := by simp [rndQ]

theorem F64.sub_self (x : F64) : F64.sub x x = ⟨0, 0⟩ := by simp [F64.sub, rndQ_zero]

theorem addLong_comm (a b : Int) : addLong a b = addLong b a := by
  unfold addLong; rw [add_comm]

theorem flog2_one : flog2 1 = 0 := by decide

theorem ilog2_one_ge (n : Nat) : (flog2 n : Int) - 1 ≤ ilog2 n 1 := by
  unfold ilog2
  simp only [flog2_one]
  split_ifs <;> omega

theorem ilog2_one_le (n : Nat) (hn : 1 ≤ n) : 2 ^ (ilog2 n 1).toNat ≤ n := by
  have h1 := flog2_le n hn
  unfold ilog2
  simp only [flog2_one]
  split_ifs with h2 h3 h4
  · simpa using h3
  · have : ((flog2 n : Int) - (0 : Nat) - 1).toNat ≤ flog2 n := by omega
    exact le_trans (Nat.pow_le_pow_right (by norm_num) this) h1
  · omega
  · omega

theorem roundEven_ge (N D : Nat) : N / D ≤ roundEven N D := by
  unfold roundEven
  dsimp only
  split_ifs <;> omega

theorem roundEven_one (N : Nat) : roundEven N 1 = N := by
  simp [roundEven, Nat.mod_one]

/-- The significand computed for a positive integer is positive. -/
theorem sig_int_pos (a : Nat) (ha : 1 ≤ a) : 0 < sig a 1 := by
  have hl := ilog2_one_le a ha
  unfold sig
  dsimp only
  split_ifs with h
  · have h1 : 2 ^ (ilog2 a 1 - 52).toNat ≤ a :=
      le_trans (Nat.pow_le_pow_right (by norm_num) (by omega)) hl
    have h2 : 0 < 2 ^ (ilog2 a 1 - 52).toNat := Nat.pos_pow_of_pos _ (by norm_num)
    have h3 : 1 ≤ a / (1 * 2 ^ (ilog2 a 1 - 52).toNat) := by
      rw [one_mul]; exact (Nat.one_le_div_iff h2).2 h1
    exact lt_of_lt_of_le h3 (roundEven_ge _ _)
  · rw [roundEven_one]
    have h2 : 0 < 2 ^ (-(ilog2 a 1 - 52)).toNat := Nat.pos_pow_of_pos _ (by norm_num)
    exact Nat.mul_pos ha h2

theorem sgn_ne_zero (n : Int) : sgn n ≠ 0 := by
  unfold sgn; split_ifs <;> norm_num

/-- Rounding a non-zero integer gives a non-zero significand. -/
theorem rndQ_int_m_ne_zero (n E : Int) (hn : n ≠ 0) : (rndQ n 1 E).m ≠ 0 := by
  have ha : 1 ≤ n.natAbs := by omega
  have hm := sig_int_pos n.natAbs ha
  have hp : 0 < pow2 52 := pow2_pos 52
  unfold rndQ
  rw [if_neg hn]
  split_ifs with h1
  · exact mul_ne_zero (sgn_ne_zero n) (ne_of_gt hp)
  · exact mul_ne_zero (sgn_ne_zero n) (by exact_mod_cast (ne_of_gt hm))

/-- The exponent of a rounded non-zero integer is bounded below by its logarithm. -/
theorem rndQ_int_e_ge (n E : Int) (hn : n ≠ 0) :
    (flog2 n.natAbs : Int) - 53 + E ≤ (rndQ n 1 E).e := by
  have h := ilog2_one_ge n.natAbs
  unfold rndQ
  rw [if_neg hn]
  split_ifs with h1 <;> dsimp only <;> omega

theorem pow2_add (j k : Nat) : pow2 (j + k) = pow2 j * pow2 k := by
  unfold pow2; rw [pow_add]; push_cast; ring

theorem pow2_dvd (j k : Nat) (h : j ≤ k) : pow2 j ∣ pow2 k := by
  obtain ⟨c, rfl⟩ := Nat.exists_eq_add_of_le h
  rw [pow2_add]; exact Dvd.intro _ rfl

theorem ofInt_isIntegral (n : Int) : (F64.ofInt n).IsIntegral := by
  unfold F64.ofInt rndQ F64.IsIntegral
  have hl := ilog2_one_ge n.natAbs
  by_cases hn : n = 0
  · rw [if_pos hn]; simp [pow2]
  · rw [if_neg hn]
    split_ifs with h1
    · dsimp only
      refine ⟨by omega, Dvd.dvd.mul_left (pow2_dvd _ _ (by omega)) _⟩
    · dsimp only
      refine ⟨by omega, Dvd.dvd.mul_left ?_ _⟩
      unfold sig
      dsimp only
      split_ifs with h2
      · have : (-(ilog2 n.natAbs 1 - 52 + 0)).toNat = 0 := by omega
        rw [this]; simp [pow2]
      · rw [roundEven_one]
        have : (-(ilog2 n.natAbs 1 - 52 + 0)).toNat = (-(ilog2 n.natAbs 1 - 52)).toNat := by
          congr 1; omega
        rw [this]
        unfold pow2
        push_cast
        exact Dvd.intro_left _ rfl

theorem num_dvd (x y : F64) (hx : x.IsIntegral) :
    pow2 (-(min x.e y.e)).toNat ∣ F64.num x y := by
  obtain ⟨c, hc⟩ := hx.2
  unfold F64.num
  rw [hc, mul_comm (pow2 _) c, mul_assoc, ← pow2_add]
  exact Dvd.dvd.mul_left (pow2_dvd _ _ (by omega)) _

/-- The difference of two integral doubles is zero or has an exponent of at least -53. -/
theorem sub_integral_e_ge (x y : F64) (hx : x.IsIntegral) (hy : y.IsIntegral) :
    -53 ≤ (F64.sub x y).e := by
  unfold F64.sub
  by_cases hn : F64.num x y - F64.num y x = 0
  · rw [hn, rndQ_zero]; norm_num
  · have h1 := rndQ_int_e_ge _ (min x.e y.e) hn
    have hd : pow2 (-(min x.e y.e)).toNat ∣ F64.num x y - F64.num y x := by
      have h2 := num_dvd x y hx
      have h3 := num_dvd y x hy
      rw [min_comm y.e x.e] at h3
      exact dvd_sub h2 h3
    have h4 : 2 ^ (-(min x.e y.e)).toNat ≤ (F64.num x y - F64.num y x).natAbs := by
      have h5 := Int.natAbs_dvd_natAbs.2 hd
      have h6 : (pow2 (-(min x.e y.e)).toNat).natAbs = 2 ^ (-(min x.e y.e)).toNat := by
        unfold pow2; exact Int.natAbs_ofNat _
      rw [h6] at h5
      exact Nat.le_of_dvd (by omega) h5
    have h7 := le_flog2 _ _ h4
    omega

/-- The divisor `totald + 1e-6` of `CPUOutput` is never zero. -/
theorem CPUOutput_divisor_ne_zero (cpu_previous idle_previous : Int) (info : cpu_stats) :
    (F64.add (totald cpu_previous idle_previous info) (F64.lit 1 1000000)).m ≠ 0 := by
  have he : F64.lit 1 1000000 = ⟨4722366482869645, -72⟩ := by decide
  have hT : -53 ≤ (totald cpu_previous idle_previous info).e :=
    sub_integral_e_ge _ _ (ofInt_isIntegral _) (ofInt_isIntegral _)
  rw [he]
  unfold F64.add
  apply rndQ_int_m_ne_zero
  generalize totald cpu_previous idle_previous info = T at hT
  unfold F64.num
  dsimp only
  have hmin : min T.e (-72) = -72 := by omega
  have hmin2 : min (-72) T.e = -72 := by omega
  rw [hmin, hmin2]
  obtain ⟨k, hk⟩ : ∃ k, (T.e - -72).toNat = k + 1 := ⟨(T.e - -72).toNat - 1, by omega⟩
  rw [hk, pow2_add]
  have h0 : (-72 - -72 : Int).toNat = 0 := by decide
  rw [h0]
  have h1 : pow2 1 = 2 := by decide
  have h2 : pow2 0 = 1 := by decide
  rw [h1, h2]
  intro h
  have : T.m * (pow2 k * 2) = 2 * (T.m * pow2 k) := by ring
  omega

theorem F64.toRat_eq_num (a b : F64) :
    a.toRat = (F64.num a b : ℚ) * (2 : ℚ) ^ (min a.e b.e) := by
  unfold F64.toRat F64.num pow2
  have h : a.e = ((a.e - min a.e b.e).toNat : Int) + min a.e b.e := by omega
  conv_lhs => rw [h]
  rw [zpow_add₀ (by norm_num : (2 : ℚ) ≠ 0), zpow_natCast]
  push_cast
  ring

theorem F64.lt_iff (a b : F64) : F64.lt a b ↔ a.toRat < b.toRat := by
  rw [F64.toRat_eq_num a b, F64.toRat_eq_num b a, min_comm b.e a.e]
  have hp : (0 : ℚ) < (2 : ℚ) ^ (min a.e b.e) := zpow_pos (by norm_num) _
  rw [mul_lt_mul_right hp]
  unfold F64.lt
  exact Int.cast_lt.symm

theorem F64.le_iff (a b : F64) : F64.le a b ↔ a.toRat ≤ b.toRat := by
  rw [F64.toRat_eq_num a b, F64.toRat_eq_num b a, min_comm b.e a.e]
  have hp : (0 : ℚ) < (2 : ℚ) ^ (min a.e b.e) := zpow_pos (by norm_num) _
  rw [mul_le_mul_right hp]
  unfold F64.le
  exact Int.cast_le.symm

theorem F64.fabs_nonneg (x : F64) : 0 ≤ (F64.fabs x).toRat := by
  unfold F64.fabs F64.toRat
  exact mul_nonneg (by positivity) (le_of_lt (zpow_pos (by norm_num) _))

theorem F64.ofInt_100_toRat : (F64.ofInt 100).toRat = 100 := by
  have h : F64.ofInt 100 = ⟨7036874417766400, -46⟩ := by decide
  rw [h]
  unfold F64.toRat
  norm_num

theorem wrapLong_of_inLong (x : Int) (h : inLong x) : wrapLong x = x := by
  unfold inLong at h
  unfold wrapLong
  have h63 : pow2 63 = 9223372036854775808 := by decide
  have h64 : pow2 64 = 18446744073709551616 := by decide
  rw [h63] at h
  rw [h63, h64]
  omega

theorem CPUOutput_cpu_use (terminal : Terminal) (graphics : Bool) (i cp ip : Int) (info : cpu_stats)
    (nc : Int) : (CPUOutput terminal graphics i cp ip info nc).cpu_use = cpu_use cp ip info := by
  unfold CPUOutput
  dsimp only
  split_ifs
  · rfl
  · split <;> rfl
  · rfl

theorem CPUOutput_previous (terminal : Terminal) (graphics : Bool) (i cp ip : Int) (info : cpu_stats)
    (nc : Int) :
    (CPUOutput terminal graphics i cp ip info nc).cpu_previous = cpu_total info ∧
    (CPUOutput terminal graphics i cp ip info nc).idle_previous = info.idle := by
  unfold CPUOutput
  dsimp only
  split_ifs
  · exact ⟨rfl, rfl⟩
  · split <;> exact ⟨rfl, rfl⟩
  · exact ⟨rfl, rfl⟩

theorem cpu_use_toRat (cp ip : Int) (info : cpu_stats) :
    (cpu_use cp ip info).toRat = min 100 (cpu_use_raw cp ip info).toRat := by
  unfold cpu_use
  dsimp only
  split_ifs with h
  · rw [F64.lt_iff, F64.ofInt_100_toRat] at h
    rw [F64.ofInt_100_toRat, min_eq_left (le_of_lt h)]
  · rw [F64.lt_iff, F64.ofInt_100_toRat] at h
    rw [min_eq_right (not_lt.1 h)]

theorem cpu_total_exact (info : cpu_stats)
    (h1 : inLong (info.user + info.nice))
    (h2 : inLong (info.user + info.nice + info.system))
    (h3 : inLong (info.user + info.nice + info.system + info.iowait))
    (h4 : inLong (info.user + info.nice + info.system + info.iowait + info.irq))
    (h5 : inLong (info.user + info.nice + info.system + info.iowait + info.irq + info.softirq)) :
    cpu_total info =
      info.user + info.nice + info.system + info.iowait + info.irq + info.softirq := by
  unfold cpu_total addLong
  rw [wrapLong_of_inLong _ h1, wrapLong_of_inLong _ h2, wrapLong_of_inLong _ h3,
    wrapLong_of_inLong _ h4, wrapLong_of_inLong _ h5]

theorem F64.le_zero_iff (x : F64) : F64.le F64.zero x ↔ 0 ≤ x.m := by
  unfold F64.le F64.num F64.zero
  dsimp only
  rw [zero_mul]
  have hp := pow2_pos (x.e - min x.e 0).toNat
  constructor
  · intro h
    by_contra hc
    have : x.m * pow2 (x.e - min x.e 0).toNat < 0 := mul_neg_of_neg_of_pos (by omega) hp
    omega
  · intro h
    exact mul_nonneg h (le_of_lt hp)

/-- Rounding keeps the sign of a non-negative numerator. -/
theorem rndQ_m_nonneg (n : Int) (d : Nat) (E : Int) (hn : 0 ≤ n) : 0 ≤ (rndQ n d E).m := by
  unfold rndQ
  have hs : sgn n = 1 := by unfold sgn; rw [if_neg (by omega)]
  have hp := pow2_pos 52
  split_ifs with h1 h2
  · exact le_refl _
  · dsimp only; rw [hs]; omega
  · dsimp only; rw [hs]; omega

/-- Rounding keeps the sign of a negative integer. -/
theorem rndQ_int_m_neg (n E : Int) (hn : n < 0) : (rndQ n 1 E).m < 0 := by
  unfold rndQ
  have hs : sgn n = -1 := by unfold sgn; rw [if_pos hn]
  have hp := pow2_pos 52
  have hm := sig_int_pos n.natAbs (by omega)
  rw [if_neg (by omega)]
  split_ifs with h2
  · dsimp only; rw [hs]; omega
  · dsimp only; rw [hs]; omega

/-- The test `a - b >= 0` of C agrees with `a >= b`. -/
theorem F64.le_zero_sub_iff (a b : F64) : F64.le F64.zero (F64.sub a b) ↔ F64.le b a := by
  rw [F64.le_zero_iff]
  unfold F64.sub F64.le
  constructor
  · intro h
    by_contra hc
    have := rndQ_int_m_neg (F64.num a b - F64.num b a) (min a.e b.e) (by omega)
    omega
  · intro h
    exact rndQ_m_nonneg _ _ _ (by omega)

theorem F64.trunc_nonneg (x : F64) (h : 0 ≤ x.m) : 0 ≤ F64.trunc x := by
  unfold F64.trunc
  split_ifs
  · exact mul_nonneg h (le_of_lt (pow2_pos _))
  · exact Int.tdiv_nonneg h (le_of_lt (pow2_pos _))

/-- On a non-negative double the cast to an integer is the floor of its value. -/
theorem F64.trunc_eq_floor (x : F64) (h : 0 ≤ x.m) : F64.trunc x = ⌊x.toRat⌋ := by
  unfold F64.trunc F64.toRat
  split_ifs with he
  · have h1 : ((2 : ℚ) ^ x.e) = ((pow2 x.e.toNat : Int) : ℚ) := by
      unfold pow2
      conv_lhs => rw [← Int.toNat_of_nonneg he]
      rw [zpow_natCast]
      push_cast
      rfl
    rw [h1, ← Int.cast_mul, Int.floor_intCast]
  · have h1 : ((2 : ℚ) ^ x.e) = 1 / (((2 ^ (-x.e).toNat : Nat) : ℚ)) := by
      have h2 : x.e = -(((-x.e).toNat : Int)) := by omega
      conv_lhs => rw [h2]
      rw [zpow_neg, zpow_natCast]
      push_cast
      ring
    rw [h1, mul_one_div, Rat.floor_intCast_div_natCast]
    unfold pow2
    exact Int.tdiv_eq_ediv h (by positivity)

/-- The quotient `abs_diff / 0.01` is a non-negative double. -/
theorem div_fabs_m_nonneg (x c : F64) (hc : 0 < c.m) : 0 ≤ (F64.div (F64.fabs x) c).m := by
  unfold F64.div
  rw [if_neg (by omega), if_neg (by omega)]
  apply rndQ_m_nonneg
  unfold F64.fabs
  dsimp only
  omega

theorem lit_1_100 : F64.lit 1 100 = ⟨5764607523034235, -59⟩ := by decide

theorem F64.lt_iff_not_le (a b : F64) : F64.lt a b ↔ ¬ F64.le b a := by
  unfold F64.lt F64.le
  exact not_le.symm

theorem visual_len_of_le (cur prev : F64) (i : Int)
    (h : F64.trunc (F64.div (memoryGraphicsOutput.abs_diff cur prev i) (F64.lit 1 100)) ≤ 1018) :
    memoryGraphicsOutput.visual_len cur prev i =
      some (F64.trunc (F64.div (memoryGraphicsOutput.abs_diff cur prev i) (F64.lit 1 100))) := by
  have h0 : 0 ≤ F64.trunc (F64.div (memoryGraphicsOutput.abs_diff cur prev i) (F64.lit 1 100)) := by
    apply F64.trunc_nonneg
    unfold memoryGraphicsOutput.abs_diff
    apply div_fabs_m_nonneg
    rw [lit_1_100]
    norm_num
  have h31 : pow2 31 = 2147483648 := by decide
  unfold memoryGraphicsOutput.visual_len F64.toInt
  dsimp only
  rw [if_pos]
  rw [h31]
  constructor <;> omega

theorem visual_of_fit (d : F64) (n : Int) (h0 : 0 ≤ n) (h1 : n ≤ 1018) :
    memoryGraphicsOutput.visual d n =
      some ("   |".toList ++ List.replicate n.toNat (memoryGraphicsOutput.sign d) ++
        [memoryGraphicsOutput.last_char d n]) := by
  unfold memoryGraphicsOutput.visual
  rw [if_neg (by omega)]
  congr 2
  apply List.take_of_length_le
  simp only [List.length_append, List.length_replicate]
  have : "   |".toList.length = 4 := by decide
  omega

theorem display.memoryPart_cpu (samples : Int) (system graphics : Bool) (st : DisplayState)
    (i : Int) (s : Sample) :
    (display.memoryPart samples system graphics st i s).cpu_previous = st.cpu_previous ∧
    (display.memoryPart samples system graphics st i s).idle_previous = st.idle_previous := by
  unfold display.memoryPart
  dsimp only
  split_ifs
  · exact ⟨rfl, rfl⟩
  · exact ⟨rfl, rfl⟩
  · split <;> exact ⟨rfl, rfl⟩

theorem display.userPart_cpu (user : Bool) (st : DisplayState) (s : Sample) :
    (display.userPart user st s).cpu_previous = st.cpu_previous ∧
    (display.userPart user st s).idle_previous = st.idle_previous := by
  unfold display.userPart
  split_ifs <;> exact ⟨rfl, rfl⟩

/-- In round 0 of `display` the call of `CPUOutput` receives the rolling state (0, 0),
whatever the samples, the flags and the uninitialised contents are. -/
theorem display.round0_cpu_state (terminal_memory_output CPU_output : Terminal)
    (memory_previous : F64) (samples : Int) (system user graphics : Bool) (s : Sample)
    (out : List Char) :
    (display.userPart user (display.memoryPart samples system graphics
      ⟨terminal_memory_output, CPU_output, memory_previous, 0, 0, out, Status.running⟩ 0 s)
      s).cpu_previous = 0 ∧
    (display.userPart user (display.memoryPart samples system graphics
      ⟨terminal_memory_output, CPU_output, memory_previous, 0, 0, out, Status.running⟩ 0 s)
      s).idle_previous = 0 := by
  rw [(display.userPart_cpu _ _ _).1, (display.userPart_cpu _ _ _).2,
    (display.memoryPart_cpu _ _ _ _ _ _).1, (display.memoryPart_cpu _ _ _ _ _ _).2]
  exact ⟨rfl, rfl⟩

theorem memoryGraphicsOutput.diff_of_ne_zero (cur prev : F64) (i : Int) (h : i ≠ 0) :
    memoryGraphicsOutput.diff cur prev i = F64.sub cur prev := by
  unfold memoryGraphicsOutput.diff
  rw [if_neg h]

theorem memoryGraphicsOutput_of_ne_zero (cur prev : F64) (i : Int) (h : i ≠ 0) :
    memoryGraphicsOutput cur prev i = memoryGraphicsOutput cur prev 1 := by
  unfold memoryGraphicsOutput memoryGraphicsOutput.visual_len memoryGraphicsOutput.abs_diff
  rw [memoryGraphicsOutput.diff_of_ne_zero cur prev i h,
    memoryGraphicsOutput.diff_of_ne_zero cur prev 1 one_ne_zero]

/-- Every character `Nat.toDigits 10` produces is a decimal digit. -/
theorem toDigitsCore_isDigit : ∀ (fuel n : Nat) (ds : List Char),
    (∀ c ∈ ds, c.isDigit = true) → ∀ c ∈ Nat.toDigitsCore 10 fuel n ds, c.isDigit = true := by
  intro fuel
  induction fuel with
  | zero => intro n ds h c hc; exact h c (by simpa [Nat.toDigitsCore] using hc)
  | succ f ih =>
    intro n ds h c hc
    have hd : (Nat.digitChar (n % 10)).isDigit = true := by
      have : n % 10 < 10 := Nat.mod_lt _ (by norm_num)
      interval_cases (n % 10) <;> decide
    have hds : ∀ c ∈ Nat.digitChar (n % 10) :: ds, c.isDigit = true := by
      intro c hc
      rcases List.mem_cons.1 hc with rfl | h'
      · exact hd
      · exact h c h'
    unfold Nat.toDigitsCore at hc
    dsimp only at hc
    split_ifs at hc with h0
    · exact hds c hc
    · exact ih _ _ hds c hc

theorem toDigits_isDigit (n : Nat) : ∀ c ∈ Nat.toDigits 10 n, c.isDigit = true := by
  unfold Nat.toDigits
  exact toDigitsCore_isDigit _ _ _ (by simp)

theorem digitChar_isDigit (k : Nat) (h : k < 10) : (Nat.digitChar k).isDigit = true := by
  interval_cases k <;> decide

/-- The text of `%.2f` consists of digits, a point and possibly a minus sign. -/
theorem F64.fmt2_chars (x : F64) : ∀ c ∈ F64.fmt2 x, c.isDigit = true ∨ c = '.' ∨ c = '-' := by
  intro c hc
  unfold F64.fmt2 at hc
  dsimp only at hc
  generalize (if 0 ≤ x.e then x.m.natAbs * 100 * 2 ^ x.e.toNat
    else roundEven (x.m.natAbs * 100) (2 ^ (-x.e).toNat)) = r at hc
  have hb : ∀ c ∈ Nat.toDigits 10 (r / 100) ++
      ['.', Nat.digitChar (r % 100 / 10), Nat.digitChar (r % 10)],
      c.isDigit = true ∨ c = '.' ∨ c = '-' := by
    intro c hc
    rcases List.mem_append.1 hc with h | h
    · exact Or.inl (toDigits_isDigit _ c h)
    · simp only [List.mem_cons, List.mem_singleton, List.not_mem_nil, or_false] at h
      rcases h with rfl | rfl | rfl
      · exact Or.inr (Or.inl rfl)
      · exact Or.inl (digitChar_isDigit _ (by omega))
      · exact Or.inl (digitChar_isDigit _ (by omega))
  split_ifs at hc with h1
  · rcases List.mem_cons.1 hc with rfl | h
    · exact Or.inr (Or.inr rfl)
    · exact hb c h
  · exact hb c hc

theorem roundEven_le (N D c : Nat) (hD : 0 < D) (h : N ≤ c * D) : roundEven N D ≤ c := by
  have hdm := Nat.div_add_mod N D
  have hmod := Nat.mod_lt N hD
  have hf : N / D ≤ c := Nat.div_le_of_le_mul (by rw [Nat.mul_comm]; exact h)
  unfold roundEven
  dsimp only
  by_cases hlt : N / D < c
  · split_ifs <;> omega
  · have hfc : N / D = c := by omega
    have hmul : D * (N / D) = c * D := by rw [hfc, Nat.mul_comm]
    have h0 : N % D = 0 := by omega
    rw [h0]
    simp [hD, hfc]

theorem toDigits_length_le (n : Nat) (h : n ≤ 100) : (Nat.toDigits 10 n).length ≤ 3 := by
  interval_cases n <;> decide

theorem F64.m_nonneg_of_toRat (x : F64) (h : 0 ≤ x.toRat) : 0 ≤ x.m := by
  unfold F64.toRat at h
  have hp : (0 : ℚ) < (2 : ℚ) ^ x.e := zpow_pos (by norm_num) _
  have : (0 : ℚ) ≤ (x.m : ℚ) := by
    by_contra hc
    push_neg at hc
    have := mul_neg_of_neg_of_pos hc hp
    linarith
  exact_mod_cast this

/-- The hundredths `fmt2` prints for a double in [0, 100] are at most 10000. -/
theorem F64.fmt2_hundredths_le (x : F64) (h0 : 0 ≤ x.m) (h100 : x.toRat ≤ 100) :
    (if 0 ≤ x.e then x.m.natAbs * 100 * 2 ^ x.e.toNat
      else roundEven (x.m.natAbs * 100) (2 ^ (-x.e).toNat)) ≤ 10000 := by
  have ha : ((x.m.natAbs : Int) : ℚ) = (x.m : ℚ) := by
    rw [Int.natAbs_of_nonneg h0]
  unfold F64.toRat at h100
  split_ifs with he
  · have h1 : ((2 : ℚ) ^ x.e) = ((2 ^ x.e.toNat : Nat) : ℚ) := by
      conv_lhs => rw [← Int.toNat_of_nonneg he]
      rw [zpow_natCast]
      push_cast
      rfl
    rw [h1, ← ha] at h100
    have h2 : x.m.natAbs * 2 ^ x.e.toNat ≤ 100 := by exact_mod_cast h100
    calc x.m.natAbs * 100 * 2 ^ x.e.toNat = (x.m.natAbs * 2 ^ x.e.toNat) * 100 := by ring
      _ ≤ 100 * 100 := Nat.mul_le_mul_right _ h2
      _ = 10000 := by norm_num
  · have h1 : ((2 : ℚ) ^ x.e) = 1 / ((2 ^ (-x.e).toNat : Nat) : ℚ) := by
      have h2 : x.e = -(((-x.e).toNat : Int)) := by omega
      conv_lhs => rw [h2]
      rw [zpow_neg, zpow_natCast]
      push_cast
      ring
    have hD : 0 < 2 ^ (-x.e).toNat := Nat.pos_pow_of_pos _ (by norm_num)
    have hDq : (0 : ℚ) < ((2 ^ (-x.e).toNat : Nat) : ℚ) := by exact_mod_cast hD
    rw [h1, mul_one_div, div_le_iff₀ hDq, ← ha] at h100
    have h2 : x.m.natAbs ≤ 100 * 2 ^ (-x.e).toNat := by exact_mod_cast h100
    apply roundEven_le _ _ _ hD
    calc x.m.natAbs * 100 ≤ (100 * 2 ^ (-x.e).toNat) * 100 := Nat.mul_le_mul_right _ h2
      _ = 10000 * 2 ^ (-x.e).toNat := by ring

/-- A double in [0, 100] prints with at most six characters under `%.2f`. -/
theorem F64.fmt2_length_le (x : F64) (h0 : 0 ≤ x.toRat) (h100 : x.toRat ≤ 100) :
    (F64.fmt2 x).length ≤ 6 := by
  have hm := F64.m_nonneg_of_toRat x h0
  have hr := F64.fmt2_hundredths_le x hm h100
  unfold F64.fmt2
  dsimp only
  generalize (if 0 ≤ x.e then x.m.natAbs * 100 * 2 ^ x.e.toNat
    else roundEven (x.m.natAbs * 100) (2 ^ (-x.e).toNat)) = r at hr
  rw [if_neg (by omega)]
  have := toDigits_length_le (r / 100) (by omega)
  simp only [List.length_append, List.length_cons, List.length_nil]
  omega

/-- The cast `(int) usage` of a double in [0, 100] is its floor. -/
theorem F64.toInt_of_range (x : F64) (h0 : 0 ≤ x.toRat) (h100 : x.toRat ≤ 100) :
    F64.toInt x = some ⌊x.toRat⌋ ∧ 0 ≤ ⌊x.toRat⌋ ∧ ⌊x.toRat⌋ ≤ 100 := by
  have hm := F64.m_nonneg_of_toRat x h0
  have hfl := F64.trunc_eq_floor x hm
  have hlo : 0 ≤ ⌊x.toRat⌋ := Int.floor_nonneg.2 h0
  have hhi : ⌊x.toRat⌋ ≤ 100 := by
    have : ⌊x.toRat⌋ ≤ ⌊(100 : ℚ)⌋ := Int.floor_le_floor h100
    simpa using this
  refine ⟨?_, hlo, hhi⟩
  have h31 : pow2 31 = 2147483648 := by decide
  unfold F64.toInt
  dsimp only
  rw [hfl, h31, if_pos (by constructor <;> omega)]

/-- The line `CPUGraphics` stores for a usage in [0, 100], and what it returns. -/
theorem CPUGraphics_of_range (terminal : Terminal) (usage : F64) (i : Int)
    (h0 : 0 ≤ usage.toRat) (h100 : usage.toRat ≤ 100) (hi0 : 0 ≤ i) (hi : i < 1024) :
    CPUGraphics terminal usage i =
      some (Function.update terminal i.toNat
          ("         ".toList ++ List.replicate (⌊usage.toRat⌋.toNat + 3) '|' ++
            ' ' :: F64.fmt2 usage),
        replay (Function.update terminal i.toNat
          ("         ".toList ++ List.replicate (⌊usage.toRat⌋.toNat + 3) '|' ++
            ' ' :: F64.fmt2 usage)) i.toNat) := by
  obtain ⟨ht, hlo, hhi⟩ := F64.toInt_of_range usage h0 h100
  have hlen := F64.fmt2_length_le usage h0 h100
  have h9 : "         ".toList.length = 9 := by decide
  unfold CPUGraphics
  rw [ht]
  dsimp only
  rw [if_neg (by omega)]
  have hsub : (⌊usage.toRat⌋ + 12).toNat - 9 = ⌊usage.toRat⌋.toNat + 3 := by omega
  have htake : List.take (⌊usage.toRat⌋ + 12).toNat
      ("         ".toList ++ List.replicate (⌊usage.toRat⌋.toNat + 3) '|') =
      "         ".toList ++ List.replicate (⌊usage.toRat⌋.toNat + 3) '|' := by
    apply List.take_of_length_le
    simp only [List.length_append, List.length_replicate, h9]
    omega
  rw [hsub, htake, if_neg]
  simp only [List.length_append, List.length_replicate, List.length_cons, h9]
  omega

theorem bar_not_in_fmt2 (x : F64) : List.count '|' (' ' :: F64.fmt2 x) = 0 := by
  rw [List.count_eq_zero]
  intro h
  rcases List.mem_cons.1 h with h1 | h1
  · exact absurd h1 (by decide)
  · rcases F64.fmt2_chars x _ h1 with h2 | h2 | h2
    · exact absurd h2 (by decide)
    · exact absurd h2 (by decide)
    · exact absurd h2 (by decide)

theorem line_getElem? (n : Nat) (C : List Char) (j : Nat) :
    (List.replicate 9 ' ' ++ List.replicate n '|' ++ C)[j]? =
      if j < 9 then some ' ' else if j < 9 + n then some '|' else C[j - (9 + n)]? := by
  rw [List.getElem?_append, List.getElem?_append]
  simp only [List.length_append, List.length_replicate, List.getElem?_replicate]
  split_ifs <;> first | rfl | omega

/-- The history `systemOutput` leaves is the old one, or the old one with slot `i`
replaced, unless a write was out of bounds. -/
theorem systemOutput_terminal_cases (terminal : Terminal) (graphics : Bool) (i : Int)
    (memory_previous : F64) (info : memory) (sysinfo_ok : Bool) :
    (systemOutput terminal graphics i memory_previous info sysinfo_ok).terminal = none ∨
    (systemOutput terminal graphics i memory_previous info sysinfo_ok).terminal = some terminal ∨
    ∃ line, (systemOutput terminal graphics i memory_previous info sysinfo_ok).terminal =
      some (Function.update terminal i.toNat line) := by
  unfold systemOutput
  dsimp only
  split_ifs with h1 h2 h3
  · exact Or.inr (Or.inl rfl)
  · exact Or.inl rfl
  · split
    · exact Or.inl rfl
    · split_ifs
      · exact Or.inl rfl
      · exact Or.inr (Or.inr ⟨_, rfl⟩)
  · exact Or.inr (Or.inr ⟨_, rfl⟩)

theorem CPUGraphics_terminal_cases (terminal : Terminal) (usage : F64) (i : Int) :
    CPUGraphics terminal usage i = none ∨
    ∃ line, CPUGraphics terminal usage i =
      some (Function.update terminal i.toNat line,
        replay (Function.update terminal i.toNat line) i.toNat) := by
  unfold CPUGraphics
  split
  · exact Or.inl rfl
  · dsimp only
    split_ifs
    · exact Or.inl rfl
    · exact Or.inl rfl
    · exact Or.inr ⟨_, rfl⟩

theorem CPUOutput_terminal_cases (terminal : Terminal) (graphics : Bool) (i cp ip : Int)
    (info : cpu_stats) (nc : Int) :
    (CPUOutput terminal graphics i cp ip info nc).terminal = none ∨
    (CPUOutput terminal graphics i cp ip info nc).terminal = some terminal ∨
    ∃ line, (CPUOutput terminal graphics i cp ip info nc).terminal =
      some (Function.update terminal i.toNat line) := by
  unfold CPUOutput
  dsimp only
  split_ifs
  · exact Or.inr (Or.inl rfl)
  · rcases CPUGraphics_terminal_cases terminal (cpu_use cp ip info) i with h | ⟨line, h⟩
    · rw [h]; exact Or.inl rfl
    · rw [h]; exact Or.inr (Or.inr ⟨line, rfl⟩)
  · exact Or.inr (Or.inl rfl)

theorem update_frame (terminal : Terminal) (j : Nat) (line : List Char) (k : Nat) (h : k ≠ j) :
    Function.update terminal j line k = terminal k := Function.update_noteq h _ _

theorem display.memoryPart_frame (samples : Int) (system graphics : Bool) (st : DisplayState)
    (i : Int) (s : Sample) :
    (∀ k, k ≠ i.toNat → (display.memoryPart samples system graphics st i s).terminal_memory_output k =
      st.terminal_memory_output k) ∧
    (display.memoryPart samples system graphics st i s).CPU_output = st.CPU_output := by
  unfold display.memoryPart
  dsimp only
  split_ifs with h1 h2
  · exact ⟨fun _ _ => rfl, rfl⟩
  · exact ⟨fun _ _ => rfl, rfl⟩
  · rcases systemOutput_terminal_cases st.terminal_memory_output graphics i st.memory_previous
      s.mem s.sysinfo_ok with h | h | ⟨line, h⟩
    all_goals unfold display.systemCall
    all_goals rw [h]
    · exact ⟨fun _ _ => rfl, rfl⟩
    · exact ⟨fun _ _ => rfl, rfl⟩
    · exact ⟨fun k hk => update_frame _ _ _ _ hk, rfl⟩

theorem display.userPart_frame (user : Bool) (st : DisplayState) (s : Sample) :
    (display.userPart user st s).terminal_memory_output = st.terminal_memory_output ∧
    (display.userPart user st s).CPU_output = st.CPU_output := by
  unfold display.userPart
  split_ifs <;> exact ⟨rfl, rfl⟩

theorem display.cpuPart_frame (system graphics : Bool) (st : DisplayState) (i : Int) (s : Sample) :
    (display.cpuPart system graphics st i s).terminal_memory_output = st.terminal_memory_output ∧
    (∀ k, k ≠ i.toNat → (display.cpuPart system graphics st i s).CPU_output k = st.CPU_output k) := by
  unfold display.cpuPart
  dsimp only
  by_cases h1 : (!system) = true
  · rw [if_pos h1]
    exact ⟨rfl, fun _ _ => rfl⟩
  · rw [if_neg h1]
    rcases CPUOutput_terminal_cases st.CPU_output graphics i st.cpu_previous st.idle_previous
      s.cpu s.num_cores with h | h | ⟨line, h⟩
    all_goals unfold display.cpuCall
    all_goals rw [h]
    · exact ⟨rfl, fun _ _ => rfl⟩
    · exact ⟨rfl, fun _ _ => rfl⟩
    · exact ⟨rfl, fun k hk => update_frame _ _ _ _ hk⟩

/-- A round of `display` leaves every history slot other than `i` as it was. -/
theorem display.round_frame (samples tdelay : Int) (system user graphics sequential : Bool)
    (st : DisplayState) (i : Int) (s : Sample) (k : Nat) (hk : k ≠ i.toNat) :
    (display.round samples tdelay system user graphics sequential st i s).terminal_memory_output k =
      st.terminal_memory_output k ∧
    (display.round samples tdelay system user graphics sequential st i s).CPU_output k =
      st.CPU_output k := by
  unfold display.round
  dsimp only
  generalize (if (!sequential) = true then "\x1b[2J \x1b[1;1H\n".toList
    else ">>> iteration ".toList ++ fmtInt i ++ ['\n']) = mark
  by_cases h1 : st.status ≠ Status.running
  · rw [if_pos h1]
    exact ⟨rfl, rfl⟩
  rw [if_neg h1]
  by_cases h2 : (!s.spawn_ok) = true
  · rw [if_pos h2]
    exact ⟨rfl, rfl⟩
  rw [if_neg h2]
  cases headerUsage samples tdelay s.getrusage with
  | none => exact ⟨rfl, rfl⟩
  | some h =>
    dsimp only
    generalize hst1 : (⟨st.terminal_memory_output, st.CPU_output, st.memory_previous,
      st.cpu_previous, st.idle_previous, st.stdout ++ mark ++ unlines h, st.status⟩ :
      DisplayState) = st1
    have e1 : st1.terminal_memory_output = st.terminal_memory_output := by rw [← hst1]
    have e2 : st1.CPU_output = st.CPU_output := by rw [← hst1]
    have hm := display.memoryPart_frame samples system graphics st1 i s
    have hu := display.userPart_frame user (display.memoryPart samples system graphics st1 i s) s
    have hc := display.cpuPart_frame system graphics
      (display.userPart user (display.memoryPart samples system graphics st1 i s) s) i s
    have hall :
        (display.cpuPart system graphics
          (display.userPart user (display.memoryPart samples system graphics st1 i s) s)
          i s).terminal_memory_output k = st.terminal_memory_output k ∧
        (display.cpuPart system graphics
          (display.userPart user (display.memoryPart samples system graphics st1 i s) s)
          i s).CPU_output k = st.CPU_output k :=
      ⟨by rw [hc.1, hu.1, hm.1 k hk, e1], by rw [hc.2 k hk, hu.2, hm.2, e2]⟩
    by_cases h3 : (display.memoryPart samples system graphics st1 i s).status ≠ Status.running
    · rw [if_pos h3]
      exact ⟨by rw [hm.1 k hk, e1], by rw [hm.2, e2]⟩
    rw [if_neg h3]
    by_cases h4 : (display.cpuPart system graphics
        (display.userPart user (display.memoryPart samples system graphics st1 i s) s)
        i s).status ≠ Status.running
    · rw [if_pos h4]
      exact hall
    rw [if_neg h4]
    cases footerUsage s.uname with
    | none => exact hall
    | some f => exact hall

theorem display.loop_frame (samples tdelay : Int) (system user graphics sequential : Bool)
    (env : Nat → Sample) (st : DisplayState) (k : Nat) : ∀ n, k < n →
    (display.loop samples tdelay system user graphics sequential env n st).terminal_memory_output k =
      (display.loop samples tdelay system user graphics sequential env (k + 1) st).terminal_memory_output k ∧
    (display.loop samples tdelay system user graphics sequential env n st).CPU_output k =
      (display.loop samples tdelay system user graphics sequential env (k + 1) st).CPU_output k := by
  intro n
  induction n with
  | zero => intro h; omega
  | succ n ih =>
    intro h
    by_cases hn : n = k
    · subst hn; exact ⟨rfl, rfl⟩
    · have hlt : k < n := by omega
      have hf := display.round_frame samples tdelay system user graphics sequential
        (display.loop samples tdelay system user graphics sequential env n st) (n : Int) (env n) k
        (by simp; omega)
      have := ih hlt
      show (display.round _ _ _ _ _ _ _ _ _).terminal_memory_output k = _ ∧
        (display.round _ _ _ _ _ _ _ _ _).CPU_output k = _
      rw [hf.1, hf.2]
      exact this

theorem display.memoryPart_prepend (samples : Int) (system graphics : Bool) (o : List Char)
    (st : DisplayState) (i : Int) (s : Sample) :
    display.memoryPart samples system graphics (DisplayState.prepend o st) i s =
      DisplayState.prepend o (display.memoryPart samples system graphics st i s) := by
  unfold display.memoryPart display.systemCall DisplayState.prepend
  dsimp only
  by_cases h1 : (!system) = true
  · rw [if_pos h1, if_pos h1]
  · rw [if_neg h1, if_neg h1]
    by_cases h2 : (systemOutput st.terminal_memory_output graphics i st.memory_previous s.mem
        s.sysinfo_ok).killed = true
    · rw [if_pos h2, if_pos h2]
      simp only [List.append_assoc]
    · rw [if_neg h2, if_neg h2]
      cases (systemOutput st.terminal_memory_output graphics i st.memory_previous s.mem
        s.sysinfo_ok).terminal with
      | none => simp only [List.append_assoc]
      | some t => simp only [List.append_assoc]

theorem display.userPart_prepend (user : Bool) (o : List Char) (st : DisplayState) (s : Sample) :
    display.userPart user (DisplayState.prepend o st) s =
      DisplayState.prepend o (display.userPart user st s) := by
  unfold display.userPart DisplayState.prepend
  by_cases h1 : (!user) = true
  · rw [if_pos h1, if_pos h1]
  · rw [if_neg h1, if_neg h1]
    simp only [List.append_assoc]

theorem display.cpuPart_prepend (system graphics : Bool) (o : List Char) (st : DisplayState)
    (i : Int) (s : Sample) :
    display.cpuPart system graphics (DisplayState.prepend o st) i s =
      DisplayState.prepend o (display.cpuPart system graphics st i s) := by
  unfold display.cpuPart display.cpuCall DisplayState.prepend
  dsimp only
  by_cases h1 : (!system) = true
  · rw [if_pos h1, if_pos h1]
  · rw [if_neg h1, if_neg h1]
    cases (CPUOutput st.CPU_output graphics i st.cpu_previous st.idle_previous s.cpu
      s.num_cores).terminal with
    | none => simp only [List.append_assoc]
    | some t => simp only [List.append_assoc]

theorem Plain.append {a b : List Char} (ha : Plain a) (hb : Plain b) : Plain (a ++ b) := by
  intro c hc
  rcases List.mem_append.1 hc with h | h
  · exact ha c h
  · exact hb c h

theorem Plain.cons {c : Char} {l : List Char} (hc : c ≠ '\x1b' ∧ c ≠ '>') (hl : Plain l) :
    Plain (c :: l) := by
  intro d hd
  rcases List.mem_cons.1 hd with rfl | h
  · exact hc
  · exact hl d h

theorem Plain.nil : Plain [] := by intro c hc; simp at hc

theorem Plain.replicate (n : Nat) {c : Char} (hc : c ≠ '\x1b' ∧ c ≠ '>') :
    Plain (List.replicate n c) := by
  intro d hd
  rw [List.eq_of_mem_replicate hd]
  exact hc

theorem Plain.take (n : Nat) {l : List Char} (hl : Plain l) : Plain (l.take n) :=
  fun c hc => hl c (List.mem_of_mem_take hc)

theorem plain_of_isDigit {c : Char} (h : c.isDigit = true) : c ≠ '\x1b' ∧ c ≠ '>' := by
  constructor
  · rintro rfl; exact absurd h (by decide)
  · rintro rfl; exact absurd h (by decide)

theorem plain_fmt2 (x : F64) : Plain (F64.fmt2 x) := by
  intro c hc
  rcases F64.fmt2_chars x c hc with h | rfl | rfl
  · exact plain_of_isDigit h
  · decide
  · decide

theorem plain_toDigits (n : Nat) : Plain (Nat.toDigits 10 n) :=
  fun c hc => plain_of_isDigit (toDigits_isDigit n c hc)

theorem plain_fmtInt (n : Int) : Plain (fmtInt n) := by
  unfold fmtInt
  split_ifs
  · exact Plain.cons (by decide) (plain_toDigits _)
  · exact plain_toDigits _

theorem plain_unlines (ls : List (List Char)) (h : ∀ l ∈ ls, Plain l) : Plain (unlines ls) := by
  unfold unlines
  intro c hc
  rw [List.mem_flatMap] at hc
  obtain ⟨l, hl, hc⟩ := hc
  rcases List.mem_append.1 hc with h1 | h1
  · exact h l hl c h1
  · rw [List.mem_singleton] at h1
    rw [h1]
    decide

theorem plain_replay (t : Terminal) (n : Nat) (h : ∀ k, Plain (t k)) :
    ∀ l ∈ replay t n, Plain l := by
  intro l hl
  unfold replay at hl
  rw [List.mem_map] at hl
  obtain ⟨k, _, rfl⟩ := hl
  exact h k

theorem plain_update (t : Terminal) (j : Nat) (line : List Char) (h : ∀ k, Plain (t k))
    (hl : Plain line) : ∀ k, Plain (Function.update t j line k) := by
  intro k
  by_cases hk : k = j
  · rw [hk, Function.update_same]; exact hl
  · rw [Function.update_noteq hk]; exact h k

theorem plain_visual (d : F64) (n : Int) (v : List Char)
    (h : memoryGraphicsOutput.visual d n = some v) : Plain v := by
  unfold memoryGraphicsOutput.visual at h
  split_ifs at h
  rw [← Option.some.inj h]
  have hs : memoryGraphicsOutput.sign d ≠ '\x1b' ∧ memoryGraphicsOutput.sign d ≠ '>' := by
    unfold memoryGraphicsOutput.sign
    split_ifs <;> decide
  have hl : memoryGraphicsOutput.last_char d n ≠ '\x1b' ∧
      memoryGraphicsOutput.last_char d n ≠ '>' := by
    unfold memoryGraphicsOutput.last_char
    split_ifs <;> decide
  exact Plain.append (Plain.take _ (Plain.append (by decide) (Plain.replicate _ hs)))
    (Plain.cons hl Plain.nil)

theorem plain_memoryGraphicsOutput (cur prev : F64) (i : Int) (g : List Char)
    (h : (memoryGraphicsOutput cur prev i).memoryGraphics = some g) : Plain g := by
  unfold memoryGraphicsOutput at h
  dsimp only at h
  cases hv : memoryGraphicsOutput.visual_len cur prev i with
  | none => rw [hv] at h; exact absurd h (by simp)
  | some n =>
    rw [hv] at h
    dsimp only at h
    cases hb : memoryGraphicsOutput.visual (memoryGraphicsOutput.diff cur prev i) n with
    | none => rw [hb] at h; exact absurd h (by simp)
    | some v =>
      rw [hb] at h
      dsimp only at h
      by_cases hlen : 1024 < (v ++ ' ' :: F64.fmt2 (memoryGraphicsOutput.abs_diff cur prev i) ++
          " (".toList ++ F64.fmt2 cur ++ [')']).length + 1
      · rw [if_pos hlen] at h
        exact absurd h (by simp)
      · rw [if_neg hlen] at h
        rw [← Option.some.inj h]
        exact Plain.append (Plain.append (Plain.append (Plain.append (plain_visual _ _ _ hb)
          (Plain.cons (by decide) (plain_fmt2 _))) (by decide)) (plain_fmt2 _)) (by decide)

theorem plain_panel (info : memory) : Plain (systemOutput.panel info) := by
  unfold systemOutput.panel
  exact Plain.append (Plain.append (Plain.append (Plain.append (Plain.append (Plain.append
    (Plain.append (plain_fmt2 _) (by decide)) (plain_fmt2 _)) (by decide)) (plain_fmt2 _))
    (by decide)) (plain_fmt2 _)) (by decide)

theorem plain_systemOutput (t : Terminal) (graphics : Bool) (i : Int) (mp : F64) (info : memory)
    (ok : Bool) (ht : ∀ k, Plain (t k)) :
    (∀ l ∈ (systemOutput t graphics i mp info ok).out, Plain l) ∧
    ∀ t1, (systemOutput t graphics i mp info ok).terminal = some t1 → ∀ k, Plain (t1 k) := by
  have hhead : ∀ l ∈ ["--------------------------------------------".toList,
      "### Memory ### (Phys.Used/Tot -- Virtual Used/Tot)".toList], Plain l := by decide
  have happ : ∀ (t2 : Terminal), (∀ k, Plain (t2 k)) →
      ∀ l ∈ ["--------------------------------------------".toList,
        "### Memory ### (Phys.Used/Tot -- Virtual Used/Tot)".toList] ++ replay t2 i.toNat,
        Plain l := by
    intro t2 h2 l hl
    rcases List.mem_append.1 hl with h | h
    · exact hhead l h
    · exact plain_replay t2 _ h2 l h
  unfold systemOutput
  dsimp only
  by_cases h1 : (!ok) = true
  · rw [if_pos h1]
    exact ⟨hhead, fun t1 h k => by rw [← Option.some.inj h]; exact ht k⟩
  rw [if_neg h1]
  by_cases h2 : i < 0 ∨ 1024 ≤ i ∨ 1024 < (systemOutput.panel info).length + 1
  · rw [if_pos h2]
    exact ⟨hhead, fun t1 h => absurd h (by simp)⟩
  rw [if_neg h2]
  by_cases h3 : graphics = true
  · rw [if_pos h3]
    cases hm : (memoryGraphicsOutput info.used_memory mp i).memoryGraphics with
    | none => exact ⟨hhead, fun t1 h => absurd h (by simp)⟩
    | some g =>
      dsimp only
      have hline : Plain (systemOutput.panel info ++ g) :=
        Plain.append (plain_panel info) (plain_memoryGraphicsOutput _ _ _ g hm)
      by_cases h4 : 1024 < (systemOutput.panel info ++ g).length + 1
      · rw [if_pos h4]
        exact ⟨hhead, fun t1 h => absurd h (by simp)⟩
      · rw [if_neg h4]
        have hup := plain_update t i.toNat _ ht hline
        exact ⟨happ _ hup, fun t1 h k => by rw [← Option.some.inj h]; exact hup k⟩
  · rw [if_neg h3]
    have hup := plain_update t i.toNat _ ht (plain_panel info)
    exact ⟨happ _ hup, fun t1 h k => by rw [← Option.some.inj h]; exact hup k⟩

theorem plain_CPUGraphics (t : Terminal) (usage : F64) (i : Int) (ht : ∀ k, Plain (t k))
    (r : Terminal × List (List Char)) (h : CPUGraphics t usage i = some r) :
    (∀ k, Plain (r.1 k)) ∧ ∀ l ∈ r.2, Plain l := by
  unfold CPUGraphics at h
  split at h
  · exact absurd h (by simp)
  · dsimp only at h
    split_ifs at h
    rw [← Option.some.inj h]
    dsimp only
    have hsp : Plain "         ".toList := by decide
    have hbar : ('|' : Char) ≠ '\x1b' ∧ ('|' : Char) ≠ '>' := by decide
    have hspc : (' ' : Char) ≠ '\x1b' ∧ (' ' : Char) ≠ '>' := by decide
    have hline : ∀ (a b : Nat), Plain (List.take a ("         ".toList ++ List.replicate b '|') ++
        ' ' :: F64.fmt2 usage) := fun a b =>
      Plain.append (Plain.take _ (Plain.append hsp (Plain.replicate _ hbar)))
        (Plain.cons hspc (plain_fmt2 usage))
    exact ⟨plain_update _ _ _ ht (hline _ _),
      plain_replay _ _ (plain_update _ _ _ ht (hline _ _))⟩

theorem plain_CPUOutput (t : Terminal) (graphics : Bool) (i cp ip : Int) (info : cpu_stats)
    (nc : Int) (ht : ∀ k, Plain (t k)) :
    (∀ l ∈ (CPUOutput t graphics i cp ip info nc).out, Plain l) ∧
    ∀ t1, (CPUOutput t graphics i cp ip info nc).terminal = some t1 → ∀ k, Plain (t1 k) := by
  have hhead : ∀ l ∈ ["--------------------------------------------".toList,
      "Number of Cores: ".toList ++ fmtInt nc,
      " total cpu use: ".toList ++ F64.fmt2 (cpu_use cp ip info) ++ ['%']], Plain l := by
    intro l hl
    simp only [List.mem_cons, List.mem_singleton, List.not_mem_nil, or_false] at hl
    rcases hl with rfl | rfl | rfl
    · decide
    · exact Plain.append (by decide) (plain_fmtInt nc)
    · exact Plain.append (Plain.append (by decide) (plain_fmt2 _)) (by decide)
  unfold CPUOutput
  dsimp only
  by_cases h1 : nc < 0
  · rw [if_pos h1]
    exact ⟨fun l hl => absurd hl (by simp), fun t1 h k => by rw [← Option.some.inj h]; exact ht k⟩
  rw [if_neg h1]
  by_cases h2 : graphics = true
  · rw [if_pos h2]
    cases hg : CPUGraphics t (cpu_use cp ip info) i with
    | none => exact ⟨hhead, fun t1 h => absurd h (by simp)⟩
    | some r =>
      obtain ⟨hr1, hr2⟩ := plain_CPUGraphics t _ i ht r hg
      refine ⟨?_, fun t1 h k => by rw [← Option.some.inj h]; exact hr1 k⟩
      intro l hl
      rcases List.mem_append.1 hl with h | h
      · exact hhead l h
      · exact hr2 l h
  · rw [if_neg h2]
    exact ⟨hhead, fun t1 h k => by rw [← Option.some.inj h]; exact ht k⟩

theorem replay_getLast (terminal : Terminal) (n : Nat) :
    (replay terminal n).length = n + 1 ∧ (replay terminal n).getLast? = some (terminal n) := by
  unfold replay
  constructor
  · simp
  · rw [List.range_succ, List.map_append]
    simp

theorem display.memoryPart_plain (samples : Int) (system graphics : Bool) (st : DisplayState)
    (i : Int) (s : Sample) (h : st.AllPlain) :
    (display.memoryPart samples system graphics st i s).AllPlain := by
  obtain ⟨h1, h2, h3⟩ := h
  obtain ⟨ho, ht⟩ := plain_systemOutput st.terminal_memory_output graphics i st.memory_previous
    s.mem s.sysinfo_ok h2
  have hout := Plain.append h1 (plain_unlines _ ho)
  unfold display.memoryPart display.systemCall
  dsimp only
  by_cases c1 : (!system) = true
  · rw [if_pos c1]; exact ⟨h1, h2, h3⟩
  rw [if_neg c1]
  by_cases c2 : (systemOutput st.terminal_memory_output graphics i st.memory_previous s.mem
      s.sysinfo_ok).killed = true
  · rw [if_pos c2]; exact ⟨hout, h2, h3⟩
  rw [if_neg c2]
  cases hc : (systemOutput st.terminal_memory_output graphics i st.memory_previous s.mem
      s.sysinfo_ok).terminal with
  | none => exact ⟨hout, h2, h3⟩
  | some t =>
    refine ⟨Plain.append hout (plain_unlines _ ?_), ht t hc, h3⟩
    intro l hl
    rw [List.eq_of_mem_replicate hl]
    exact Plain.nil

theorem display.userPart_plain (user : Bool) (st : DisplayState) (s : Sample) (h : st.AllPlain)
    (hu : Plain s.users) : (display.userPart user st s).AllPlain := by
  obtain ⟨h1, h2, h3⟩ := h
  unfold display.userPart
  by_cases c1 : (!user) = true
  · rw [if_pos c1]; exact ⟨h1, h2, h3⟩
  rw [if_neg c1]
  have hd : ∀ l ∈ ["--------------------------------------------".toList,
      "### Sessions/users ###".toList], Plain l := by decide
  exact ⟨Plain.append (Plain.append h1 (plain_unlines _ hd)) hu, h2, h3⟩

theorem display.cpuPart_plain (system graphics : Bool) (st : DisplayState) (i : Int) (s : Sample)
    (h : st.AllPlain) : (display.cpuPart system graphics st i s).AllPlain := by
  obtain ⟨h1, h2, h3⟩ := h
  obtain ⟨ho, ht⟩ := plain_CPUOutput st.CPU_output graphics i st.cpu_previous st.idle_previous
    s.cpu s.num_cores h3
  have hout := Plain.append h1 (plain_unlines _ ho)
  unfold display.cpuPart display.cpuCall
  dsimp only
  by_cases c1 : (!system) = true
  · rw [if_pos c1]; exact ⟨h1, h2, h3⟩
  rw [if_neg c1]
  cases hc : (CPUOutput st.CPU_output graphics i st.cpu_previous st.idle_previous s.cpu
      s.num_cores).terminal with
  | none => exact ⟨hout, h2, h3⟩
  | some t => exact ⟨hout, h2, ht t hc⟩

theorem plain_headerUsage (samples tdelay : Int) (g : Option Int) (h : List (List Char))
    (hh : headerUsage samples tdelay g = some h) : Plain (unlines h) := by
  unfold headerUsage at hh
  cases g with
  | none => exact absurd hh (by simp)
  | some u =>
    dsimp only at hh
    rw [← Option.some.inj hh]
    apply plain_unlines
    intro l hl
    simp only [List.mem_cons, List.mem_singleton, List.not_mem_nil, or_false] at hl
    have h1 : Plain "Nbr of samples: ".toList := by decide
    have h2 : Plain " -- every ".toList := by decide
    have h3 : Plain " secs".toList := by decide
    have h4 : Plain "Memory usage: ".toList := by decide
    have h5 : Plain " kilobytes".toList := by decide
    rcases hl with rfl | rfl
    · exact Plain.append (Plain.append (Plain.append (Plain.append h1 (plain_fmtInt _)) h2)
        (plain_fmtInt _)) h3
    · exact Plain.append (Plain.append h4 (plain_fmtInt _)) h5

theorem plain_footerUsage (un : Option utsname) (f : List (List Char))
    (hun : ∀ u, un = some u → u.AllPlain) (hf : footerUsage un = some f) : Plain (unlines f) := by
  unfold footerUsage at hf
  cases un with
  | none => exact absurd hf (by simp)
  | some u =>
    obtain ⟨p1, p2, p3, p4, p5⟩ := hun u rfl
    dsimp only at hf
    rw [← Option.some.inj hf]
    apply plain_unlines
    intro l hl
    simp only [List.mem_cons, List.mem_singleton, List.not_mem_nil, or_false] at hl
    have h0 : Plain "--------------------------------------------".toList := by decide
    have h1 : Plain "### System Information ###".toList := by decide
    have h2 : Plain " System Name = ".toList := by decide
    have h3 : Plain " Machine Name = ".toList := by decide
    have h4 : Plain " Version = ".toList := by decide
    have h5 : Plain " Release = ".toList := by decide
    have h6 : Plain " Architecture = ".toList := by decide
    rcases hl with rfl | rfl | rfl | rfl | rfl | rfl | rfl | rfl
    · exact h0
    · exact h1
    · exact Plain.append h2 p1
    · exact Plain.append h3 p2
    · exact Plain.append h4 p3
    · exact Plain.append h5 p4
    · exact Plain.append h6 p5
    · exact h0

/-- The output of a round is its first line followed by a text that does not depend on the
flag `sequential`; when the histories, the sessions text and the `uname` strings are plain,
so is that text. -/
theorem display.round_stdout_plain (samples tdelay : Int) (system user graphics : Bool)
    (st : DisplayState) (i : Int) (s : Sample) (hrun : st.status = Status.running)
    (hspawn : s.spawn_ok = true) :
    ∃ body : List Char,
      (∀ sequential : Bool,
        (display.round samples tdelay system user graphics sequential st i s).stdout =
          st.stdout ++
            (if !sequential then "\x1b[2J \x1b[1;1H\n".toList
             else ">>> iteration ".toList ++ fmtInt i ++ ['\n']) ++ body) ∧
      ((∀ k, Plain (st.terminal_memory_output k)) → (∀ k, Plain (st.CPU_output k)) →
        Plain s.users → (∀ u, s.uname = some u → u.AllPlain) → Plain body) := by
  have key : ∀ (P : List Char) (h : List (List Char)),
      (⟨st.terminal_memory_output, st.CPU_output, st.memory_previous, st.cpu_previous,
        st.idle_previous, P ++ unlines h, st.status⟩ : DisplayState) =
      DisplayState.prepend P ⟨st.terminal_memory_output, st.CPU_output, st.memory_previous,
        st.cpu_previous, st.idle_previous, unlines h, st.status⟩ := fun _ _ => rfl
  unfold display.round
  dsimp only
  have hr : ¬ (st.status ≠ Status.running) := by rw [hrun]; simp
  have hs : ¬ ((!s.spawn_ok) = true) := by rw [hspawn]; simp
  simp only [hr, hs, if_false]
  cases hh : headerUsage samples tdelay s.getrusage with
  | none =>
    refine ⟨[], fun sequential => ?_, fun _ _ _ _ => Plain.nil⟩
    simp
  | some h =>
    dsimp only
    simp only [key, display.memoryPart_prepend, display.userPart_prepend, display.cpuPart_prepend]
    have hp1 : ∀ (_ : ∀ k, Plain (st.terminal_memory_output k)) (_ : ∀ k, Plain (st.CPU_output k)),
        (⟨st.terminal_memory_output, st.CPU_output, st.memory_previous,
          st.cpu_previous, st.idle_previous, unlines h, st.status⟩ : DisplayState).AllPlain :=
      fun a b => ⟨plain_headerUsage _ _ _ h hh, a, b⟩
    generalize (⟨st.terminal_memory_output, st.CPU_output, st.memory_previous,
      st.cpu_previous, st.idle_previous, unlines h, st.status⟩ : DisplayState) = st1 at hp1 ⊢
    have hp2 := fun a b => display.memoryPart_plain samples system graphics st1 i s (hp1 a b)
    generalize display.memoryPart samples system graphics st1 i s = st2 at hp2 ⊢
    have hp4 := fun a b c => display.cpuPart_plain system graphics _ i s
      (display.userPart_plain user st2 s (hp2 a b) c)
    generalize display.cpuPart system graphics (display.userPart user st2 s) i s = st4 at hp4 ⊢
    by_cases h3 : st2.status = Status.running
    · by_cases h4 : st4.status = Status.running
      · cases hf : footerUsage s.uname with
        | none =>
          refine ⟨st4.stdout, fun sequential => ?_, fun a b c _ => (hp4 a b c).1⟩
          simp [DisplayState.prepend, h3, h4]
        | some f =>
          refine ⟨st4.stdout ++ unlines f, fun sequential => ?_, fun a b c d =>
            Plain.append (hp4 a b c).1 (plain_footerUsage _ _ d hf)⟩
          simp [DisplayState.prepend, h3, h4]
      · refine ⟨st4.stdout, fun sequential => ?_, fun a b c _ => (hp4 a b c).1⟩
        simp [DisplayState.prepend, h3, h4]
    · refine ⟨st2.stdout, fun sequential => ?_, fun a b _ _ => (hp2 a b).1⟩
      simp [DisplayState.prepend, h3]

/-- Without graphics `systemOutput` never stores a previous memory value. -/
theorem systemOutput_no_graphics (terminal : Terminal) (i : Int) (mp : F64) (info : memory)
    (ok : Bool) : (systemOutput terminal false i mp info ok).memory_previous = mp := by
  unfold systemOutput
  dsimp only
  split_ifs <;> first | rfl | (exfalso; simp_all)

/-- Without graphics `CPUOutput` leaves the CPU history as it was. -/
theorem CPUOutput_no_graphics (terminal : Terminal) (i cp ip : Int) (info : cpu_stats)
    (nc : Int) : (CPUOutput terminal false i cp ip info nc).terminal = some terminal := by
  unfold CPUOutput
  dsimp only
  split_ifs <;> first | rfl | (exfalso; simp_all)

theorem display.memoryPart_no_graphics (samples : Int) (system : Bool) (st : DisplayState)
    (i : Int) (s : Sample) :
    (display.memoryPart samples system false st i s).memory_previous = st.memory_previous ∧
    (display.memoryPart samples system false st i s).CPU_output = st.CPU_output := by
  have h := systemOutput_no_graphics st.terminal_memory_output i st.memory_previous s.mem
    s.sysinfo_ok
  unfold display.memoryPart
  dsimp only
  unfold display.systemCall
  split_ifs
  · exact ⟨rfl, rfl⟩
  · exact ⟨h, rfl⟩
  · split <;> exact ⟨h, rfl⟩

theorem display.cpuPart_no_graphics (system : Bool) (st : DisplayState)
    (i : Int) (s : Sample) :
    (display.cpuPart system false st i s).memory_previous = st.memory_previous ∧
    (display.cpuPart system false st i s).CPU_output = st.CPU_output := by
  have h := CPUOutput_no_graphics st.CPU_output i st.cpu_previous st.idle_previous s.cpu
    s.num_cores
  unfold display.cpuPart
  dsimp only
  unfold display.cpuCall
  by_cases hs : (!system) = true
  · rw [if_pos hs]
    exact ⟨rfl, rfl⟩
  · rw [if_neg hs, h]
    exact ⟨rfl, rfl⟩

theorem display.userPart_graphics_state (user : Bool) (st : DisplayState) (s : Sample) :
    (display.userPart user st s).memory_previous = st.memory_previous ∧
    (display.userPart user st s).CPU_output = st.CPU_output := by
  unfold display.userPart
  split_ifs <;> exact ⟨rfl, rfl⟩

theorem display.round_no_graphics (samples tdelay : Int) (system user sequential : Bool)
    (st : DisplayState) (i : Int) (s : Sample) :
    (display.round samples tdelay system user false sequential st i s).memory_previous =
      st.memory_previous ∧
    (display.round samples tdelay system user false sequential st i s).CPU_output =
      st.CPU_output := by
  unfold display.round
  dsimp only
  by_cases hr : st.status ≠ Status.running
  · rw [if_pos hr]
    exact ⟨rfl, rfl⟩
  rw [if_neg hr]
  by_cases hs : (!s.spawn_ok) = true
  · rw [if_pos hs]
    exact ⟨rfl, rfl⟩
  rw [if_neg hs]
  cases headerUsage samples tdelay s.getrusage with
  | none => exact ⟨rfl, rfl⟩
  | some h =>
    dsimp only
    generalize hst1 : (⟨st.terminal_memory_output, st.CPU_output, st.memory_previous,
      st.cpu_previous, st.idle_previous, (st.stdout ++ if (!sequential) = true then
        "\x1b[2J \x1b[1;1H\n".toList else ">>> iteration ".toList ++ fmtInt i ++ ['\n']) ++
        unlines h, st.status⟩ : DisplayState) = st1
    have e1 : st1.memory_previous = st.memory_previous ∧ st1.CPU_output = st.CPU_output := by
      rw [← hst1]
      exact ⟨rfl, rfl⟩
    have e2 := display.memoryPart_no_graphics samples system st1 i s
    generalize display.memoryPart samples system false st1 i s = st2 at e2 ⊢
    by_cases h2 : st2.status ≠ Status.running
    · rw [if_pos h2]
      exact ⟨e2.1.trans e1.1, e2.2.trans e1.2⟩
    rw [if_neg h2]
    have e3 := display.userPart_graphics_state user st2 s
    generalize display.userPart user st2 s = st3 at e3 ⊢
    have e4 := display.cpuPart_no_graphics system st3 i s
    generalize display.cpuPart system false st3 i s = st4 at e4 ⊢
    have e : st4.memory_previous = st.memory_previous ∧ st4.CPU_output = st.CPU_output :=
      ⟨e4.1.trans (e3.1.trans (e2.1.trans e1.1)), e4.2.trans (e3.2.trans (e2.2.trans e1.2))⟩
    by_cases h4 : st4.status ≠ Status.running
    · rw [if_pos h4]
      exact e
    rw [if_neg h4]
    cases footerUsage s.uname <;> exact e

/-- The numeric panel holds none of the characters of a memory bar. -/
theorem panel_no_bar (info : memory) :
    ∀ c ∈ systemOutput.panel info, c ≠ '|' ∧ c ≠ '#' ∧ c ≠ ':' ∧ c ≠ '*' ∧ c ≠ '@' ∧ c ≠ 'o' := by
  have hf : ∀ (x : F64), ∀ c ∈ F64.fmt2 x,
      c ≠ '|' ∧ c ≠ '#' ∧ c ≠ ':' ∧ c ≠ '*' ∧ c ≠ '@' ∧ c ≠ 'o' := by
    intro x c hc
    rcases F64.fmt2_chars x c hc with h | h | h
    · refine ⟨?_, ?_, ?_, ?_, ?_, ?_⟩ <;> (intro e; rw [e] at h; revert h; decide)
    · rw [h]; decide
    · rw [h]; decide
  have hs : ∀ (l : List Char), (l = " GB / ".toList ∨ l = " GB -- ".toList ∨ l = " GB".toList) →
      ∀ c ∈ l, c ≠ '|' ∧ c ≠ '#' ∧ c ≠ ':' ∧ c ≠ '*' ∧ c ≠ '@' ∧ c ≠ 'o' := by
    intro l hl
    rcases hl with h | h | h <;> (rw [h]; decide)
  intro c hc
  unfold systemOutput.panel at hc
  simp only [List.mem_append, or_assoc] at hc
  rcases hc with h | h | h | h | h | h | h | h
  · exact hf _ c h
  · exact hs _ (Or.inl rfl) c h
  · exact hf _ c h
  · exact hs _ (Or.inr (Or.inl rfl)) c h
  · exact hf _ c h
  · exact hs _ (Or.inl rfl) c h
  · exact hf _ c h
  · exact hs _ (Or.inr (Or.inr rfl)) c h

theorem systemOutput_no_graphics_slot (terminal : Terminal) (i : Int) (mp : F64) (info : memory)
    (hi0 : 0 ≤ i) (hi : i < 1024) (hfit : (systemOutput.panel info).length + 1 ≤ 1024) :
    (systemOutput terminal false i mp info true).terminal =
      some (Function.update terminal i.toNat (systemOutput.panel info)) := by
  unfold systemOutput
  dsimp only
  have hc : ¬ (i < 0 ∨ 1024 ≤ i ∨ 1024 < (systemOutput.panel info).length + 1) := by omega
  rw [if_neg (by simp), if_neg hc, if_neg (by simp)]


/-- The value `CPUOutput` reports lies in [0, 100]. -/
theorem cpu_use_range (cp ip : Int) (info : cpu_stats) :
    0 ≤ (cpu_use cp ip info).toRat ∧ (cpu_use cp ip info).toRat ≤ 100 := by
  rw [cpu_use_toRat]
  have h : 0 ≤ (cpu_use_raw cp ip info).toRat := by
    unfold cpu_use_raw
    exact F64.fabs_nonneg _
  exact ⟨le_min (by norm_num) h, min_le_left _ _⟩

/-- The binary logarithm from above. -/
theorem flog2_lt (n : Nat) : n < 2 ^ (flog2 n + 1) := by
  by_contra h
  have := le_flog2 n (flog2 n + 1) (not_lt.1 h)
  omega

/-- The function `roundEven` rounds to nearest, ties to even. -/
theorem roundEven_spec (N D : Nat) (hD : 0 < D) : NearestEven ((N : ℚ) / D) (roundEven N D) := by
  have hDq : (0 : ℚ) < D := by exact_mod_cast hD
  have hN : (N : ℚ) = (D : ℚ) * ((N / D : Nat) : ℚ) + ((N % D : Nat) : ℚ) := by
    exact_mod_cast (Nat.div_add_mod N D).symm
  have hr : N % D < D := Nat.mod_lt N hD
  have hM : (N : ℚ) / D = ((N / D : Nat) : ℚ) + ((N % D : Nat) : ℚ) / D := by
    rw [hN]
    field_simp
    ring
  unfold roundEven
  dsimp only
  rw [hM]
  generalize (N / D : Nat) = f
  generalize ((N % D : Nat)) = r at hr
  have hrq : (r : ℚ) < D := by exact_mod_cast hr
  have hr0 : (0 : ℚ) ≤ (r : ℚ) := by positivity
  have hq0 : (0 : ℚ) ≤ (r : ℚ) / D := by positivity
  have hq1 : (r : ℚ) / D < 1 := (div_lt_one hDq).2 hrq
  by_cases h1 : 2 * r < D
  · rw [if_pos h1]
    have h1q : (r : ℚ) / D < 1 / 2 := by
      rw [div_lt_iff₀ hDq]
      have : ((2 * r : Nat) : ℚ) < D := by exact_mod_cast h1
      push_cast at this
      linarith
    refine ⟨by linarith, by linarith, fun h => ?_, fun h => ?_⟩
    · exfalso; linarith
    · exfalso; linarith
  rw [if_neg h1]
  by_cases h2 : D < 2 * r
  · rw [if_pos h2]
    have h2q : 1 / 2 < (r : ℚ) / D := by
      rw [lt_div_iff₀ hDq]
      have : (D : ℚ) < ((2 * r : Nat) : ℚ) := by exact_mod_cast h2
      push_cast at this
      linarith
    unfold NearestEven
    push_cast
    refine ⟨by linarith, by linarith, fun h => ?_, fun h => ?_⟩
    · exfalso; linarith
    · exfalso; linarith
  rw [if_neg h2]
  have h3 : D = 2 * r := by omega
  have h3q : (r : ℚ) / D = 1 / 2 := by
    rw [div_eq_iff (ne_of_gt hDq)]
    have : (D : ℚ) = ((2 * r : Nat) : ℚ) := by exact_mod_cast h3
    push_cast at this
    linarith
  by_cases h4 : f % 2 = 0
  · rw [if_pos h4]
    refine ⟨by linarith, by linarith, fun _ => h4, fun h => ?_⟩
    exfalso; linarith
  · rw [if_neg h4]
    unfold NearestEven
    push_cast
    refine ⟨by linarith, by linarith, fun h => ?_, fun _ => by omega⟩
    exfalso; linarith

/-- Rounding to nearest even is monotone. -/
theorem nearestEven_mono (M1 M2 : ℚ) (r1 r2 : Nat) (h1 : NearestEven M1 r1)
    (h2 : NearestEven M2 r2) (h : M1 ≤ M2) : r1 ≤ r2 := by
  by_contra hc
  have hc1 : r2 + 1 ≤ r1 := by omega
  have hcq : (r2 : ℚ) + 1 ≤ r1 := by exact_mod_cast hc1
  obtain ⟨a1, _, _, d1⟩ := h1
  obtain ⟨_, b2, c2, _⟩ := h2
  have e1 : M1 + 1 / 2 = r1 := by linarith
  have e2 : M2 = r2 + 1 / 2 := by linarith
  have e3 : (r1 : ℚ) = r2 + 1 := by linarith
  have e4 : r1 = r2 + 1 := by exact_mod_cast e3
  have := d1 e1
  have := c2 e2
  omega

theorem nearestEven_nat (c : Nat) : NearestEven (c : ℚ) c :=
  ⟨by linarith, by linarith, fun h => by exfalso; linarith, fun h => by exfalso; linarith⟩

theorem nearestEven_unique (M : ℚ) (r1 r2 : Nat) (h1 : NearestEven M r1)
    (h2 : NearestEven M r2) : r1 = r2 :=
  le_antisymm (nearestEven_mono M M r1 r2 h1 h2 le_rfl) (nearestEven_mono M M r2 r1 h2 h1 le_rfl)

theorem flog2_bounds (n : Nat) (hn : 0 < n) :
    (2 : ℚ) ^ (flog2 n : Int) ≤ n ∧ (n : ℚ) < (2 : ℚ) ^ ((flog2 n : Int) + 1) := by
  have h1 : 2 ^ flog2 n ≤ n := flog2_le n hn
  have h2 : n < 2 ^ (flog2 n + 1) := flog2_lt n
  have h1q : ((2 ^ flog2 n : Nat) : ℚ) ≤ n := by exact_mod_cast h1
  have h2q : (n : ℚ) < ((2 ^ (flog2 n + 1) : Nat) : ℚ) := by exact_mod_cast h2
  push_cast at h1q h2q
  constructor
  · rw [zpow_natCast]
    exact h1q
  · have : ((flog2 n : Int) + 1) = ((flog2 n + 1 : Nat) : Int) := by push_cast; rfl
    rw [this, zpow_natCast]
    exact h2q

theorem ilog2_eq (a d : Nat) :
    ilog2 a d = if (d : ℚ) * (2 : ℚ) ^ ((flog2 a : Int) - (flog2 d : Int)) ≤ a
      then (flog2 a : Int) - (flog2 d : Int) else (flog2 a : Int) - (flog2 d : Int) - 1 := by
  unfold ilog2
  dsimp only
  generalize (flog2 a : Int) - (flog2 d : Int) = k
  have h2 : ∀ j : Nat, (2 : ℚ) ^ (j : Int) = ((2 ^ j : Nat) : ℚ) := by
    intro j
    rw [zpow_natCast]
    push_cast
    rfl
  by_cases hk : 0 ≤ k
  · rw [if_pos hk]
    have hkk : ((k.toNat : Nat) : Int) = k := Int.toNat_of_nonneg hk
    have hc : (d * 2 ^ k.toNat ≤ a) ↔ ((d : ℚ) * (2 : ℚ) ^ k ≤ a) := by
      rw [← hkk, h2, hkk]
      exact_mod_cast Iff.rfl
    by_cases h : d * 2 ^ k.toNat ≤ a
    · rw [if_pos h, if_pos (hc.1 h)]
    · rw [if_neg h, if_neg (fun h1 => h (hc.2 h1))]
  · rw [if_neg hk]
    have hkk : (((-k).toNat : Nat) : Int) = -k := Int.toNat_of_nonneg (by omega)
    have hp : (0 : ℚ) < (2 : ℚ) ^ k := zpow_pos (by norm_num) _
    have hc : (d ≤ a * 2 ^ (-k).toNat) ↔ ((d : ℚ) * (2 : ℚ) ^ k ≤ a) := by
      have e : ((2 ^ (-k).toNat : Nat) : ℚ) = ((2 : ℚ) ^ k)⁻¹ := by
        rw [← h2, hkk, zpow_neg]
      have : (d ≤ a * 2 ^ (-k).toNat) ↔ ((d : ℚ) ≤ a * ((2 ^ (-k).toNat : Nat) : ℚ)) := by
        exact_mod_cast Iff.rfl
      rw [this, e, ← div_eq_mul_inv, le_div_iff₀ hp]
    by_cases h : d ≤ a * 2 ^ (-k).toNat
    · rw [if_pos h, if_pos (hc.1 h)]
    · rw [if_neg h, if_neg (fun h1 => h (hc.2 h1))]

/-- The integer `ilog2 a d` is the floor of the binary logarithm of `a / d`. -/
theorem ilog2_spec (a d : Nat) (ha : 0 < a) (hd : 0 < d) :
    (2 : ℚ) ^ (ilog2 a d) ≤ (a : ℚ) / d ∧ (a : ℚ) / d < (2 : ℚ) ^ (ilog2 a d + 1) := by
  obtain ⟨ha1, ha2⟩ := flog2_bounds a ha
  obtain ⟨hd1, hd2⟩ := flog2_bounds d hd
  have hdq : (0 : ℚ) < d := by exact_mod_cast hd
  have two : (2 : ℚ) ≠ 0 := by norm_num
  rw [ilog2_eq]
  generalize (flog2 a : Int) = la at *
  generalize (flog2 d : Int) = ld at *
  by_cases h : (d : ℚ) * (2 : ℚ) ^ (la - ld) ≤ a
  · rw [if_pos h]
    constructor
    · rw [le_div_iff₀ hdq]
      linarith
    · rw [div_lt_iff₀ hdq]
      have e : (2 : ℚ) ^ (la + 1) = (2 : ℚ) ^ (la - ld + 1) * (2 : ℚ) ^ ld := by
        rw [← zpow_add₀ two]
        congr 1
        ring
      have hp : (0 : ℚ) < (2 : ℚ) ^ (la - ld + 1) := zpow_pos (by norm_num) _
      calc (a : ℚ) < (2 : ℚ) ^ (la + 1) := ha2
        _ = (2 : ℚ) ^ (la - ld + 1) * (2 : ℚ) ^ ld := e
        _ ≤ (2 : ℚ) ^ (la - ld + 1) * d := mul_le_mul_of_nonneg_left hd1 (le_of_lt hp)
  · rw [if_neg h]
    constructor
    · rw [le_div_iff₀ hdq]
      have e : (2 : ℚ) ^ la = (2 : ℚ) ^ (la - ld - 1) * (2 : ℚ) ^ (ld + 1) := by
        rw [← zpow_add₀ two]
        congr 1
        ring
      have hp : (0 : ℚ) < (2 : ℚ) ^ (la - ld - 1) := zpow_pos (by norm_num) _
      calc (2 : ℚ) ^ (la - ld - 1) * d ≤ (2 : ℚ) ^ (la - ld - 1) * (2 : ℚ) ^ (ld + 1) :=
            mul_le_mul_of_nonneg_left (le_of_lt hd2) (le_of_lt hp)
        _ = (2 : ℚ) ^ la := e.symm
        _ ≤ a := ha1
    · rw [div_lt_iff₀ hdq]
      have e : la - ld - 1 + 1 = la - ld := by ring
      rw [e]
      linarith

/-- The significand is the scaled quotient rounded to nearest even. -/
theorem sig_spec (a d : Nat) (hd : 0 < d) :
    NearestEven ((a : ℚ) / d * (2 : ℚ) ^ (52 - ilog2 a d)) (sig a d) := by
  have hdq : (d : ℚ) ≠ 0 := by exact_mod_cast (ne_of_gt hd)
  have two : (2 : ℚ) ≠ 0 := by norm_num
  have h2 : ∀ j : Nat, ((2 ^ j : Nat) : ℚ) = (2 : ℚ) ^ (j : Int) := by
    intro j
    rw [zpow_natCast]
    push_cast
    rfl
  unfold sig
  dsimp only
  generalize ilog2 a d = l
  by_cases hs : 0 ≤ l - 52
  · rw [if_pos hs]
    have hkk : (((l - 52).toNat : Nat) : Int) = l - 52 := Int.toNat_of_nonneg hs
    have h := roundEven_spec a (d * 2 ^ (l - 52).toNat) (Nat.mul_pos hd (by positivity))
    have e : (a : ℚ) / ((d * 2 ^ (l - 52).toNat : Nat) : ℚ) = (a : ℚ) / d * (2 : ℚ) ^ (52 - l) := by
      rw [Nat.cast_mul, h2, hkk, show (52 : Int) - l = -(l - 52) by ring, zpow_neg]
      field_simp
    rw [e] at h
    exact h
  · rw [if_neg hs]
    have hkk : (((-(l - 52)).toNat : Nat) : Int) = -(l - 52) := Int.toNat_of_nonneg (by omega)
    have h := roundEven_spec (a * 2 ^ (-(l - 52)).toNat) d hd
    have e : ((a * 2 ^ (-(l - 52)).toNat : Nat) : ℚ) / d = (a : ℚ) / d * (2 : ℚ) ^ (52 - l) := by
      rw [Nat.cast_mul, h2, hkk, show (52 : Int) - l = -(l - 52) by ring]
      field_simp
    rw [e] at h
    exact h

/-- The significand before renormalisation lies in `[2 ^ 52, 2 ^ 53]`. -/
theorem sig_bounds (a d : Nat) (ha : 0 < a) (hd : 0 < d) :
    2 ^ 52 ≤ sig a d ∧ sig a d ≤ 2 ^ 53 := by
  obtain ⟨h1, h2⟩ := ilog2_spec a d ha hd
  have hs := sig_spec a d hd
  have two : (2 : ℚ) ≠ 0 := by norm_num
  have hp : (0 : ℚ) < (2 : ℚ) ^ (52 - ilog2 a d) := zpow_pos (by norm_num) _
  have e1 : (2 : ℚ) ^ (ilog2 a d) * (2 : ℚ) ^ (52 - ilog2 a d) = ((2 ^ 52 : Nat) : ℚ) := by
    rw [← zpow_add₀ two, show ilog2 a d + (52 - ilog2 a d) = ((52 : Nat) : Int) by push_cast; ring,
      zpow_natCast]
    push_cast
    rfl
  have e2 : (2 : ℚ) ^ (ilog2 a d + 1) * (2 : ℚ) ^ (52 - ilog2 a d) = ((2 ^ 53 : Nat) : ℚ) := by
    rw [← zpow_add₀ two,
      show ilog2 a d + 1 + (52 - ilog2 a d) = ((53 : Nat) : Int) by push_cast; ring, zpow_natCast]
    push_cast
    rfl
  constructor
  · refine nearestEven_mono _ _ _ _ (nearestEven_nat (2 ^ 52)) hs ?_
    rw [← e1]
    exact mul_le_mul_of_nonneg_right h1 (le_of_lt hp)
  · refine nearestEven_mono _ _ _ _ hs (nearestEven_nat (2 ^ 53)) ?_
    rw [← e2]
    exact mul_le_mul_of_nonneg_right (le_of_lt h2) (le_of_lt hp)

/-- The value of a rounded non-zero quotient. -/
theorem rndQ_toRat (n : Int) (d : Nat) (E : Int) (hn : n ≠ 0) :
    (rndQ n d E).toRat =
      (sgn n : ℚ) * (sig n.natAbs d : ℚ) * (2 : ℚ) ^ (ilog2 n.natAbs d - 52 + E) := by
  have two : (2 : ℚ) ≠ 0 := by norm_num
  unfold rndQ
  rw [if_neg hn]
  by_cases h : sig n.natAbs d = 2 ^ 53
  · rw [if_pos h, h]
    unfold F64.toRat
    dsimp only
    have hp : pow2 52 = 2 ^ 52 := by decide
    rw [hp, show ilog2 n.natAbs d - 52 + 1 + E = (ilog2 n.natAbs d - 52 + E) + 1 by ring,
      zpow_add₀ two]
    push_cast
    ring
  · rw [if_neg h]
    unfold F64.toRat
    dsimp only
    push_cast
    ring

theorem rndQ_toRat_pos (n : Int) (d : Nat) (E : Int) (hn : 0 < n) :
    (rndQ n d E).toRat = (sig n.natAbs d : ℚ) * (2 : ℚ) ^ (ilog2 n.natAbs d - 52 + E) := by
  rw [rndQ_toRat n d E (ne_of_gt hn)]
  unfold sgn
  rw [if_neg (by omega)]
  push_cast
  ring

/-- Rounding is odd. -/
theorem rndQ_neg (n : Int) (d : Nat) (E : Int) :
    (rndQ (-n) d E).toRat = -(rndQ n d E).toRat := by
  by_cases hn : n = 0
  · rw [hn]
    simp [rndQ_zero, F64.toRat]
  rw [rndQ_toRat n d E hn, rndQ_toRat (-n) d E (by omega), Int.natAbs_neg]
  have : sgn (-n) = -sgn n := by
    unfold sgn
    by_cases h : n < 0
    · rw [if_pos h, if_neg (by omega)]
      rfl
    · rw [if_neg h, if_pos (by omega)]
  rw [this]
  push_cast
  ring

/-- Rounding is monotone on positive values. -/
theorem rndQ_mono_pos (n1 n2 : Int) (d1 d2 : Nat) (E1 E2 : Int) (hn1 : 0 < n1) (hn2 : 0 < n2)
    (hd1 : 0 < d1) (hd2 : 0 < d2)
    (h : (n1 : ℚ) / d1 * (2 : ℚ) ^ E1 ≤ (n2 : ℚ) / d2 * (2 : ℚ) ^ E2) :
    (rndQ n1 d1 E1).toRat ≤ (rndQ n2 d2 E2).toRat := by
  have two : (2 : ℚ) ≠ 0 := by norm_num
  have one2 : (1 : ℚ) ≤ 2 := by norm_num
  rw [rndQ_toRat_pos n1 d1 E1 hn1, rndQ_toRat_pos n2 d2 E2 hn2]
  have c1 : ((n1.natAbs : Nat) : ℚ) = (n1 : ℚ) := by
    have : ((n1.natAbs : Nat) : Int) = n1 := Int.natAbs_of_nonneg (le_of_lt hn1)
    rw [← Int.cast_natCast, this]
  have c2 : ((n2.natAbs : Nat) : ℚ) = (n2 : ℚ) := by
    have : ((n2.natAbs : Nat) : Int) = n2 := Int.natAbs_of_nonneg (le_of_lt hn2)
    rw [← Int.cast_natCast, this]
  rw [← c1, ← c2] at h
  have ha1 : 0 < n1.natAbs := Int.natAbs_pos.2 (ne_of_gt hn1)
  have ha2 : 0 < n2.natAbs := Int.natAbs_pos.2 (ne_of_gt hn2)
  obtain ⟨l1lo, l1hi⟩ := ilog2_spec n1.natAbs d1 ha1 hd1
  obtain ⟨l2lo, l2hi⟩ := ilog2_spec n2.natAbs d2 ha2 hd2
  have s1 := sig_spec n1.natAbs d1 hd1
  have s2 := sig_spec n2.natAbs d2 hd2
  obtain ⟨b1lo, b1hi⟩ := sig_bounds n1.natAbs d1 ha1 hd1
  obtain ⟨b2lo, b2hi⟩ := sig_bounds n2.natAbs d2 ha2 hd2
  generalize ilog2 n1.natAbs d1 = l1 at *
  generalize ilog2 n2.natAbs d2 = l2 at *
  generalize sig n1.natAbs d1 = r1 at *
  generalize sig n2.natAbs d2 = r2 at *
  generalize ((n1.natAbs : Nat) : ℚ) / d1 = q1 at *
  generalize ((n2.natAbs : Nat) : ℚ) / d2 = q2 at *
  have pE1 : (0 : ℚ) < (2 : ℚ) ^ E1 := zpow_pos (by norm_num) _
  have pE2 : (0 : ℚ) < (2 : ℚ) ^ E2 := zpow_pos (by norm_num) _
  have v1lo : (2 : ℚ) ^ (l1 + E1) ≤ q1 * (2 : ℚ) ^ E1 := by
    rw [zpow_add₀ two]
    exact mul_le_mul_of_nonneg_right l1lo (le_of_lt pE1)
  have v2hi : q2 * (2 : ℚ) ^ E2 < (2 : ℚ) ^ (l2 + E2 + 1) := by
    rw [show l2 + E2 + 1 = (l2 + 1) + E2 by ring, zpow_add₀ two]
    exact mul_lt_mul_of_pos_right l2hi pE2
  have hL : l1 + E1 ≤ l2 + E2 := by
    by_contra hc
    have hc1 : l2 + E2 + 1 ≤ l1 + E1 := by omega
    have := zpow_le_zpow_right₀ one2 hc1
    linarith
  have b1q : (r1 : ℚ) ≤ (2 : ℚ) ^ (53 : Int) := by
    have : (r1 : ℚ) ≤ ((2 ^ 53 : Nat) : ℚ) := by exact_mod_cast b1hi
    rw [show ((53 : Int)) = ((53 : Nat) : Int) by rfl, zpow_natCast]
    push_cast at this
    exact this
  have b2q : (2 : ℚ) ^ (52 : Int) ≤ (r2 : ℚ) := by
    have : ((2 ^ 52 : Nat) : ℚ) ≤ (r2 : ℚ) := by exact_mod_cast b2lo
    rw [show ((52 : Int)) = ((52 : Nat) : Int) by rfl, zpow_natCast]
    push_cast at this
    exact this
  rcases lt_or_eq_of_le hL with hlt | heq
  · have p1 : (0 : ℚ) < (2 : ℚ) ^ (l1 - 52 + E1) := zpow_pos (by norm_num) _
    have p2 : (0 : ℚ) < (2 : ℚ) ^ (l2 - 52 + E2) := zpow_pos (by norm_num) _
    calc (r1 : ℚ) * (2 : ℚ) ^ (l1 - 52 + E1)
        ≤ (2 : ℚ) ^ (53 : Int) * (2 : ℚ) ^ (l1 - 52 + E1) :=
          mul_le_mul_of_nonneg_right b1q (le_of_lt p1)
      _ = (2 : ℚ) ^ (l1 + E1 + 1) := by
          rw [← zpow_add₀ two]
          congr 1
          ring
      _ ≤ (2 : ℚ) ^ (l2 + E2) := zpow_le_zpow_right₀ one2 (by omega)
      _ = (2 : ℚ) ^ (52 : Int) * (2 : ℚ) ^ (l2 - 52 + E2) := by
          rw [← zpow_add₀ two]
          congr 1
          ring
      _ ≤ (r2 : ℚ) * (2 : ℚ) ^ (l2 - 52 + E2) :=
          mul_le_mul_of_nonneg_right b2q (le_of_lt p2)
  · have e : l1 - 52 + E1 = l2 - 52 + E2 := by omega
    rw [e]
    have p2 : (0 : ℚ) < (2 : ℚ) ^ (l2 - 52 + E2) := zpow_pos (by norm_num) _
    apply mul_le_mul_of_nonneg_right _ (le_of_lt p2)
    have hM : q1 * (2 : ℚ) ^ (52 - l1) ≤ q2 * (2 : ℚ) ^ (52 - l2) := by
      have pp : (0 : ℚ) < (2 : ℚ) ^ (52 - l1 - E1) := zpow_pos (by norm_num) _
      have e1 : q1 * (2 : ℚ) ^ (52 - l1) = q1 * (2 : ℚ) ^ E1 * (2 : ℚ) ^ (52 - l1 - E1) := by
        rw [mul_assoc, ← zpow_add₀ two]
        congr 2
        ring
      have e2 : q2 * (2 : ℚ) ^ (52 - l2) = q2 * (2 : ℚ) ^ E2 * (2 : ℚ) ^ (52 - l1 - E1) := by
        rw [mul_assoc, ← zpow_add₀ two]
        congr 2
        omega
      rw [e1, e2]
      exact mul_le_mul_of_nonneg_right h (le_of_lt pp)
    have := nearestEven_mono _ _ _ _ s1 s2 hM
    exact_mod_cast this

theorem rndQ_toRat_nonneg (n : Int) (d : Nat) (E : Int) (hn : 0 ≤ n) :
    0 ≤ (rndQ n d E).toRat := by
  have h := rndQ_m_nonneg n d E hn
  unfold F64.toRat
  exact mul_nonneg (by exact_mod_cast h) (le_of_lt (zpow_pos (by norm_num) _))

/-- Rounding is monotone from a value that is not negative. -/
theorem rndQ_mono (n1 n2 : Int) (d1 d2 : Nat) (E1 E2 : Int) (hn1 : 0 ≤ n1)
    (hd1 : 0 < d1) (hd2 : 0 < d2)
    (h : (n1 : ℚ) / d1 * (2 : ℚ) ^ E1 ≤ (n2 : ℚ) / d2 * (2 : ℚ) ^ E2) :
    (rndQ n1 d1 E1).toRat ≤ (rndQ n2 d2 E2).toRat := by
  have pE1 : (0 : ℚ) < (2 : ℚ) ^ E1 := zpow_pos (by norm_num) _
  have pE2 : (0 : ℚ) < (2 : ℚ) ^ E2 := zpow_pos (by norm_num) _
  have hd1q : (0 : ℚ) < d1 := by exact_mod_cast hd1
  have hd2q : (0 : ℚ) < d2 := by exact_mod_cast hd2
  have hv1 : 0 ≤ (n1 : ℚ) / d1 * (2 : ℚ) ^ E1 :=
    mul_nonneg (div_nonneg (by exact_mod_cast hn1) (le_of_lt hd1q)) (le_of_lt pE1)
  have hn2 : 0 ≤ n2 := by
    by_contra hc
    have : (n2 : ℚ) < 0 := by exact_mod_cast (not_le.1 hc)
    have : (n2 : ℚ) / d2 * (2 : ℚ) ^ E2 < 0 :=
      mul_neg_of_neg_of_pos (div_neg_of_neg_of_pos this hd2q) pE2
    linarith
  rcases lt_or_eq_of_le hn1 with h1 | h1
  · have h2 : 0 < n2 := by
      rcases lt_or_eq_of_le hn2 with h2 | h2
      · exact h2
      · exfalso
        rw [← h2] at h
        have : 0 < (n1 : ℚ) / d1 * (2 : ℚ) ^ E1 :=
          mul_pos (div_pos (by exact_mod_cast h1) hd1q) pE1
        simp at h
        linarith
    exact rndQ_mono_pos n1 n2 d1 d2 E1 E2 h1 h2 hd1 hd2 h
  · rw [← h1, rndQ_zero]
    have := rndQ_toRat_nonneg n2 d2 E2 hn2
    simpa [F64.toRat] using this

/-- A positive value with a significand below `2 ^ 53` is not changed by rounding. -/
theorem rndQ_exact_pos (n : Int) (d : Nat) (E : Int) (k : Nat) (j : Int) (hn : 0 < n)
    (hd : 0 < d) (hk : k < 2 ^ 53) (h : (n : ℚ) / d * (2 : ℚ) ^ E = (k : ℚ) * (2 : ℚ) ^ j) :
    (rndQ n d E).toRat = (k : ℚ) * (2 : ℚ) ^ j := by
  have two : (2 : ℚ) ≠ 0 := by norm_num
  have one2 : (1 : ℚ) ≤ 2 := by norm_num
  rw [rndQ_toRat_pos n d E hn]
  have c1 : ((n.natAbs : Nat) : ℚ) = (n : ℚ) := by
    have : ((n.natAbs : Nat) : Int) = n := Int.natAbs_of_nonneg (le_of_lt hn)
    rw [← Int.cast_natCast, this]
  rw [← c1] at h
  have ha : 0 < n.natAbs := Int.natAbs_pos.2 (ne_of_gt hn)
  obtain ⟨llo, lhi⟩ := ilog2_spec n.natAbs d ha hd
  have s := sig_spec n.natAbs d hd
  generalize ilog2 n.natAbs d = l at *
  generalize sig n.natAbs d = r at *
  generalize ((n.natAbs : Nat) : ℚ) / d = q at *
  have pE : (0 : ℚ) < (2 : ℚ) ^ E := zpow_pos (by norm_num) _
  have pj : (0 : ℚ) < (2 : ℚ) ^ j := zpow_pos (by norm_num) _
  have vlo : (2 : ℚ) ^ (l + E) ≤ (k : ℚ) * (2 : ℚ) ^ j := by
    rw [← h, zpow_add₀ two]
    exact mul_le_mul_of_nonneg_right llo (le_of_lt pE)
  have hkq : (k : ℚ) < (2 : ℚ) ^ (53 : Int) := by
    have : (k : ℚ) < ((2 ^ 53 : Nat) : ℚ) := by exact_mod_cast hk
    rw [show ((53 : Int)) = ((53 : Nat) : Int) by rfl, zpow_natCast]
    push_cast at this
    exact this
  have ht : 0 ≤ j + 52 - l - E := by
    by_contra hc
    have hc1 : 53 + j ≤ l + E := by omega
    have h1 := zpow_le_zpow_right₀ one2 hc1
    have h2 : (k : ℚ) * (2 : ℚ) ^ j < (2 : ℚ) ^ (53 + j) := by
      rw [zpow_add₀ two]
      exact mul_lt_mul_of_pos_right hkq pj
    linarith
  have htt : (((j + 52 - l - E).toNat : Nat) : Int) = j + 52 - l - E := Int.toNat_of_nonneg ht
  have hM : q * (2 : ℚ) ^ (52 - l) = ((k * 2 ^ (j + 52 - l - E).toNat : Nat) : ℚ) := by
    have e1 : q * (2 : ℚ) ^ (52 - l) = q * (2 : ℚ) ^ E * (2 : ℚ) ^ (52 - l - E) := by
      rw [mul_assoc, ← zpow_add₀ two]
      congr 2
      ring
    rw [e1, h, Nat.cast_mul, Nat.cast_pow, Nat.cast_ofNat, ← zpow_natCast, htt, mul_assoc,
      ← zpow_add₀ two]
    congr 2
    ring
  rw [hM] at s
  have hr := nearestEven_unique _ _ _ s (nearestEven_nat _)
  rw [hr, Nat.cast_mul, Nat.cast_pow, Nat.cast_ofNat, ← zpow_natCast, htt, mul_assoc,
    ← zpow_add₀ two]
  congr 2
  ring

/-- A value with a significand below `2 ^ 53` in absolute value is not changed by rounding. -/
theorem rndQ_exact (n : Int) (d : Nat) (E : Int) (k j : Int) (hd : 0 < d)
    (hk : k.natAbs < 2 ^ 53) (h : (n : ℚ) / d * (2 : ℚ) ^ E = (k : ℚ) * (2 : ℚ) ^ j) :
    (rndQ n d E).toRat = (k : ℚ) * (2 : ℚ) ^ j := by
  have pE : (0 : ℚ) < (2 : ℚ) ^ E := zpow_pos (by norm_num) _
  have pj : (0 : ℚ) < (2 : ℚ) ^ j := zpow_pos (by norm_num) _
  have hdq : (0 : ℚ) < d := by exact_mod_cast hd
  have key : ∀ (n k : Int), 0 < n → k.natAbs < 2 ^ 53 →
      (n : ℚ) / d * (2 : ℚ) ^ E = (k : ℚ) * (2 : ℚ) ^ j →
      (rndQ n d E).toRat = (k : ℚ) * (2 : ℚ) ^ j := by
    intro n k hn hk h
    have hv : 0 < (n : ℚ) / d * (2 : ℚ) ^ E := mul_pos (div_pos (by exact_mod_cast hn) hdq) pE
    have hk0 : 0 < k := by
      by_contra hc
      have : (k : ℚ) ≤ 0 := by exact_mod_cast (not_lt.1 hc)
      have : (k : ℚ) * (2 : ℚ) ^ j ≤ 0 := mul_nonpos_of_nonpos_of_nonneg this (le_of_lt pj)
      linarith
    have ck : ((k.natAbs : Nat) : ℚ) = (k : ℚ) := by
      have : ((k.natAbs : Nat) : Int) = k := Int.natAbs_of_nonneg (le_of_lt hk0)
      rw [← Int.cast_natCast, this]
    rw [← ck] at h ⊢
    exact rndQ_exact_pos n d E k.natAbs j hn hd hk h
  rcases lt_trichotomy n 0 with hn | hn | hn
  · have h1 := key (-n) (-k) (by omega) (by rw [Int.natAbs_neg]; exact hk) (by
      push_cast
      rw [neg_div, neg_mul, neg_mul, h])
    rw [rndQ_neg] at h1
    push_cast at h1
    linarith
  · rw [hn, rndQ_zero]
    rw [hn] at h
    simp at h
    unfold F64.toRat
    simp only [Int.cast_zero, zero_mul]
    rcases h with h | h
    · rw [h]; simp
    · exact absurd h (ne_of_gt pj)
  · exact key n k hn hk h

theorem F64.add_value (a b : F64) :
    ((F64.num a b + F64.num b a : Int) : ℚ) / ((1 : Nat) : ℚ) * (2 : ℚ) ^ (min a.e b.e) =
      a.toRat + b.toRat := by
  have h1 := F64.toRat_eq_num a b
  have h2 := F64.toRat_eq_num b a
  rw [min_comm b.e a.e] at h2
  rw [h1, h2]
  push_cast
  ring

theorem F64.sub_value (a b : F64) :
    ((F64.num a b - F64.num b a : Int) : ℚ) / ((1 : Nat) : ℚ) * (2 : ℚ) ^ (min a.e b.e) =
      a.toRat - b.toRat := by
  have h1 := F64.toRat_eq_num a b
  have h2 := F64.toRat_eq_num b a
  rw [min_comm b.e a.e] at h2
  rw [h1, h2]
  push_cast
  ring

theorem F64.mul_value (a b : F64) :
    ((a.m * b.m : Int) : ℚ) / ((1 : Nat) : ℚ) * (2 : ℚ) ^ (a.e + b.e) = a.toRat * b.toRat := by
  unfold F64.toRat
  rw [zpow_add₀ (by norm_num : (2 : ℚ) ≠ 0)]
  push_cast
  ring

theorem F64.div_value (a b : F64) (hb : 0 < b.m) :
    (a.m : ℚ) / ((b.m.natAbs : Nat) : ℚ) * (2 : ℚ) ^ (a.e - b.e) = a.toRat / b.toRat := by
  have c : ((b.m.natAbs : Nat) : ℚ) = (b.m : ℚ) := by
    have : ((b.m.natAbs : Nat) : Int) = b.m := Int.natAbs_of_nonneg (le_of_lt hb)
    rw [← Int.cast_natCast, this]
  have hbq : (b.m : ℚ) ≠ 0 := by exact_mod_cast (ne_of_gt hb)
  have hp : (2 : ℚ) ^ b.e ≠ 0 := ne_of_gt (zpow_pos (by norm_num) _)
  unfold F64.toRat
  rw [c, zpow_sub₀ (by norm_num : (2 : ℚ) ≠ 0)]
  field_simp

theorem F64.div_of_pos (a b : F64) (hb : 0 < b.m) :
    F64.div a b = rndQ a.m b.m.natAbs (a.e - b.e) := by
  unfold F64.div
  rw [if_neg (by omega), if_neg (by omega), one_mul]

theorem F64.toRat_nonneg_iff (x : F64) : 0 ≤ x.toRat ↔ 0 ≤ x.m := by
  have hp : (0 : ℚ) < (2 : ℚ) ^ x.e := zpow_pos (by norm_num) _
  unfold F64.toRat
  constructor
  · intro h
    by_contra hc
    have : (x.m : ℚ) < 0 := by exact_mod_cast (not_le.1 hc)
    have := mul_neg_of_neg_of_pos this hp
    linarith
  · intro h
    exact mul_nonneg (by exact_mod_cast h) (le_of_lt hp)

theorem F64.toRat_pos_iff (x : F64) : 0 < x.toRat ↔ 0 < x.m := by
  have hp : (0 : ℚ) < (2 : ℚ) ^ x.e := zpow_pos (by norm_num) _
  unfold F64.toRat
  constructor
  · intro h
    by_contra hc
    have : (x.m : ℚ) ≤ 0 := by exact_mod_cast (not_lt.1 hc)
    have := mul_nonpos_of_nonpos_of_nonneg this (le_of_lt hp)
    linarith
  · intro h
    exact mul_pos (by exact_mod_cast h) hp

theorem rndQ_int (k : Int) (hk : k.natAbs < 2 ^ 53) : (rndQ k 1 0).toRat = (k : ℚ) := by
  have := rndQ_exact k 1 0 k 0 (by norm_num) hk (by simp)
  rw [this]
  simp

/-- Integers below `2 ^ 53` in absolute value convert exactly. -/
theorem F64.ofInt_exact (n : Int) (hn : n.natAbs < 2 ^ 53) : (F64.ofInt n).toRat = (n : ℚ) :=
  rndQ_int n hn

theorem F64.add_exact (a b : F64) (k : Int) (hk : k.natAbs < 2 ^ 53)
    (h : a.toRat + b.toRat = (k : ℚ)) : (F64.add a b).toRat = (k : ℚ) := by
  unfold F64.add
  have := rndQ_exact (F64.num a b + F64.num b a) 1 (min a.e b.e) k 0 (by norm_num) hk
    (by rw [F64.add_value, h]; simp)
  rw [this]
  simp

theorem F64.sub_exact (a b : F64) (k : Int) (hk : k.natAbs < 2 ^ 53)
    (h : a.toRat - b.toRat = (k : ℚ)) : (F64.sub a b).toRat = (k : ℚ) := by
  unfold F64.sub
  have := rndQ_exact (F64.num a b - F64.num b a) 1 (min a.e b.e) k 0 (by norm_num) hk
    (by rw [F64.sub_value, h]; simp)
  rw [this]
  simp

theorem F64.mul_exact (a b : F64) (k : Int) (hk : k.natAbs < 2 ^ 53)
    (h : a.toRat * b.toRat = (k : ℚ)) : (F64.mul a b).toRat = (k : ℚ) := by
  unfold F64.mul
  have := rndQ_exact (a.m * b.m) 1 (a.e + b.e) k 0 (by norm_num) hk
    (by rw [F64.mul_value, h]; simp)
  rw [this]
  simp

theorem num_nonneg_of_value (n : Int) (E : Int) (v : ℚ)
    (h : (n : ℚ) / ((1 : Nat) : ℚ) * (2 : ℚ) ^ E = v) (hv : 0 ≤ v) : 0 ≤ n := by
  have hp : (0 : ℚ) < (2 : ℚ) ^ E := zpow_pos (by norm_num) _
  by_contra hc
  have : (n : ℚ) < 0 := by exact_mod_cast (not_le.1 hc)
  have h1 : (n : ℚ) / ((1 : Nat) : ℚ) * (2 : ℚ) ^ E < 0 := by
    rw [Nat.cast_one, div_one]
    exact mul_neg_of_neg_of_pos this hp
  linarith

theorem F64.add_le (a b : F64) (k : Int) (hk : k.natAbs < 2 ^ 53)
    (h0 : 0 ≤ a.toRat + b.toRat) (h : a.toRat + b.toRat ≤ (k : ℚ)) :
    (F64.add a b).toRat ≤ (k : ℚ) := by
  unfold F64.add
  rw [← rndQ_int k hk]
  apply rndQ_mono _ _ _ _ _ _ (num_nonneg_of_value _ _ _ (F64.add_value a b) h0) (by norm_num)
    (by norm_num)
  rw [F64.add_value]
  simpa using h

theorem F64.add_ge (a b : F64) (k : Int) (hk : k.natAbs < 2 ^ 53) (hk0 : 0 ≤ k)
    (h : (k : ℚ) ≤ a.toRat + b.toRat) : (k : ℚ) ≤ (F64.add a b).toRat := by
  unfold F64.add
  rw [← rndQ_int k hk]
  apply rndQ_mono _ _ _ _ _ _ hk0 (by norm_num) (by norm_num)
  rw [F64.add_value]
  simpa using h

theorem F64.div_le (a b : F64) (n : Int) (d : Nat) (hb : 0 < b.m) (ha : 0 ≤ a.m) (hd : 0 < d)
    (h : a.toRat / b.toRat ≤ (n : ℚ) / d) :
    (F64.div a b).toRat ≤ (rndQ n d 0).toRat := by
  rw [F64.div_of_pos a b hb]
  apply rndQ_mono _ _ _ _ _ _ ha (Int.natAbs_pos.2 (ne_of_gt hb)) hd
  rw [F64.div_value a b hb]
  simpa using h

theorem F64.div_ge (a b : F64) (n : Int) (d : Nat) (hb : 0 < b.m) (hn : 0 ≤ n) (hd : 0 < d)
    (h : (n : ℚ) / d ≤ a.toRat / b.toRat) :
    (rndQ n d 0).toRat ≤ (F64.div a b).toRat := by
  rw [F64.div_of_pos a b hb]
  apply rndQ_mono _ _ _ _ _ _ hn hd (Int.natAbs_pos.2 (ne_of_gt hb))
  rw [F64.div_value a b hb]
  simpa using h

theorem F64.fabs_of_nonneg (x : F64) (h : 0 ≤ x.m) : (F64.fabs x).toRat = x.toRat := by
  unfold F64.fabs F64.toRat
  dsimp only
  have : ((x.m.natAbs : Nat) : Int) = x.m := Int.natAbs_of_nonneg h
  rw [this]

theorem inLong_of_small (x : Int) (h0 : 0 ≤ x) (h : x < 2 ^ 53) : inLong x := by
  have h63 : pow2 63 = 2 ^ 63 := by decide
  unfold inLong
  rw [h63]
  constructor <;> omega

theorem exactTicks_sums (cp ip : Int) (info : cpu_stats) (h : ExactTicks cp ip info) :
    cpu_total info =
      info.user + info.nice + info.system + info.iowait + info.irq + info.softirq ∧
    total_cur info = info.idle + cpu_total info ∧ total_prev cp ip = cp + ip := by
  obtain ⟨h1, h2, h3, h4, h5, h6, h7, h8, h9, h10, h11⟩ := h
  have hc := cpu_total_exact info (inLong_of_small _ (by omega) (by omega))
    (inLong_of_small _ (by omega) (by omega)) (inLong_of_small _ (by omega) (by omega))
    (inLong_of_small _ (by omega) (by omega)) (inLong_of_small _ (by omega) (by omega))
  refine ⟨hc, ?_, ?_⟩
  · unfold total_cur addLong
    rw [wrapLong_of_inLong _ (inLong_of_small _ (by omega) (by omega))]
  · unfold total_prev addLong
    rw [wrapLong_of_inLong _ (inLong_of_small _ (by omega) (by omega))]

/-- Under `ExactTicks` the three differences of `CPUOutput` are exact. -/
theorem exactTicks_deltas (cp ip : Int) (info : cpu_stats) (h : ExactTicks cp ip info) :
    (totald cp ip info).toRat = (((cpu_total info + info.idle) - (cp + ip) : Int) : ℚ) ∧
    (idled ip info).toRat = ((info.idle - ip : Int) : ℚ) ∧
    (F64.sub (totald cp ip info) (idled ip info)).toRat = ((cpu_total info - cp : Int) : ℚ) := by
  obtain ⟨hc, htc, htp⟩ := exactTicks_sums cp ip info h
  obtain ⟨h1, h2, h3, h4, h5, h6, h7, h8, h9, h10, h11⟩ := h
  rw [← hc] at h10
  have hS : 0 ≤ cpu_total info := by rw [hc]; omega
  have e1 : (F64.ofInt (total_cur info)).toRat = ((info.idle + cpu_total info : Int) : ℚ) := by
    rw [htc]
    exact F64.ofInt_exact _ (by omega)
  have e2 : (F64.ofInt (total_prev cp ip)).toRat = ((cp + ip : Int) : ℚ) := by
    rw [htp]
    exact F64.ofInt_exact _ (by omega)
  have e3 : (F64.ofInt info.idle).toRat = (info.idle : ℚ) := F64.ofInt_exact _ (by omega)
  have e4 : (F64.ofInt ip).toRat = (ip : ℚ) := F64.ofInt_exact _ (by omega)
  have t1 : (totald cp ip info).toRat = (((cpu_total info + info.idle) - (cp + ip) : Int) : ℚ) := by
    unfold totald
    apply F64.sub_exact _ _ _ (by omega)
    rw [e1, e2]
    push_cast
    ring
  have t2 : (idled ip info).toRat = ((info.idle - ip : Int) : ℚ) := by
    unfold idled
    apply F64.sub_exact _ _ _ (by omega)
    rw [e3, e4]
    push_cast
    ring
  refine ⟨t1, t2, ?_⟩
  apply F64.sub_exact _ _ _ (by omega)
  rw [t1, t2]
  push_cast
  ring

/-- For counters that have not decreased, the unclamped value lies between the doubles
nearest 0.1 and 100.1. -/
theorem cpu_use_raw_bounds (cp ip : Int) (info : cpu_stats) (h : ExactTicks cp ip info)
    (hcp : cp ≤ cpu_total info) (hip : ip ≤ info.idle)
    (hd : 1000 * (cpu_total info - cp) < 2 ^ 53) :
    (F64.lit 1 10).toRat ≤ (cpu_use_raw cp ip info).toRat ∧
    (cpu_use_raw cp ip info).toRat ≤ (F64.lit 1001 10).toRat := by
  obtain ⟨t1, t2, t3⟩ := exactTicks_deltas cp ip info h
  obtain ⟨hc, _, _⟩ := exactTicks_sums cp ip info h
  have hne := CPUOutput_divisor_ne_zero cp ip info
  have heps : (0 : ℚ) ≤ (F64.lit 1 1000000).toRat := by
    have he : F64.lit 1 1000000 = ⟨4722366482869645, -72⟩ := by decide
    rw [he]
    unfold F64.toRat
    positivity
  have e1000 : (F64.ofInt 1000).toRat = ((1000 : Int) : ℚ) := F64.ofInt_exact _ (by decide)
  have e1 : (F64.ofInt 1).toRat = ((1 : Int) : ℚ) := F64.ofInt_exact _ (by decide)
  have e10 : (F64.ofInt 10).toRat = ((10 : Int) : ℚ) := F64.ofInt_exact _ (by decide)
  have m10 : 0 < (F64.ofInt 10).m := by decide
  unfold cpu_use_raw
  dsimp only
  generalize totald cp ip info = td at *
  generalize idled ip info = id at *
  obtain ⟨_, _, _, _, _, _, _, _, _, h10, h11⟩ := h
  rw [← hc] at h10
  -- the numerator
  have hN : (F64.mul (F64.ofInt 1000) (F64.sub td id)).toRat =
      ((1000 * (cpu_total info - cp) : Int) : ℚ) := by
    apply F64.mul_exact _ _ _ (by omega)
    rw [e1000, t3]
    push_cast
    ring
  generalize F64.mul (F64.ofInt 1000) (F64.sub td id) = N at hN
  -- the divisor
  have hT0 : 0 ≤ (cpu_total info + info.idle) - (cp + ip) := by omega
  have hDge : (((cpu_total info + info.idle) - (cp + ip) : Int) : ℚ) ≤
      (F64.add td (F64.lit 1 1000000)).toRat := by
    apply F64.add_ge _ _ _ (by omega) hT0
    rw [t1]
    linarith
  generalize F64.add td (F64.lit 1 1000000) = D at hne hDge
  have hT0q : (0 : ℚ) ≤ (((cpu_total info + info.idle) - (cp + ip) : Int) : ℚ) := by
    exact_mod_cast hT0
  have hDm : 0 < D.m := by
    have : 0 ≤ D.m := (F64.toRat_nonneg_iff D).1 (le_trans hT0q hDge)
    omega
  have hD0 : 0 < D.toRat := (F64.toRat_pos_iff D).2 hDm
  have hN0 : (0 : ℚ) ≤ N.toRat := by
    rw [hN]
    have : 0 ≤ 1000 * (cpu_total info - cp) := by omega
    exact_mod_cast this
  -- the quotient
  have hQle : (F64.div N D).toRat ≤ ((1000 : Int) : ℚ) := by
    rw [← rndQ_int 1000 (by decide)]
    apply F64.div_le N D 1000 1 hDm ((F64.toRat_nonneg_iff N).1 hN0) (by norm_num)
    rw [div_le_iff₀ hD0, hN]
    have h1 : (((cpu_total info - cp : Int)) : ℚ) ≤
        (((cpu_total info + info.idle) - (cp + ip) : Int) : ℚ) := by
      have : cpu_total info - cp ≤ (cpu_total info + info.idle) - (cp + ip) := by omega
      exact_mod_cast this
    push_cast at h1 hDge ⊢
    linarith
  have hQ0 : 0 ≤ (F64.div N D).toRat := by
    rw [F64.div_of_pos N D hDm]
    exact rndQ_toRat_nonneg _ _ _ ((F64.toRat_nonneg_iff N).1 hN0)
  generalize F64.div N D = Q at hQle hQ0
  -- plus one
  have hYle : (F64.add Q (F64.ofInt 1)).toRat ≤ ((1001 : Int) : ℚ) := by
    apply F64.add_le _ _ _ (by decide)
    · rw [e1]
      push_cast
      linarith
    · rw [e1]
      push_cast at hQle ⊢
      linarith
  have hYge : ((1 : Int) : ℚ) ≤ (F64.add Q (F64.ofInt 1)).toRat := by
    apply F64.add_ge _ _ _ (by decide) (by decide)
    rw [e1]
    push_cast
    linarith
  generalize F64.add Q (F64.ofInt 1) = Y at hYle hYge
  have hYm : 0 ≤ Y.m := (F64.toRat_nonneg_iff Y).1 (by push_cast at hYge; linarith)
  -- divided by ten
  have hZge : (F64.lit 1 10).toRat ≤ (F64.div Y (F64.ofInt 10)).toRat := by
    unfold F64.lit
    apply F64.div_ge Y (F64.ofInt 10) 1 10 m10 (by decide) (by decide)
    rw [e10]
    push_cast at hYge ⊢
    apply div_le_div_of_nonneg_right hYge (by norm_num)
  have hZle : (F64.div Y (F64.ofInt 10)).toRat ≤ (F64.lit 1001 10).toRat := by
    unfold F64.lit
    apply F64.div_le Y (F64.ofInt 10) 1001 10 m10 hYm (by decide)
    rw [e10]
    push_cast at hYle ⊢
    apply div_le_div_of_nonneg_right hYle (by norm_num)
  have hZm : 0 ≤ (F64.div Y (F64.ofInt 10)).m := by
    rw [F64.div_of_pos Y _ m10]
    exact rndQ_m_nonneg _ _ _ hYm
  rw [F64.fabs_of_nonneg _ hZm]
  exact ⟨hZge, hZle⟩

theorem lit_1_10_ge : (1 : ℚ) / 10 ≤ (F64.lit 1 10).toRat := by
  have h : F64.lit 1 10 = ⟨7205759403792794, -56⟩ := by decide
  rw [h]
  unfold F64.toRat
  norm_num

theorem lit_1001_10_lt : (F64.lit 1001 10).toRat < (1001 : ℚ) / 10 := by
  have h : F64.lit 1001 10 = ⟨7043911292184166, -46⟩ := by decide
  rw [h]
  unfold F64.toRat
  norm_num

/-- The text `memoryGraphicsOutput` produces when the bar fits the scratch buffer `visual`
and the text fits the buffer `memoryGraphics`. -/
theorem memoryGraphicsOutput_of_fit (cur prev : F64) (i visual_len : Int)
    (hv : visual_len =
      F64.trunc (F64.div (memoryGraphicsOutput.abs_diff cur prev i) (F64.lit 1 100)))
    (h1 : visual_len ≤ 1018)
    (h2 : ("   |".toList ++
      List.replicate visual_len.toNat
        (memoryGraphicsOutput.sign (memoryGraphicsOutput.diff cur prev i)) ++
      [memoryGraphicsOutput.last_char (memoryGraphicsOutput.diff cur prev i) visual_len] ++
      ' ' :: F64.fmt2 (memoryGraphicsOutput.abs_diff cur prev i) ++ " (".toList ++
      F64.fmt2 cur ++ [')']).length + 1 ≤ 1024) :
    memoryGraphicsOutput cur prev i =
      ⟨some ("   |".toList ++
        List.replicate visual_len.toNat
          (memoryGraphicsOutput.sign (memoryGraphicsOutput.diff cur prev i)) ++
        [memoryGraphicsOutput.last_char (memoryGraphicsOutput.diff cur prev i) visual_len] ++
        ' ' :: F64.fmt2 (memoryGraphicsOutput.abs_diff cur prev i) ++ " (".toList ++
        F64.fmt2 cur ++ [')']), cur⟩ := by
  have h0 : 0 ≤ visual_len := by
    rw [hv]
    apply F64.trunc_nonneg
    unfold memoryGraphicsOutput.abs_diff
    apply div_fabs_m_nonneg
    rw [lit_1_100]
    norm_num
  have hvl := visual_len_of_le cur prev i (by rw [← hv]; exact h1)
  rw [← hv] at hvl
  unfold memoryGraphicsOutput
  dsimp only
  rw [hvl]
  dsimp only
  rw [visual_of_fit _ _ h0 h1]
  dsimp only
  rw [if_neg (by omega)]

theorem replay_eq (terminal : Terminal) (n : Nat) :
    replay terminal n = (List.range (n + 1)).map terminal := rfl

theorem replay_getElem? (terminal : Terminal) (n : Nat) (line : List Char) (j : Nat)
    (hj : j ≤ n) :
    ((List.range (n + 1)).map (Function.update terminal n line))[j]? =
      some (if j = n then line else terminal j) := by
  rw [List.getElem?_map, List.getElem?_range (by omega)]
  simp only [Option.map_some']
  by_cases h : j = n
  · rw [if_pos h, h, Function.update_same]
  · rw [if_neg h, Function.update_noteq h]

/-- C1. On arguments for which no `long int` addition overflows, `CPUOutput` reports
`percentUsed = min(100, |(1000 * (totalDelta - idleDelta) / (totalDelta + 1e-6) + 1) / 10|)`
with `totalCur = idle + (user + nice + system + iowait + irq + softirq)`,
`totalPrev = cpu_previous + idle_previous`, `totalDelta = totalCur - totalPrev` and
`idleDelta = idle - idle_previous`. -/
theorem CPUOutput_percent_formula (terminal : Terminal) (graphics : Bool) (i : Int)
    (cpu_previous idle_previous : Int) (info : cpu_stats) (num_cores : Int)
    (h : NoOverflow cpu_previous idle_previous info) :
    (CPUOutput terminal graphics i cpu_previous idle_previous info num_cores).cpu_use.toRat =
      min 100 (percentUsedSpec cpu_previous idle_previous info).toRat := by
  obtain ⟨h1, h2, h3, h4, h5, h6, h7⟩ := h
  rw [CPUOutput_cpu_use, cpu_use_toRat]
  have hc := cpu_total_exact info h1 h2 h3 h4 h5
  have e1 : total_cur info = info.idle +
      (info.user + info.nice + info.system + info.iowait + info.irq + info.softirq) := by
    unfold total_cur addLong
    rw [hc, wrapLong_of_inLong _ h6]
  have e2 : total_prev cpu_previous idle_previous = cpu_previous + idle_previous := by
    unfold total_prev addLong
    rw [wrapLong_of_inLong _ h7]
  unfold cpu_use_raw percentUsedSpec totald idled
  rw [e1, e2]

/-- Witness of C1: the specification scenario at round 1. -/
theorem CPUOutput_percent_formula_witness :
    NoOverflow 160 9000 scenario1 ∧
    (CPUOutput (fun _ => []) true 1 160 9000 scenario1 4).cpu_use.toRat =
      min 100 (percentUsedSpec 160 9000 scenario1).toRat :=
  ⟨by decide, CPUOutput_percent_formula (fun _ => []) true 1 160 9000 scenario1 4 (by decide)⟩

/-- C2. For every previous state and every counter snapshot, monotone or not, the
`percentUsed` that `CPUOutput` reports lies in the closed interval [0, 100]. -/
theorem CPUOutput_percent_in_range (terminal : Terminal) (graphics : Bool) (i : Int)
    (cpu_previous idle_previous : Int) (info : cpu_stats) (num_cores : Int) :
    0 ≤ (CPUOutput terminal graphics i cpu_previous idle_previous info num_cores).cpu_use.toRat ∧
    (CPUOutput terminal graphics i cpu_previous idle_previous info num_cores).cpu_use.toRat ≤ 100 := by
  rw [CPUOutput_cpu_use, cpu_use_toRat]
  have h : 0 ≤ (cpu_use_raw cpu_previous idle_previous info).toRat := by
    unfold cpu_use_raw
    exact F64.fabs_nonneg _
  exact ⟨le_min (by norm_num) h, min_le_left _ _⟩

/-- C3, counterexample. Seeding the state with the round-0 counters of the scenario and
running `CPUOutput` on the same counters does not report 0: the value is the double
nearest 0.1, printed as 0.10. -/
theorem CPUOutput_seeded_not_zero :
    cpu_total scenario0 = 160 ∧ scenario0.idle = 9000 ∧
    (CPUOutput (fun _ => []) false 0 160 9000 scenario0 4).cpu_use.toRat ≠ 0 ∧
    F64.fmt2 (CPUOutput (fun _ => []) false 0 160 9000 scenario0 4).cpu_use = "0.10".toList := by
  have h : (CPUOutput (fun _ => []) false 0 160 9000 scenario0 4).cpu_use =
      ⟨7205759403792794, -56⟩ := by decide!
  refine ⟨by decide, by decide, ?_, by decide!⟩
  rw [h]
  unfold F64.toRat
  norm_num

/-- C3, amended. For every counter snapshot S, when the rolling state has been seeded
with S (`cpu_previous` the non-idle sum of S, `idle_previous` its idle count) and
`CPUOutput` is run on the same S, the reported percentage is the double nearest 0.1
(the `+ 1` of the formula divided by 10), which prints as 0.10. -/
theorem CPUOutput_seeded_same_snapshot (terminal : Terminal) (graphics : Bool) (i : Int)
    (S : cpu_stats) (num_cores : Int) :
    (CPUOutput terminal graphics i (cpu_total S) S.idle S num_cores).cpu_use = F64.lit 1 10 ∧
    (CPUOutput terminal graphics i (cpu_total S) S.idle S num_cores).cpu_use.toRat =
      3602879701896397 / 36028797018963968 ∧
    F64.fmt2 (CPUOutput terminal graphics i (cpu_total S) S.idle S num_cores).cpu_use =
      "0.10".toList := by
  have ht : totald (cpu_total S) S.idle S = ⟨0, 0⟩ := by
    unfold totald total_cur total_prev
    rw [addLong_comm]
    exact F64.sub_self _
  have hi : idled S.idle S = ⟨0, 0⟩ := F64.sub_self _
  have h : cpu_use (cpu_total S) S.idle S = F64.lit 1 10 := by
    unfold cpu_use cpu_use_raw
    rw [ht, hi]
    decide!
  have hl : F64.lit 1 10 = ⟨7205759403792794, -56⟩ := by decide
  rw [CPUOutput_cpu_use, h]
  refine ⟨rfl, ?_, by decide⟩
  rw [hl]
  unfold F64.toRat
  norm_num

/-- C4, the code at a failing input. `display` enters round 0 with the zero-initialised
state (0, 0): on the scenario counters of round 0 the call of `CPUOutput` computes against
that state and prints 1.85, where a state seeded from the same snapshot gives 0.10. -/
theorem display_round0_unseeded :
    (display.init (fun _ => []) (fun _ => []) F64.zero).cpu_previous = 0 ∧
    (display.init (fun _ => []) (fun _ => []) F64.zero).idle_previous = 0 ∧
    F64.fmt2 (display.cpuCall false (display.init (fun _ => []) (fun _ => []) F64.zero) 0
      sample0).cpu_use = "1.85".toList ∧
    F64.fmt2 (CPUOutput (fun _ => []) false 0 (cpu_total scenario0) scenario0.idle scenario0
      4).cpu_use = "0.10".toList ∧
    (display (fun _ => []) (fun _ => []) F64.zero 1 1 true false false true
      (fun _ => sample0)).stdout =
      (">>> iteration 0\nNbr of samples: 1 -- every 1 secs\nMemory usage: 2048 kilobytes\n" ++
       "--------------------------------------------\n" ++
       "### Memory ### (Phys.Used/Tot -- Virtual Used/Tot)\n" ++
       "2.00 GB / 8.00 GB -- 3.00 GB / 16.00 GB\n" ++
       "--------------------------------------------\nNumber of Cores: 4\n" ++
       " total cpu use: 1.85%\n" ++
       "--------------------------------------------\n### System Information ###\n" ++
       " System Name = Linux\n Machine Name = host\n Version = v1\n Release = 6.1\n" ++
       " Architecture = x86_64\n--------------------------------------------\n").toList := by
  refine ⟨rfl, rfl, by decide!, by decide!, by decide!⟩

/-- C5. The scenario of the specification: the state (160, 9000) is the one the round-0
counters leave; on the round-1 counters `CPUOutput` has `cpu_total = 195`,
`total_cur = 9295`, `total_prev = 9160`, `totald = 135`, `idled = 100`, and
`cpu_use = (1000 * 35 / (135 + 1e-6) + 1) / 10` in double arithmetic, which lies between
26.025 and 26.026, prints as 26.03 and is not altered by the clamp. -/
theorem CPUOutput_scenario :
    (CPUOutput (fun _ => []) false 0 0 0 scenario0 4).cpu_previous = 160 ∧
    (CPUOutput (fun _ => []) false 0 0 0 scenario0 4).idle_previous = 9000 ∧
    cpu_total scenario1 = 195 ∧
    total_cur scenario1 = 9295 ∧
    total_prev 160 9000 = 9160 ∧
    totald 160 9000 scenario1 = F64.ofInt 135 ∧
    idled 9000 scenario1 = F64.ofInt 100 ∧
    (CPUOutput (fun _ => []) false 1 160 9000 scenario1 4).cpu_use =
      F64.div (F64.add (F64.div (F64.mul (F64.ofInt 1000) (F64.ofInt 35))
        (F64.add (F64.ofInt 135) (F64.lit 1 1000000))) (F64.ofInt 1)) (F64.ofInt 10) ∧
    (CPUOutput (fun _ => []) false 1 160 9000 scenario1 4).cpu_use =
      cpu_use_raw 160 9000 scenario1 ∧
    26025 / 1000 < (CPUOutput (fun _ => []) false 1 160 9000 scenario1 4).cpu_use.toRat ∧
    (CPUOutput (fun _ => []) false 1 160 9000 scenario1 4).cpu_use.toRat < 26026 / 1000 ∧
    F64.fmt2 (CPUOutput (fun _ => []) false 1 160 9000 scenario1 4).cpu_use = "26.03".toList := by
  have h : (CPUOutput (fun _ => []) false 1 160 9000 scenario1 4).cpu_use =
      ⟨7325646839817707, -48⟩ := by decide!
  refine ⟨by decide, by decide, by decide, by decide, by decide, by decide, by decide,
    by decide!, by decide!, ?_, ?_, by decide!⟩
  · rw [h]; unfold F64.toRat; norm_num
  · rw [h]; unfold F64.toRat; norm_num

/-- C6. For every input state, snapshot and graphics flag, after `CPUOutput` the rolling
state is `cpu_previous = user + nice + system + iowait + irq + softirq` (the non-idle sum
only, in `long int` arithmetic, which is the exact sum when no addition overflows) and
`idle_previous = info.idle`; the new state does not depend on the old state, nor on the
history, the round index or the number of cores. -/
theorem CPUOutput_state_update (terminal : Terminal) (graphics : Bool) (i : Int)
    (cpu_previous idle_previous : Int) (info : cpu_stats) (num_cores : Int) :
    (CPUOutput terminal graphics i cpu_previous idle_previous info num_cores).cpu_previous =
      addLong (addLong (addLong (addLong (addLong info.user info.nice) info.system) info.iowait)
        info.irq) info.softirq ∧
    (CPUOutput terminal graphics i cpu_previous idle_previous info num_cores).idle_previous =
      info.idle ∧
    (NoOverflow cpu_previous idle_previous info →
      (CPUOutput terminal graphics i cpu_previous idle_previous info num_cores).cpu_previous =
        info.user + info.nice + info.system + info.iowait + info.irq + info.softirq) ∧
    (∀ (terminal1 : Terminal) (graphics1 : Bool) (i1 cpu_previous1 idle_previous1 num_cores1 : Int),
      (CPUOutput terminal1 graphics1 i1 cpu_previous1 idle_previous1 info num_cores1).cpu_previous =
        (CPUOutput terminal graphics i cpu_previous idle_previous info num_cores).cpu_previous ∧
      (CPUOutput terminal1 graphics1 i1 cpu_previous1 idle_previous1 info num_cores1).idle_previous =
        (CPUOutput terminal graphics i cpu_previous idle_previous info num_cores).idle_previous) := by
  have h := CPUOutput_previous terminal graphics i cpu_previous idle_previous info num_cores
  refine ⟨h.1, h.2, ?_, ?_⟩
  · rintro ⟨h1, h2, h3, h4, h5, _, _⟩
    rw [h.1]
    exact cpu_total_exact info h1 h2 h3 h4 h5
  · intro terminal1 graphics1 i1 cpu_previous1 idle_previous1 num_cores1
    have h1 := CPUOutput_previous terminal1 graphics1 i1 cpu_previous1 idle_previous1 info num_cores1
    rw [h.1, h.2, h1.1, h1.2]
    exact ⟨rfl, rfl⟩

/-- Witness of C6: the scenario counters of round 1 on the state left by round 0. -/
theorem CPUOutput_state_update_witness :
    NoOverflow 160 9000 scenario1 ∧
    (CPUOutput (fun _ => []) true 1 160 9000 scenario1 4).cpu_previous =
      scenario1.user + scenario1.nice + scenario1.system + scenario1.iowait + scenario1.irq +
        scenario1.softirq :=
  ⟨by decide, (CPUOutput_state_update (fun _ => []) true 1 160 9000 scenario1 4).2.2.1 (by decide)⟩

/-- C7. For every current memory value and every stored previous value, at round
index 0 `memoryGraphicsOutput` computes `abs_diff = 0` exactly: the bar length is 0, the
rendered bar is the four-character start followed by no fill character and the suffix
character 'o', and the line is that bar with the text " 0.00 (current)". -/
theorem memoryGraphicsOutput_first_round (memory_current memory_previous : F64) :
    memoryGraphicsOutput.abs_diff memory_current memory_previous 0 = F64.zero ∧
    memoryGraphicsOutput.visual_len memory_current memory_previous 0 = some 0 ∧
    memoryGraphicsOutput.visual (memoryGraphicsOutput.diff memory_current memory_previous 0) 0 =
      some "   |o".toList ∧
    (memoryGraphicsOutput memory_current memory_previous 0).memoryGraphics =
      (if 1024 < ("   |o 0.00 (".toList ++ F64.fmt2 memory_current ++ [')']).length + 1 then none
       else some ("   |o 0.00 (".toList ++ F64.fmt2 memory_current ++ [')'])) := by
  have hd : memoryGraphicsOutput.diff memory_current memory_previous 0 = F64.zero := by
    unfold memoryGraphicsOutput.diff
    rw [if_pos rfl]
    exact F64.sub_self _
  have ha : memoryGraphicsOutput.abs_diff memory_current memory_previous 0 = F64.zero := by
    unfold memoryGraphicsOutput.abs_diff
    rw [hd]
    decide
  have hv : memoryGraphicsOutput.visual_len memory_current memory_previous 0 = some 0 := by
    unfold memoryGraphicsOutput.visual_len
    rw [ha]
    decide
  have hs : memoryGraphicsOutput.visual F64.zero 0 = some "   |o".toList := by decide
  refine ⟨ha, hv, by rw [hd]; exact hs, ?_⟩
  unfold memoryGraphicsOutput
  simp only [hv, hd, ha, hs]
  have hz : F64.fmt2 F64.zero = "0.00".toList := by decide
  have hl : "   |o".toList ++ ' ' :: "0.00".toList ++ " (".toList = "   |o 0.00 (".toList := by
    decide
  rw [hz, hl]
  split_ifs <;> rfl

/-- C8. For every round index, current value and previous value, after
`memoryGraphicsOutput` the stored previous memory equals the current sample, so that at
the next round (any index above 0) the delta computed is `|next - current|`. -/
theorem memoryGraphicsOutput_previous (memory_current memory_previous : F64) (i : Int) :
    (memoryGraphicsOutput memory_current memory_previous i).memory_previous = memory_current ∧
    ∀ (next : F64) (j : Nat),
      memoryGraphicsOutput.abs_diff next
          (memoryGraphicsOutput memory_current memory_previous i).memory_previous ((j : Int) + 1) =
        F64.fabs (F64.sub next memory_current) := by
  have h : (memoryGraphicsOutput memory_current memory_previous i).memory_previous =
      memory_current := by
    unfold memoryGraphicsOutput
    dsimp only
    split
    · rfl
    · split
      · rfl
      · split_ifs <;> rfl
  refine ⟨h, ?_⟩
  intro next j
  rw [h]
  unfold memoryGraphicsOutput.abs_diff memoryGraphicsOutput.diff
  rw [if_neg (by omega)]

/-- C9. For every round index above 0 and every current and previous memory value whose
bar fits the scratch buffer, the bar produced by `memoryGraphicsOutput` is the
four-character start "   |" followed by exactly `floor(|current - previous| / 0.01)` copies
(in double arithmetic) of one fill character, '#' when `current >= previous` and ':' when
`current < previous`, followed by exactly one suffix character. -/
theorem memoryGraphicsOutput_bar (memory_current memory_previous : F64) (j : Nat)
    (hfit : F64.trunc (F64.div (F64.fabs (F64.sub memory_current memory_previous))
      (F64.lit 1 100)) ≤ 1018) :
    memoryGraphicsOutput.visual_len memory_current memory_previous ((j : Int) + 1) =
      some ⌊(F64.div (F64.fabs (F64.sub memory_current memory_previous)) (F64.lit 1 100)).toRat⌋ ∧
    memoryGraphicsOutput.visual
        (memoryGraphicsOutput.diff memory_current memory_previous ((j : Int) + 1))
        ⌊(F64.div (F64.fabs (F64.sub memory_current memory_previous)) (F64.lit 1 100)).toRat⌋ =
      some ("   |".toList ++
        List.replicate
          ⌊(F64.div (F64.fabs (F64.sub memory_current memory_previous)) (F64.lit 1 100)).toRat⌋.toNat
          (if F64.le memory_previous memory_current then '#' else ':') ++
        [memoryGraphicsOutput.last_char
          (memoryGraphicsOutput.diff memory_current memory_previous ((j : Int) + 1))
          ⌊(F64.div (F64.fabs (F64.sub memory_current memory_previous)) (F64.lit 1 100)).toRat⌋]) ∧
    ∃ bar : List Char,
      memoryGraphicsOutput.visual
        (memoryGraphicsOutput.diff memory_current memory_previous ((j : Int) + 1))
        ⌊(F64.div (F64.fabs (F64.sub memory_current memory_previous)) (F64.lit 1 100)).toRat⌋ =
        some bar ∧
      (memoryGraphicsOutput memory_current memory_previous ((j : Int) + 1)).memoryGraphics =
        (if 1024 < (bar ++ ' ' :: F64.fmt2 (F64.fabs (F64.sub memory_current memory_previous)) ++
            " (".toList ++ F64.fmt2 memory_current ++ [')']).length + 1 then none
         else some (bar ++ ' ' :: F64.fmt2 (F64.fabs (F64.sub memory_current memory_previous)) ++
            " (".toList ++ F64.fmt2 memory_current ++ [')'])) := by
  have hd : memoryGraphicsOutput.diff memory_current memory_previous ((j : Int) + 1) =
      F64.sub memory_current memory_previous := by
    unfold memoryGraphicsOutput.diff
    rw [if_neg (by omega)]
  have ha : memoryGraphicsOutput.abs_diff memory_current memory_previous ((j : Int) + 1) =
      F64.fabs (F64.sub memory_current memory_previous) := by
    unfold memoryGraphicsOutput.abs_diff
    rw [hd]
  have hq : 0 ≤ (F64.div (F64.fabs (F64.sub memory_current memory_previous)) (F64.lit 1 100)).m := by
    apply div_fabs_m_nonneg
    rw [lit_1_100]
    norm_num
  have hfl := F64.trunc_eq_floor _ hq
  have h0 := F64.trunc_nonneg _ hq
  have hv := visual_len_of_le memory_current memory_previous ((j : Int) + 1) (by rw [ha]; exact hfit)
  rw [ha] at hv
  rw [hfl] at hv hfit h0
  have hs : memoryGraphicsOutput.sign (F64.sub memory_current memory_previous) =
      (if F64.le memory_previous memory_current then '#' else ':') := by
    unfold memoryGraphicsOutput.sign
    by_cases h : F64.le memory_previous memory_current
    · rw [if_pos h, if_pos ((F64.le_zero_sub_iff _ _).2 h)]
    · rw [if_neg h, if_neg (fun hc => h ((F64.le_zero_sub_iff _ _).1 hc))]
  have hbar := visual_of_fit (F64.sub memory_current memory_previous) _ h0 hfit
  refine ⟨hv, ?_, ⟨_, by rw [hd]; exact hbar, ?_⟩⟩
  · rw [hd, hbar, hs]
  · unfold memoryGraphicsOutput
    simp only [hv, hd, ha, hbar]
    split_ifs <;> rfl

/-- Witness of C9: previous 2.00 and current 2.05 at round 1. -/
theorem memoryGraphicsOutput_bar_witness :
    F64.trunc (F64.div (F64.fabs (F64.sub (F64.lit 205 100) (F64.ofInt 2))) (F64.lit 1 100)) ≤ 1018 ∧
    memoryGraphicsOutput.visual_len (F64.lit 205 100) (F64.ofInt 2) (((0 : Nat) : Int) + 1) =
      some ⌊(F64.div (F64.fabs (F64.sub (F64.lit 205 100) (F64.ofInt 2))) (F64.lit 1 100)).toRat⌋ :=
  ⟨by decide!, (memoryGraphicsOutput_bar (F64.lit 205 100) (F64.ofInt 2) 0 (by decide!)).1⟩

/-- C10, the code at a failing input. With previous 2.00 and current 2.005 (both doubles) at
round 1 the delta is positive and non-zero, yet the bar is empty and the suffix character is
'o', not '*': the text produced is "   |o 0.00 (2.00)". The same happens when the used
memory grows by 5 MiB, from 2 GiB to 2053/1024 GiB. -/
theorem memoryGraphicsOutput_small_positive_delta :
    F64.isDouble (F64.lit 2005 1000) = true ∧ F64.isDouble (F64.ofInt 2) = true ∧
    0 < (memoryGraphicsOutput.diff (F64.lit 2005 1000) (F64.ofInt 2) 1).toRat ∧
    memoryGraphicsOutput.visual_len (F64.lit 2005 1000) (F64.ofInt 2) 1 = some 0 ∧
    memoryGraphicsOutput.last_char (memoryGraphicsOutput.diff (F64.lit 2005 1000) (F64.ofInt 2) 1) 0 =
      'o' ∧
    (memoryGraphicsOutput (F64.lit 2005 1000) (F64.ofInt 2) 1).memoryGraphics =
      some "   |o 0.00 (2.00)".toList ∧
    (F64.lit 2053 1024).toRat = 2053 / 1024 ∧
    0 < (memoryGraphicsOutput.diff (F64.lit 2053 1024) (F64.ofInt 2) 1).toRat ∧
    (memoryGraphicsOutput (F64.lit 2053 1024) (F64.ofInt 2) 1).memoryGraphics =
      some "   |o 0.00 (2.00)".toList := by
  have h : memoryGraphicsOutput.diff (F64.lit 2005 1000) (F64.ofInt 2) 1 =
      ⟨5764607523034112, -60⟩ := by decide!
  have h2 : memoryGraphicsOutput.diff (F64.lit 2053 1024) (F64.ofInt 2) 1 =
      ⟨5629499534213120, -60⟩ := by decide!
  have h3 : F64.lit 2053 1024 = ⟨4514594743648256, -51⟩ := by decide
  refine ⟨by decide, by decide, ?_, by decide!, by decide!, by decide!, ?_, ?_, by decide!⟩
  · rw [h]
    unfold F64.toRat
    norm_num
  · rw [h3]
    unfold F64.toRat
    norm_num
  · rw [h2]
    unfold F64.toRat
    norm_num

/-- C11, counterexample. With previous used = 2.00 and current used = 2.05 (the nearest
doubles) at round 1, the delta computed is below 0.05, the bar length is 4, and the line is
not the one with five '#' characters. -/
theorem memoryGraphicsOutput_scenario_four_bars :
    F64.isDouble (F64.lit 205 100) = true ∧ F64.isDouble (F64.ofInt 2) = true ∧
    (memoryGraphicsOutput.abs_diff (F64.lit 205 100) (F64.ofInt 2) 1).toRat < 5 / 100 ∧
    memoryGraphicsOutput.visual_len (F64.lit 205 100) (F64.ofInt 2) 1 = some 4 ∧
    (memoryGraphicsOutput (F64.lit 205 100) (F64.ofInt 2) 1).memoryGraphics ≠
      some "   |#####* 0.05 (2.05)".toList := by
  have h : memoryGraphicsOutput.abs_diff (F64.lit 205 100) (F64.ofInt 2) 1 =
      ⟨7205759403792768, -57⟩ := by decide!
  refine ⟨by decide, by decide, ?_, by decide!, by decide!⟩
  rw [h]
  unfold F64.toRat
  norm_num

/-- C11, amended. With previous used = 2.00 and current used = 2.05 at any round index
above 0, `memoryGraphicsOutput` computes `abs_diff = 2.05 - 2.00` in double arithmetic
(7205759403792768 * 2^-57, just below 0.05, printed 0.05), renders exactly 4 '#' characters
after "   |", then the suffix '*', then the text " 0.05 (2.05)". -/
theorem memoryGraphicsOutput_scenario (j : Nat) :
    memoryGraphicsOutput.abs_diff (F64.lit 205 100) (F64.ofInt 2) ((j : Int) + 1) =
      ⟨7205759403792768, -57⟩ ∧
    F64.fmt2 (memoryGraphicsOutput.abs_diff (F64.lit 205 100) (F64.ofInt 2) ((j : Int) + 1)) =
      "0.05".toList ∧
    memoryGraphicsOutput.visual_len (F64.lit 205 100) (F64.ofInt 2) ((j : Int) + 1) = some 4 ∧
    (memoryGraphicsOutput (F64.lit 205 100) (F64.ofInt 2) ((j : Int) + 1)).memoryGraphics =
      some ("   |".toList ++ List.replicate 4 '#' ++ ['*'] ++ " 0.05 (2.05)".toList) := by
  have hj : ((j : Int) + 1) ≠ 0 := by omega
  have hd := memoryGraphicsOutput.diff_of_ne_zero (F64.lit 205 100) (F64.ofInt 2) _ hj
  rw [memoryGraphicsOutput_of_ne_zero _ _ _ hj]
  unfold memoryGraphicsOutput.visual_len memoryGraphicsOutput.abs_diff
  rw [hd]
  refine ⟨by decide!, by decide!, by decide!, by decide!⟩

/-- C12, counterexample. For the usage 26.03 the line `CPUGraphics` stores is nine spaces,
29 characters '|' and the text " 26.03": the number of bars is not `floor(usage) + 12 = 38`. -/
theorem CPUGraphics_bar_count_example :
    F64.toInt (F64.lit 2603 100) = some 26 ∧
    (CPUGraphics (fun _ => []) (F64.lit 2603 100) 0).map (fun r => r.1 0) =
      some ("         ".toList ++ List.replicate 29 '|' ++ " 26.03".toList) ∧
    List.count '|' ("         ".toList ++ List.replicate 29 '|' ++ " 26.03".toList) = 29 ∧
    (29 : Int) ≠ 26 + 12 := by
  refine ⟨by decide!, by decide!, by decide!, by decide⟩

/-- C12, amended. For every usage value in [0, 100] (and a round index inside the history),
the CPU line built by `CPUGraphics` consists of 9 spaces followed by exactly
`floor(usage) + 3` characters '|', so that the bar ends at index `floor(usage) + 12`,
followed by a space and the usage value with two decimals. -/
theorem CPUGraphics_line (terminal : Terminal) (usage : F64) (i : Int)
    (h0 : 0 ≤ usage.toRat) (h100 : usage.toRat ≤ 100) (hi0 : 0 ≤ i) (hi : i < 1024) :
    ∃ r : Terminal × List (List Char),
      CPUGraphics terminal usage i = some r ∧
      r.1 i.toNat = "         ".toList ++ List.replicate (⌊usage.toRat⌋.toNat + 3) '|' ++
        ' ' :: F64.fmt2 usage ∧
      ("         ".toList ++ List.replicate (⌊usage.toRat⌋.toNat + 3) '|').length =
        ⌊usage.toRat⌋.toNat + 12 := by
  refine ⟨_, CPUGraphics_of_range terminal usage i h0 h100 hi0 hi, ?_, ?_⟩
  · simp only [Function.update_same]
  · have h9 : "         ".toList.length = 9 := by decide
    simp only [List.length_append, List.length_replicate, h9]
    omega


/-- Witness of C12: the usage 26.03 at round 0. -/
theorem CPUGraphics_line_witness :
    (0 ≤ (F64.lit 2603 100).toRat ∧ (F64.lit 2603 100).toRat ≤ 100) ∧
    ∃ r : Terminal × List (List Char),
      CPUGraphics (fun _ => []) (F64.lit 2603 100) 0 = some r ∧
      r.1 (0 : Int).toNat = "         ".toList ++
        List.replicate (⌊(F64.lit 2603 100).toRat⌋.toNat + 3) '|' ++
        ' ' :: F64.fmt2 (F64.lit 2603 100) ∧
      ("         ".toList ++ List.replicate (⌊(F64.lit 2603 100).toRat⌋.toNat + 3) '|').length =
        ⌊(F64.lit 2603 100).toRat⌋.toNat + 12 := by
  have h : F64.lit 2603 100 = ⟨7326793643778376, -48⟩ := by decide
  have h0 : 0 ≤ (F64.lit 2603 100).toRat := by rw [h]; unfold F64.toRat; norm_num
  have h100 : (F64.lit 2603 100).toRat ≤ 100 := by rw [h]; unfold F64.toRat; norm_num
  exact ⟨⟨h0, h100⟩, CPUGraphics_line (fun _ => []) (F64.lit 2603 100) 0 h0 h100 (by decide)
    (by decide)⟩

/-- C20. As the documentation of `CPUGraphics` states, for every usage value in [0, 100]
the line starts, after 9 leading spaces, with '|||' and has one more bar per whole percent:
the characters at indices 9 .. floor(usage) + 11 are '|', the next one is a space, and the
line contains exactly 3 + floor(usage) characters '|'. -/
theorem CPUGraphics_bars (terminal : Terminal) (usage : F64) (i : Int)
    (h0 : 0 ≤ usage.toRat) (h100 : usage.toRat ≤ 100) (hi0 : 0 ≤ i) (hi : i < 1024) :
    ∃ r : Terminal × List (List Char),
      CPUGraphics terminal usage i = some r ∧
      (∀ j : Nat, j < 9 → (r.1 i.toNat)[j]? = some ' ') ∧
      (∀ j : Nat, 9 ≤ j → j ≤ ⌊usage.toRat⌋.toNat + 11 → (r.1 i.toNat)[j]? = some '|') ∧
      (r.1 i.toNat)[⌊usage.toRat⌋.toNat + 12]? = some ' ' ∧
      (r.1 i.toNat).take 12 = "         |||".toList ∧
      List.count '|' (r.1 i.toNat) = 3 + ⌊usage.toRat⌋.toNat := by
  have hs : "         ".toList = List.replicate 9 ' ' := by decide
  refine ⟨_, CPUGraphics_of_range terminal usage i h0 h100 hi0 hi, ?_, ?_, ?_, ?_, ?_⟩
  all_goals simp only [Function.update_same, hs]
  · intro j hj
    rw [line_getElem?, if_pos hj]
  · intro j h1 h2
    rw [line_getElem?, if_neg (by omega), if_pos (by omega)]
  · rw [line_getElem?, if_neg (by omega), if_neg (by omega)]
    have : ⌊usage.toRat⌋.toNat + 12 - (9 + (⌊usage.toRat⌋.toNat + 3)) = 0 := by omega
    rw [this]
    exact List.getElem?_cons_zero
  · have : List.replicate (⌊usage.toRat⌋.toNat + 3) '|' =
        List.replicate 3 '|' ++ List.replicate ⌊usage.toRat⌋.toNat '|' := by
      rw [← List.replicate_add, Nat.add_comm]
    rw [this]
    have h12 : List.replicate 9 ' ' ++ (List.replicate 3 '|' ++
        List.replicate ⌊usage.toRat⌋.toNat '|') ++ ' ' :: F64.fmt2 usage =
        "         |||".toList ++ (List.replicate ⌊usage.toRat⌋.toNat '|' ++ ' ' :: F64.fmt2 usage) := by
      have : "         |||".toList = List.replicate 9 ' ' ++ List.replicate 3 '|' := by decide
      rw [this]
      simp only [List.append_assoc]
    rw [h12]
    exact List.take_left' (by decide)
  · rw [List.count_append, List.count_append, bar_not_in_fmt2]
    have : List.count '|' (List.replicate 9 ' ') = 0 := by decide
    rw [this, List.count_replicate_self]
    omega

/-- Witness of C20: the usage 50 at round 3. -/
theorem CPUGraphics_bars_witness :
    (0 ≤ (F64.ofInt 50).toRat ∧ (F64.ofInt 50).toRat ≤ 100) ∧
    ∃ r : Terminal × List (List Char),
      CPUGraphics (fun _ => []) (F64.ofInt 50) 3 = some r ∧
      (∀ j : Nat, j < 9 → (r.1 (3 : Int).toNat)[j]? = some ' ') ∧
      (∀ j : Nat, 9 ≤ j → j ≤ ⌊(F64.ofInt 50).toRat⌋.toNat + 11 →
        (r.1 (3 : Int).toNat)[j]? = some '|') ∧
      (r.1 (3 : Int).toNat)[⌊(F64.ofInt 50).toRat⌋.toNat + 12]? = some ' ' ∧
      (r.1 (3 : Int).toNat).take 12 = "         |||".toList ∧
      List.count '|' (r.1 (3 : Int).toNat) = 3 + ⌊(F64.ofInt 50).toRat⌋.toNat := by
  have h : F64.ofInt 50 = ⟨7036874417766400, -47⟩ := by decide
  have h0 : 0 ≤ (F64.ofInt 50).toRat := by rw [h]; unfold F64.toRat; norm_num
  have h100 : (F64.ofInt 50).toRat ≤ 100 := by rw [h]; unfold F64.toRat; norm_num
  exact ⟨⟨h0, h100⟩, CPUGraphics_bars (fun _ => []) (F64.ofInt 50) 3 h0 h100 (by decide)
    (by decide)⟩

/-- C13, the code at a failing input. At round 1 with graphics, 2 GB used before and 12 GB
now, `systemOutput` puts into slot 1 the 42 characters of the numeric panel and then, with
`strcat`, the 1019 characters of the graphics text: 1061 characters and a terminator, written
from the start of a slot of 1024 characters. The last 38 bytes, 22 bar characters, the text
"* 10.00 (12.00)" and the terminator, are written past the end of slot 1, where slot 2
begins; the render does not write slot 1 only, whatever the history holds. -/
theorem systemOutput_writes_past_slot (terminal : Terminal) :
    (memoryGraphicsOutput (F64.ofInt 12) (F64.ofInt 2) 1).memoryGraphics =
      some ("   |".toList ++ List.replicate 1000 '#' ++ "* 10.00 (12.00)".toList) ∧
    systemOutput.panel ⟨F64.ofInt 16, F64.ofInt 12, F64.ofInt 32, F64.ofInt 13⟩ =
      "12.00 GB / 16.00 GB -- 13.00 GB / 32.00 GB".toList ∧
    ("12.00 GB / 16.00 GB -- 13.00 GB / 32.00 GB".toList ++
      ("   |".toList ++ List.replicate 1000 '#' ++ "* 10.00 (12.00)".toList)).length = 1061 ∧
    ("12.00 GB / 16.00 GB -- 13.00 GB / 32.00 GB".toList ++
      ("   |".toList ++ List.replicate 1000 '#' ++ "* 10.00 (12.00)".toList) ++ ['\x00']).drop 1024 =
      List.replicate 22 '#' ++ "* 10.00 (12.00)\x00".toList ∧
    (systemOutput terminal true 1 (F64.ofInt 2)
      ⟨F64.ofInt 16, F64.ofInt 12, F64.ofInt 32, F64.ofInt 13⟩ true).terminal = none := by
  have hg : (memoryGraphicsOutput (F64.ofInt 12) (F64.ofInt 2) 1).memoryGraphics =
      some ("   |".toList ++ List.replicate 1000 '#' ++ "* 10.00 (12.00)".toList) := by decide!
  have hp : systemOutput.panel ⟨F64.ofInt 16, F64.ofInt 12, F64.ofInt 32, F64.ofInt 13⟩ =
      "12.00 GB / 16.00 GB -- 13.00 GB / 32.00 GB".toList := by decide!
  have hl : ("12.00 GB / 16.00 GB -- 13.00 GB / 32.00 GB".toList ++
      ("   |".toList ++ List.replicate 1000 '#' ++ "* 10.00 (12.00)".toList)).length = 1061 := by
    decide!
  refine ⟨hg, hp, hl, by decide!, ?_⟩
  unfold systemOutput
  dsimp only
  rw [if_neg (by simp), hp, if_neg (by decide), if_pos rfl, hg]
  dsimp only
  rw [if_pos (by rw [hl]; decide)]

/-- C14. Append-and-replay. Whenever the line fits its slot (round index inside the
history, and with graphics a bar that fits the scratch buffer), `systemOutput` stores the
fresh line in slot `i`, the numeric panel without graphics and the panel followed by the
graphics text with graphics, and emits after its two title lines the history lines of
indices 0 through `i` of the updated history; `CPUGraphics` does the same for the CPU line of
a usage in [0, 100]. The emitted list has `i + 1` lines, line `j < i` is the history line
`j` as it was, and the last line is the line just rendered. -/
theorem history_replay :
    (∀ (terminal : Terminal) (i : Int) (memory_previous : F64) (info : memory),
      0 ≤ i → i < 1024 → (systemOutput.panel info).length + 1 ≤ 1024 →
      systemOutput terminal false i memory_previous info true =
        ⟨memory_previous, false,
          ["--------------------------------------------".toList,
           "### Memory ### (Phys.Used/Tot -- Virtual Used/Tot)".toList] ++
          (List.range (i.toNat + 1)).map
            (Function.update terminal i.toNat (systemOutput.panel info)),
          some (Function.update terminal i.toNat (systemOutput.panel info))⟩) ∧
    (∀ (terminal : Terminal) (i : Int) (memory_previous : F64) (info : memory)
        (visual_len : Int) (graphics_output : List Char),
      0 ≤ i → i < 1024 →
      visual_len = F64.trunc (F64.div
        (memoryGraphicsOutput.abs_diff info.used_memory memory_previous i) (F64.lit 1 100)) →
      visual_len ≤ 1018 →
      graphics_output = "   |".toList ++
        List.replicate visual_len.toNat (memoryGraphicsOutput.sign
          (memoryGraphicsOutput.diff info.used_memory memory_previous i)) ++
        [memoryGraphicsOutput.last_char
          (memoryGraphicsOutput.diff info.used_memory memory_previous i) visual_len] ++
        ' ' :: F64.fmt2 (memoryGraphicsOutput.abs_diff info.used_memory memory_previous i) ++
        " (".toList ++ F64.fmt2 info.used_memory ++ [')'] →
      (systemOutput.panel info ++ graphics_output).length + 1 ≤ 1024 →
      systemOutput terminal true i memory_previous info true =
        ⟨info.used_memory, false,
          ["--------------------------------------------".toList,
           "### Memory ### (Phys.Used/Tot -- Virtual Used/Tot)".toList] ++
          (List.range (i.toNat + 1)).map
            (Function.update terminal i.toNat (systemOutput.panel info ++ graphics_output)),
          some (Function.update terminal i.toNat (systemOutput.panel info ++ graphics_output))⟩) ∧
    (∀ (terminal : Terminal) (usage : F64) (i : Int),
      0 ≤ usage.toRat → usage.toRat ≤ 100 → 0 ≤ i → i < 1024 →
      CPUGraphics terminal usage i =
        some (Function.update terminal i.toNat
            ("         ".toList ++ List.replicate (⌊usage.toRat⌋.toNat + 3) '|' ++
              ' ' :: F64.fmt2 usage),
          (List.range (i.toNat + 1)).map (Function.update terminal i.toNat
            ("         ".toList ++ List.replicate (⌊usage.toRat⌋.toNat + 3) '|' ++
              ' ' :: F64.fmt2 usage)))) ∧
    (∀ (terminal : Terminal) (n : Nat) (line : List Char),
      ((List.range (n + 1)).map (Function.update terminal n line)).length = n + 1 ∧
      ((List.range (n + 1)).map (Function.update terminal n line)).getLast? = some line ∧
      ∀ j : Nat, j ≤ n →
        ((List.range (n + 1)).map (Function.update terminal n line))[j]? =
          some (if j = n then line else terminal j)) := by
  refine ⟨?_, ?_, ?_, ?_⟩
  · intro terminal i memory_previous info hi0 hi hfit
    unfold systemOutput
    dsimp only
    have hc : ¬ (i < 0 ∨ 1024 ≤ i ∨ 1024 < (systemOutput.panel info).length + 1) := by omega
    rw [if_neg (by simp), if_neg hc, if_neg (by simp)]
    rfl
  · intro terminal i memory_previous info visual_len graphics_output hi0 hi hv h1 hg hfit
    have hlen : graphics_output.length + 1 ≤ 1024 := by
      rw [List.length_append] at hfit
      omega
    have hm := memoryGraphicsOutput_of_fit info.used_memory memory_previous i visual_len hv h1
      (by rw [← hg]; exact hlen)
    rw [← hg] at hm
    have hp : (systemOutput.panel info).length ≤ (systemOutput.panel info ++ graphics_output).length := by
      rw [List.length_append]
      omega
    have hc : ¬ (i < 0 ∨ 1024 ≤ i ∨ 1024 < (systemOutput.panel info).length + 1) := by omega
    unfold systemOutput
    dsimp only
    rw [if_neg (by simp), if_neg hc, if_pos rfl, hm]
    dsimp only
    rw [if_neg (by omega)]
    rfl
  · intro terminal usage i h0 h100 hi0 hi
    exact CPUGraphics_of_range terminal usage i h0 h100 hi0 hi
  · intro terminal n line
    have hl := replay_getLast (Function.update terminal n line) n
    rw [replay_eq, Function.update_same] at hl
    exact ⟨hl.1, hl.2, fun j hj => replay_getElem? terminal n line j hj⟩

/-- Witness of C14: round 1 on a history whose slot 0 holds "old", without and with
graphics, and the CPU line of the usage 50 at round 2. -/
theorem history_replay_witness :
    (systemOutput (fun _ => "old".toList) false 1 F64.zero sample0.mem true).out =
      ["--------------------------------------------".toList,
       "### Memory ### (Phys.Used/Tot -- Virtual Used/Tot)".toList,
       "old".toList, "2.00 GB / 8.00 GB -- 3.00 GB / 16.00 GB".toList] ∧
    (systemOutput (fun _ => "old".toList) true 1 (F64.ofInt 2)
      ⟨F64.ofInt 8, F64.lit 205 100, F64.ofInt 16, F64.ofInt 3⟩ true).out =
      ["--------------------------------------------".toList,
       "### Memory ### (Phys.Used/Tot -- Virtual Used/Tot)".toList,
       "old".toList,
       "2.05 GB / 8.00 GB -- 3.00 GB / 16.00 GB   |####* 0.05 (2.05)".toList] ∧
    (∃ r : Terminal × List (List Char),
      CPUGraphics (fun _ => "old".toList) (F64.ofInt 50) 2 = some r ∧
      r.1 2 = "         ".toList ++ List.replicate 53 '|' ++ " 50.00".toList ∧
      r.2 = ["old".toList, "old".toList,
        "         ".toList ++ List.replicate 53 '|' ++ " 50.00".toList]) := by
  have h50 : F64.ofInt 50 = ⟨7036874417766400, -47⟩ := by decide
  have h0 : 0 ≤ (F64.ofInt 50).toRat := by rw [h50]; unfold F64.toRat; norm_num
  have h100 : (F64.ofInt 50).toRat ≤ 100 := by rw [h50]; unfold F64.toRat; norm_num
  have hfl : ⌊(F64.ofInt 50).toRat⌋.toNat = 50 := by
    rw [h50]
    unfold F64.toRat
    norm_num
    rfl
  have hf : F64.fmt2 (F64.ofInt 50) = "50.00".toList := by decide
  have e1 := history_replay.1 (fun _ => "old".toList) 1 F64.zero sample0.mem (by decide)
    (by decide) (by decide)
  have e2 := history_replay.2.1 (fun _ => "old".toList) 1 (F64.ofInt 2)
    ⟨F64.ofInt 8, F64.lit 205 100, F64.ofInt 16, F64.ofInt 3⟩ 4
    "   |####* 0.05 (2.05)".toList (by decide) (by decide) (by decide!) (by decide)
    (by decide!) (by decide!)
  have e3 := history_replay.2.2.1 (fun _ => "old".toList) (F64.ofInt 50) 2 h0 h100 (by decide)
    (by decide)
  refine ⟨?_, ?_, _, e3, ?_, ?_⟩
  · rw [e1]
    decide
  · rw [e2]
    decide
  · rw [hfl, hf]
    decide
  · rw [hfl, hf]
    decide

/-- C15, the code at a failing input. The histories have 1024 rows whatever `samples` is:
at round index 1024 `systemOutput` and `CPUGraphics` write outside their array, the round
of `display` ends in undefined behaviour, and the loop with `samples = 1025` does run that
round. -/
theorem display_round_1024_out_of_bounds (terminal_memory_output CPU_output : Terminal)
    (memory_previous : F64) (cpu_previous idle_previous : Int) (out : List Char) (mem : memory)
    (users : List Char) (cpu : cpu_stats) (num_cores used_memory : Int) (uname : Option utsname)
    (samples tdelay : Int) (user graphics sequential : Bool) (usage : F64) (env : Nat → Sample)
    (st : DisplayState) :
    (systemOutput terminal_memory_output graphics 1024 memory_previous mem true).terminal = none ∧
    CPUGraphics CPU_output usage 1024 = none ∧
    (display.round samples tdelay true user graphics sequential
      ⟨terminal_memory_output, CPU_output, memory_previous, cpu_previous, idle_previous, out,
        Status.running⟩ 1024
      ⟨true, some used_memory, mem, true, users, cpu, num_cores, uname⟩).status =
      Status.undefined ∧
    display.loop 1025 tdelay true user graphics sequential env 1025 st =
      display.round 1025 tdelay true user graphics sequential
        (display.loop 1025 tdelay true user graphics sequential env 1024 st) 1024 (env 1024) := by
  have hsys : ∀ (t : Terminal) (mp : F64),
      systemOutput t graphics 1024 mp mem true =
        ⟨mp, false, ["--------------------------------------------".toList,
          "### Memory ### (Phys.Used/Tot -- Virtual Used/Tot)".toList], none⟩ := by
    intro t mp
    unfold systemOutput
    dsimp only
    rw [if_neg (by simp), if_pos (Or.inr (Or.inl (le_refl _)))]
  refine ⟨by rw [hsys], ?_, ?_, rfl⟩
  · unfold CPUGraphics
    split
    · rfl
    · dsimp only
      rw [if_pos (Or.inr (Or.inl (le_refl _)))]
  · have hmp : ∀ (st1 : DisplayState) (s : Sample), s.mem = mem → s.sysinfo_ok = true →
        (display.memoryPart samples true graphics st1 1024 s).status = Status.undefined := by
      intro st1 s h1 h2
      unfold display.memoryPart display.systemCall
      rw [h1, h2, hsys]
      rfl
    unfold display.round
    dsimp only
    have hr : ¬ (Status.running ≠ Status.running) := by simp
    have hs : ¬ ((!true) = true) := by simp
    rw [if_neg hr, if_neg hs]
    unfold headerUsage
    dsimp only
    rw [if_pos]
    · exact hmp _ _ rfl rfl
    · rw [hmp _ _ rfl rfl]
      decide

/-- C17. On SIGINT with a confirmation character `c` read, `signal_handler` exits with
success status if and only if `c` is 'y' or 'Y'; for every other `c` it asks once, writes
"Resuming..." and returns. The scenario: 'n' resumes, 'y' exits with status 0. -/
theorem signal_handler_confirm (c : Char) :
    ((signal_handler SIGINT (ScanResult.char c)).status = Status.exited 0 ↔ (c = 'y' ∨ c = 'Y')) ∧
    signal_handler SIGINT (ScanResult.char c) =
      (if c = 'y' ∨ c = 'Y' then ⟨signal_handler.question, 1, Status.exited 0⟩
       else ⟨signal_handler.question ++ "Resuming...\n".toList, 1, Status.running⟩) ∧
    signal_handler SIGINT (ScanResult.char 'n') =
      ⟨signal_handler.question ++ "Resuming...\n".toList, 1, Status.running⟩ ∧
    (signal_handler SIGINT (ScanResult.char 'y')).status = Status.exited 0 := by
  have h : signal_handler SIGINT (ScanResult.char c) =
      (if c = 'y' ∨ c = 'Y' then ⟨signal_handler.question, 1, Status.exited 0⟩
       else ⟨signal_handler.question ++ "Resuming...\n".toList, 1, Status.running⟩) := by
    unfold signal_handler
    rw [if_neg (by decide), if_pos rfl]
  refine ⟨?_, h, by decide, by decide⟩
  rw [h]
  by_cases hc : c = 'y' ∨ c = 'Y'
  · rw [if_pos hc]; exact ⟨fun _ => hc, fun _ => rfl⟩
  · rw [if_neg hc]
    constructor
    · intro h1; exact absurd h1 (by decide)
    · intro h1; exact absurd h1 hc

/-- C18. SIGTSTP is swallowed: `signal_handler` writes nothing, does not call `scanf`
(whatever it would yield) and returns; and when the confirmation read after SIGINT returns
`EOF` with `errno == EINTR`, the handler writes its log line and returns, having asked once. -/
theorem signal_handler_pause_and_interrupted_read (scan : ScanResult) :
    signal_handler SIGTSTP scan = ⟨[], 0, Status.running⟩ ∧
    signal_handler SIGINT (ScanResult.eof true) =
      ⟨signal_handler.question ++ "\nSignal detected during scanf, resuming...\n".toList, 1,
        Status.running⟩ := by
  constructor
  · unfold signal_handler
    rw [if_pos rfl]
  · decide

/-- C16. For every round `i` of `display` that starts (process running, pipes and children
created): when `sequential` is false the output of the round begins with the clear-screen
sequence, when it is true with the marker ">>> iteration i"; what follows is the same text
in both modes, and when the histories, the sessions text and the `uname` strings are plain,
the output contains no iteration marker in the first mode and no clear-screen sequence in
the second. -/
theorem display_round_marker (samples tdelay : Int) (system user graphics : Bool)
    (st : DisplayState) (i : Int) (s : Sample) (hrun : st.status = Status.running)
    (hspawn : s.spawn_ok = true) :
    ∃ out_clear out_seq body : List Char,
      (display.round samples tdelay system user graphics false st i s).stdout =
        st.stdout ++ out_clear ∧
      (display.round samples tdelay system user graphics true st i s).stdout =
        st.stdout ++ out_seq ∧
      out_clear = "\x1b[2J \x1b[1;1H\n".toList ++ body ∧
      out_seq = ">>> iteration ".toList ++ fmtInt i ++ ['\n'] ++ body ∧
      ((∀ k, Plain (st.terminal_memory_output k)) → (∀ k, Plain (st.CPU_output k)) →
        Plain s.users → (∀ u, s.uname = some u → u.AllPlain) →
        ¬ List.IsInfix ">>> iteration".toList out_clear ∧
        ¬ List.IsInfix "\x1b[2J \x1b[1;1H\n".toList out_seq) := by
  obtain ⟨body, hb, hp⟩ := display.round_stdout_plain samples tdelay system user graphics st i s
    hrun hspawn
  refine ⟨_, _, body, ?_, ?_, rfl, rfl, ?_⟩
  · have := hb false
    simp only [Bool.not_false, if_true] at this
    rw [this, List.append_assoc]
  · have := hb true
    simp only [Bool.not_true, Bool.false_eq_true, if_false] at this
    rw [this, List.append_assoc]
  · intro h1 h2 h3 h4
    have hbody := hp h1 h2 h3 h4
    constructor
    · intro hin
      have hmem : '>' ∈ "\x1b[2J \x1b[1;1H\n".toList ++ body :=
        hin.subset (by decide)
      rcases List.mem_append.1 hmem with h | h
      · exact absurd h (by decide)
      · exact (hbody _ h).2 rfl
    · intro hin
      have hmem : '\x1b' ∈ ">>> iteration ".toList ++ fmtInt i ++ ['\n'] ++ body :=
        hin.subset (by decide)
      rcases List.mem_append.1 hmem with h | h
      · rcases List.mem_append.1 h with h' | h'
        · rcases List.mem_append.1 h' with h'' | h''
          · exact absurd h'' (by decide)
          · exact (plain_fmtInt i _ h'').1 rfl
        · exact absurd h' (by decide)
      · exact (hbody _ h).1 rfl

/-- Witness of C16: round 0 on the sample of the scenario, in both modes. -/
theorem display_round_marker_witness :
    ∃ out_clear out_seq : List Char,
      (display.round 1 1 true false false false
        (display.init (fun _ => []) (fun _ => []) F64.zero) 0 sample0).stdout = out_clear ∧
      (display.round 1 1 true false false true
        (display.init (fun _ => []) (fun _ => []) F64.zero) 0 sample0).stdout = out_seq ∧
      List.IsPrefix "\x1b[2J \x1b[1;1H\n".toList out_clear ∧
      List.IsPrefix ">>> iteration 0\n".toList out_seq ∧
      ¬ List.IsInfix ">>> iteration".toList out_clear ∧
      ¬ List.IsInfix "\x1b[2J \x1b[1;1H\n".toList out_seq := by
  obtain ⟨oc, os, body, h1, h2, h3, h4, h5⟩ := display_round_marker 1 1 true false false
    (display.init (fun _ => []) (fun _ => []) F64.zero) 0 sample0 rfl rfl
  have hplain := h5 (fun _ => Plain.nil) (fun _ => Plain.nil) (by decide) (by
    intro u hu
    have : u = ⟨"Linux".toList, "host".toList, "v1".toList, "6.1".toList, "x86_64".toList⟩ :=
      (Option.some.inj hu).symm
    rw [this]
    unfold utsname.AllPlain
    decide)
  have e0 : (display.init (fun _ => []) (fun _ => []) F64.zero).stdout = [] := rfl
  rw [e0, List.nil_append] at h1 h2
  refine ⟨oc, os, h1, h2, ?_, ?_, hplain.1, hplain.2⟩
  · rw [h3]; exact List.prefix_append _ _
  · rw [h4]
    have : ">>> iteration ".toList ++ fmtInt 0 ++ ['\n'] = ">>> iteration 0\n".toList := by decide
    rw [this]; exact List.prefix_append _ _

/-- C21, counterexample. The deltas are computed in double arithmetic. With an idle counter
of `2 ^ 53 + 1` and the state (0, 0), `totald` is `2 ^ 53`, not the integer difference
`(cpu_total + idle) - (cpu_previous + idle_previous)`. With 117311060349331 non-idle
ticks since the state (0, 0), monotone counters, the product `1000 * (totald - idled)` and
the quotient are rounded upwards and the unclamped value is the double just above 100.1,
so it does not lie in [0.1, 100.1). -/
theorem CPUOutput_deltas_rounded :
    (totald 0 0 ⟨0, 0, 0, 9007199254740993, 0, 0, 0⟩).toRat ≠
      (((cpu_total ⟨0, 0, 0, 9007199254740993, 0, 0, 0⟩ + 9007199254740993) - (0 + 0) : Int) : ℚ) ∧
    cpu_total ⟨117311060349331, 0, 0, 0, 0, 0, 0⟩ = 117311060349331 ∧
    cpu_use_raw 0 0 ⟨117311060349331, 0, 0, 0, 0, 0, 0⟩ = ⟨7043911292184167, -46⟩ ∧
    (1001 : ℚ) / 10 ≤ (cpu_use_raw 0 0 ⟨117311060349331, 0, 0, 0, 0, 0, 0⟩).toRat := by
  have h1 : totald 0 0 ⟨0, 0, 0, 9007199254740993, 0, 0, 0⟩ = ⟨4503599627370496, 1⟩ := by
    decide!
  have h2 : cpu_total ⟨0, 0, 0, 9007199254740993, 0, 0, 0⟩ = 0 := by decide
  have h3 : cpu_use_raw 0 0 ⟨117311060349331, 0, 0, 0, 0, 0, 0⟩ =
      ⟨7043911292184167, -46⟩ := by decide!
  refine ⟨?_, by decide, h3, ?_⟩
  · rw [h1, h2]
    unfold F64.toRat
    norm_num
  · rw [h3]
    unfold F64.toRat
    norm_num

/-- C21, amended. When the tick counters and the stored state are not negative and both
totals are below `2 ^ 53`, the doubles `totald - idled` and `totald` of `CPUOutput` are
exactly `cpu_total - cpu_previous` and `(cpu_total + idle) - (cpu_previous + idle_previous)`;
if moreover neither the non-idle sum nor the idle counter has decreased and 1000 times the
non-idle delta is below `2 ^ 53`, the unclamped value lies in [0.1, 100.1) and the
reported value is at least 0.1. -/
theorem CPUOutput_deltas (terminal : Terminal) (graphics : Bool) (i : Int)
    (cpu_previous idle_previous : Int) (info : cpu_stats) (num_cores : Int)
    (h : ExactTicks cpu_previous idle_previous info) :
    (F64.sub (totald cpu_previous idle_previous info) (idled idle_previous info)).toRat =
      ((cpu_total info - cpu_previous : Int) : ℚ) ∧
    (totald cpu_previous idle_previous info).toRat =
      (((cpu_total info + info.idle) - (cpu_previous + idle_previous) : Int) : ℚ) ∧
    (cpu_previous ≤ cpu_total info → idle_previous ≤ info.idle →
      1000 * (cpu_total info - cpu_previous) < 2 ^ 53 →
      (1 : ℚ) / 10 ≤ (cpu_use_raw cpu_previous idle_previous info).toRat ∧
      (cpu_use_raw cpu_previous idle_previous info).toRat < (1001 : ℚ) / 10 ∧
      (1 : ℚ) / 10 ≤
        (CPUOutput terminal graphics i cpu_previous idle_previous info num_cores).cpu_use.toRat) := by
  obtain ⟨t1, _, t3⟩ := exactTicks_deltas cpu_previous idle_previous info h
  refine ⟨t3, t1, fun hcp hip hd => ?_⟩
  obtain ⟨hlo, hhi⟩ := cpu_use_raw_bounds cpu_previous idle_previous info h hcp hip hd
  have lo := le_trans lit_1_10_ge hlo
  refine ⟨lo, lt_of_le_of_lt hhi lit_1001_10_lt, ?_⟩
  rw [CPUOutput_cpu_use, cpu_use_toRat]
  exact le_min (by norm_num) lo

/-- Witness of C21: round 1 of the specification scenario. -/
theorem CPUOutput_deltas_witness :
    ExactTicks 160 9000 scenario1 ∧
    (F64.sub (totald 160 9000 scenario1) (idled 9000 scenario1)).toRat = 35 ∧
    (totald 160 9000 scenario1).toRat = 135 ∧
    (1 : ℚ) / 10 ≤ (cpu_use_raw 160 9000 scenario1).toRat ∧
    (cpu_use_raw 160 9000 scenario1).toRat < (1001 : ℚ) / 10 ∧
    (1 : ℚ) / 10 ≤ (CPUOutput (fun _ => []) true 1 160 9000 scenario1 4).cpu_use.toRat := by
  have hc : cpu_total scenario1 = 195 := by decide
  have hi : scenario1.idle = 9100 := by decide
  have h := CPUOutput_deltas (fun _ => []) true 1 160 9000 scenario1 4 (by decide)
  rw [hc, hi] at h
  refine ⟨by decide, ?_, ?_, h.2.2 (by decide) (by decide) (by decide)⟩
  · rw [h.1]
    norm_num
  · rw [h.2.1]
    norm_num

/-- C22, the code at failing inputs. With 2 GB before and 20 GB now the bar length is 1800,
so the fill loop of `memoryGraphicsOutput` writes `visual[4 .. 1803]`, outside the 1024
characters of `visual`: the call has no defined result. With 2 GB before and 12 GB now the
bar length is 1000 and the scratch buffer holds the 1019 characters of the graphics text,
but `strcat` appends them to the 42 characters of the numeric panel in a history slot of
1024 characters: `systemOutput` writes outside the slot. -/
theorem memoryGraphicsOutput_buffer_overflow :
    memoryGraphicsOutput.visual_len (F64.ofInt 20) (F64.ofInt 2) 1 = some 1800 ∧
    memoryGraphicsOutput.visual (memoryGraphicsOutput.diff (F64.ofInt 20) (F64.ofInt 2) 1) 1800 =
      none ∧
    (memoryGraphicsOutput (F64.ofInt 20) (F64.ofInt 2) 1).memoryGraphics = none ∧
    memoryGraphicsOutput.visual_len (F64.ofInt 12) (F64.ofInt 2) 1 = some 1000 ∧
    (memoryGraphicsOutput (F64.ofInt 12) (F64.ofInt 2) 1).memoryGraphics.map List.length =
      some 1019 ∧
    (systemOutput.panel ⟨F64.ofInt 16, F64.ofInt 12, F64.ofInt 32, F64.ofInt 13⟩).length = 42 ∧
    (systemOutput (fun _ => []) true 1 (F64.ofInt 2)
      ⟨F64.ofInt 16, F64.ofInt 12, F64.ofInt 32, F64.ofInt 13⟩ true).terminal = none := by
  have h : (systemOutput (fun _ => []) true 1 (F64.ofInt 2)
      ⟨F64.ofInt 16, F64.ofInt 12, F64.ofInt 32, F64.ofInt 13⟩ true).terminal.isNone = true := by
    decide!
  exact ⟨by decide!, by decide!, by decide!, by decide!, by decide!, by decide!,
    Option.isNone_iff_eq_none.1 h⟩

/-- C23. For every history, state, snapshot and core count that is not negative, at a round
index inside the history, the line that `CPUOutput` has `CPUGraphics` store fits its slot:
the reported value converts to an integer `u` with `0 ≤ u` and bar end index `u + 12 ≤ 112`,
the line is 9 spaces, the bar, a space and the two-decimal value, and with its terminator it
takes at most 120 characters, so the call has a defined result. -/
theorem CPUOutput_history_line_fits (terminal : Terminal) (i cpu_previous idle_previous : Int)
    (info : cpu_stats) (num_cores : Int) (hnc : 0 ≤ num_cores) (hi0 : 0 ≤ i) (hi : i < 1024) :
    ∃ (u : Int) (line : List Char),
      F64.toInt (cpu_use cpu_previous idle_previous info) = some u ∧
      0 ≤ u ∧ u + 12 ≤ 112 ∧
      (CPUOutput terminal true i cpu_previous idle_previous info num_cores).terminal =
        some (Function.update terminal i.toNat line) ∧
      line = "         ".toList ++ List.replicate (u.toNat + 3) '|' ++
        ' ' :: F64.fmt2 (cpu_use cpu_previous idle_previous info) ∧
      line.length = (u + 12).toNat + 1 +
        (F64.fmt2 (cpu_use cpu_previous idle_previous info)).length ∧
      line.length + 1 ≤ 120 := by
  obtain ⟨h0, h100⟩ := cpu_use_range cpu_previous idle_previous info
  obtain ⟨ht, hlo, hhi⟩ := F64.toInt_of_range _ h0 h100
  have hlen := F64.fmt2_length_le _ h0 h100
  have hg := CPUGraphics_of_range terminal _ i h0 h100 hi0 hi
  have h9 : "         ".toList.length = 9 := by decide
  have hl : ("         ".toList ++
      List.replicate (⌊(cpu_use cpu_previous idle_previous info).toRat⌋.toNat + 3) '|' ++
      ' ' :: F64.fmt2 (cpu_use cpu_previous idle_previous info)).length =
      (⌊(cpu_use cpu_previous idle_previous info).toRat⌋ + 12).toNat + 1 +
        (F64.fmt2 (cpu_use cpu_previous idle_previous info)).length := by
    simp only [List.length_append, List.length_replicate, List.length_cons, h9]
    omega
  refine ⟨_, _, ht, hlo, by omega, ?_, rfl, hl, ?_⟩
  · unfold CPUOutput
    dsimp only
    rw [if_neg (by omega), if_pos rfl, hg]
  · rw [hl]
    omega

/-- Witness of C23: round 1 of the specification scenario. -/
theorem CPUOutput_history_line_fits_witness :
    ∃ (u : Int) (line : List Char),
      F64.toInt (cpu_use 160 9000 scenario1) = some u ∧
      0 ≤ u ∧ u + 12 ≤ 112 ∧
      (CPUOutput (fun _ => []) true 1 160 9000 scenario1 4).terminal =
        some (Function.update (fun _ => []) (1 : Int).toNat line) ∧
      line = "         ".toList ++ List.replicate (u.toNat + 3) '|' ++
        ' ' :: F64.fmt2 (cpu_use 160 9000 scenario1) ∧
      line.length = (u + 12).toNat + 1 + (F64.fmt2 (cpu_use 160 9000 scenario1)).length ∧
      line.length + 1 ≤ 120 :=
  CPUOutput_history_line_fits (fun _ => []) 1 160 9000 scenario1 4 (by decide) (by decide)
    (by decide)

/-- C24. With graphics disabled `systemOutput` keeps the stored previous memory value and
stores in slot `i` the four-field numeric panel alone, which holds no character of a memory
bar; `CPUOutput` leaves the CPU history as it was and still stores the non-idle sum and the
idle counter of the snapshot; and a whole round of `display` changes neither the previous
memory value nor the CPU history. -/
theorem graphics_disabled (terminal : Terminal) (i : Int) (memory_previous : F64)
    (info : memory) (sysinfo_ok : Bool) (cpu_previous idle_previous : Int) (cpu : cpu_stats)
    (num_cores samples tdelay : Int) (system user sequential : Bool) (st : DisplayState)
    (s : Sample) (hi0 : 0 ≤ i) (hi : i < 1024)
    (hfit : (systemOutput.panel info).length + 1 ≤ 1024) :
    (systemOutput terminal false i memory_previous info sysinfo_ok).memory_previous =
      memory_previous ∧
    (systemOutput terminal false i memory_previous info true).terminal =
      some (Function.update terminal i.toNat
        (F64.fmt2 info.used_memory ++ " GB / ".toList ++ F64.fmt2 info.total_memory ++
          " GB -- ".toList ++ F64.fmt2 info.used_virtual ++ " GB / ".toList ++
          F64.fmt2 info.total_virtual ++ " GB".toList)) ∧
    (∀ c ∈ systemOutput.panel info,
      c ≠ '|' ∧ c ≠ '#' ∧ c ≠ ':' ∧ c ≠ '*' ∧ c ≠ '@' ∧ c ≠ 'o') ∧
    (CPUOutput terminal false i cpu_previous idle_previous cpu num_cores).terminal =
      some terminal ∧
    (CPUOutput terminal false i cpu_previous idle_previous cpu num_cores).cpu_previous =
      cpu_total cpu ∧
    (CPUOutput terminal false i cpu_previous idle_previous cpu num_cores).idle_previous =
      cpu.idle ∧
    (display.round samples tdelay system user false sequential st i s).memory_previous =
      st.memory_previous ∧
    (display.round samples tdelay system user false sequential st i s).CPU_output =
      st.CPU_output :=
  ⟨systemOutput_no_graphics terminal i memory_previous info sysinfo_ok,
    systemOutput_no_graphics_slot terminal i memory_previous info hi0 hi hfit,
    panel_no_bar info,
    CPUOutput_no_graphics terminal i cpu_previous idle_previous cpu num_cores,
    (CPUOutput_previous terminal false i cpu_previous idle_previous cpu num_cores).1,
    (CPUOutput_previous terminal false i cpu_previous idle_previous cpu num_cores).2,
    (display.round_no_graphics samples tdelay system user sequential st i s).1,
    (display.round_no_graphics samples tdelay system user sequential st i s).2⟩

/-- Witness of C24: round 0 with 12 GB of 16 GB in use. -/
theorem graphics_disabled_witness :
    (systemOutput (fun _ => []) false 0 (F64.ofInt 2)
      ⟨F64.ofInt 16, F64.ofInt 12, F64.ofInt 32, F64.ofInt 13⟩ true).terminal =
      some (Function.update (fun _ => []) (0 : Int).toNat
        "12.00 GB / 16.00 GB -- 13.00 GB / 32.00 GB".toList) ∧
    (CPUOutput (fun _ => []) false 0 0 0 scenario0 4).terminal = some (fun _ => []) ∧
    (CPUOutput (fun _ => []) false 0 0 0 scenario0 4).cpu_previous = cpu_total scenario0 := by
  have h := graphics_disabled (fun _ => []) 0 (F64.ofInt 2)
    ⟨F64.ofInt 16, F64.ofInt 12, F64.ofInt 32, F64.ofInt 13⟩ true 0 0 scenario0 4 1 1 true true
    true (display.init (fun _ => []) (fun _ => []) (F64.ofInt 2)) sample0 (by decide) (by decide)
    (by decide!)
  have hp : F64.fmt2 (F64.ofInt 12) ++ " GB / ".toList ++ F64.fmt2 (F64.ofInt 16) ++
      " GB -- ".toList ++ F64.fmt2 (F64.ofInt 13) ++ " GB / ".toList ++
      F64.fmt2 (F64.ofInt 32) ++ " GB".toList =
      "12.00 GB / 16.00 GB -- 13.00 GB / 32.00 GB".toList := by decide!
  exact ⟨hp ▸ h.2.1, h.2.2.2.1, h.2.2.2.2.1⟩

end SysMon
